import Mathlib

/-!
DiskFlashback sector back ends: a shallow embedding.

The definitions below transcribe, function by function, the C++ sources
`readwrite_file.cpp`, `sectorCache.cpp` and `mfminterface.cpp`.

Conventions of the embedding:

* a byte is a `Nat` below 256, a buffer is a `List Nat`;
* `uint32_t` / `uint16_t` arithmetic is `Nat` arithmetic followed by `u32` / `u16`;
* the host is little-endian (a 16-bit field read from a file is `b0 + 256 * b1`);
* a `FILE*` is the byte contents of the file together with the stream position;
  the C library calls `fseek`, `fread`, `fwrite` follow ISO C and never report
  an I/O error;
* a `std::map` is an association list kept in ascending key order;
* reads outside a buffer (undefined in C++) yield 0, division by zero
  (undefined in C++) yields 0 as in `Nat`;
* the clock is steady: the difference between a reading and an earlier one is
  written as a subtraction of naturals.
-/

namespace DiskFlashback

/-! ## Machine integers and memory helpers -/

/-- Truncation to `uint32_t`. -/
def u32 (x : Nat) : Nat := x % 2 ^ 32

/-- Truncation to `uint16_t`. -/
def u16 (x : Nat) : Nat := x % 2 ^ 16

/-- The macro `BYTESWAP(x)`, `(((x<<8) | (x>>8)) & 0xFFFF)`. -/
def BYTESWAP (x : Nat) : Nat := ((x <<< 8) ||| (x >>> 8)) &&& 0xFFFF

/-- A 16-bit field as the little-endian host reads it from two consecutive bytes. -/
def le16 (buf : List Nat) (off : Nat) : Nat := buf.getD off 0 + 256 * buf.getD (off + 1) 0

/-- The call `memcpy_s(dest, destsz, src, count)`: the first `count` bytes of `dest` are replaced
by those of `src`. -/
def memcpy_s (dest src : List Nat) (count : Nat) : List Nat :=
  src.take count ++ dest.drop (src.take count).length

/-- The call `std::vector::resize(n)` on a byte vector (new elements are zero). -/
def resize (v : List Nat) (n : Nat) : List Nat :=
  v.take n ++ List.replicate (n - v.length) 0

/-- Kinds of sector layout (`SectorType`). -/
inductive SectorType where
  | stUnknown
  | stAmiga
  | stIBM
  | stAtari
  | stHybrid
  deriving DecidableEq, Repr

/-- Access mode of an image file (`SectorMode`). -/
inductive SectorMode where
  | smNormal
  | smMSA
  deriving DecidableEq, Repr

/-! ## The C stream -/

/-- An open stream: contents of the file and current position. -/
structure FILE where
  bytes : List Nat
  pos : Nat
  deriving DecidableEq, Repr

/-- The call `fseek(f, pos, SEEK_SET)`. -/
def fseek (f : FILE) (pos : Nat) : FILE := { f with pos := pos }

/-- The call `fread(ptr, size, nmemb, f)`: transfers up to `size * nmemb` bytes into the buffer
and returns the number of complete ITEMS read (not the number of bytes), the buffer and the
advanced stream. -/
def fread (ptr : List Nat) (size nmemb : Nat) (f : FILE) : Nat × List Nat × FILE :=
  let got := (f.bytes.drop f.pos).take (size * nmemb)
  (if size = 0 then 0 else got.length / size,
   got ++ ptr.drop got.length,
   { f with pos := f.pos + got.length })

/-- The call `fwrite(ptr, size, nmemb, f)`: stores `size * nmemb` bytes at the stream position
(a gap past the end of the file is zero-filled) and returns the number of items written. -/
def fwrite (ptr : List Nat) (size nmemb : Nat) (f : FILE) : Nat × FILE :=
  let src := ptr.take (size * nmemb)
  let old := f.bytes ++ List.replicate (f.pos - f.bytes.length) 0
  (if size = 0 then 0 else nmemb,
   { bytes := old.take f.pos ++ src ++ old.drop (f.pos + src.length),
     pos := f.pos + src.length })

/-! ## Association lists standing for `std::map` -/

/-- The call `m.find(k)`: the value bound to `k`, if any. -/
def mapFind {α : Type} (k : Nat) : List (Nat × α) → Option α
  | [] => none
  | (k', v) :: rest => if k' = k then some v else mapFind k rest

/-- The call `m.insert(std::make_pair(k, v))`: ordered insertion, an existing binding is kept. -/
def mapInsert {α : Type} (k : Nat) (v : α) : List (Nat × α) → List (Nat × α)
  | [] => [(k, v)]
  | (k', v') :: rest =>
    if k < k' then (k, v) :: (k', v') :: rest
    else if k = k' then (k', v') :: rest
    else (k', v') :: mapInsert k v rest

/-- The call `m.erase(k)`. -/
def mapErase {α : Type} (k : Nat) (m : List (Nat × α)) : List (Nat × α) :=
  m.filter (fun e => e.1 ≠ k)

/-- Assignment through an iterator obtained from `m.find(k)`. -/
def mapSet {α : Type} (k : Nat) (v : α) : List (Nat × α) → List (Nat × α)
  | [] => []
  | (k', v') :: rest => if k' = k then (k', v) :: rest else (k', v') :: mapSet k v rest

/-- The values `getTrackDetails_IBM` hands back through its reference parameters. -/
structure IBMDetails where
  serialNumber : Nat
  numHeads : Nat
  totalSectors : Nat
  sectorsPerTrack : Nat
  bytesPerSector : Nat
  deriving DecidableEq, Repr

/-! ## `readwrite_file.cpp` -/

/-- Guess of the sectors per track from the image size (`readwrite_file.cpp` lines 35-74). -/
def SectorRW_File.GuessSectorsPerTrackFromImageSize (imageSize sectorSize : Nat) : Nat :=
  let fs := imageSize / sectorSize
  if fs = 80 * 2 * 9 ∨ fs = 81 * 2 * 9 ∨ fs = 82 * 2 * 9 ∨ fs = 83 * 2 * 9 then 9
  else if fs = 80 * 2 * 10 ∨ fs = 81 * 2 * 10 ∨ fs = 82 * 2 * 10 ∨ fs = 83 * 2 * 10 then 10
  else if fs = 80 * 2 * 11 ∨ fs = 81 * 2 * 11 ∨ fs = 82 * 2 * 11 ∨ fs = 83 * 2 * 11 then 11
  else if fs = 80 * 2 * 18 ∨ fs = 81 * 2 * 18 ∨ fs = 82 * 2 * 18 ∨ fs = 83 * 2 * 18 then 18
  else if fs = 2 * 80 * 2 * 11 ∨ fs = 2 * 81 * 2 * 11 ∨ fs = 2 * 82 * 2 * 11
      ∨ fs = 2 * 83 * 2 * 11 then 22
  else if fs > 84 * 2 * 11 then 22
  else 11

/-- One entry of the MSA track index (`SectorRW_File::DecodedTrack`). -/
structure SectorRW_File.DecodedTrack where
  seekPos : Nat
  dataSize : Nat
  data : List Nat
  deriving DecidableEq, Repr

/-- State of a file back end (the members of `SectorRW_File`); `m_file = none` is `NULL`. -/
structure SectorRW_File where
  m_file : Option FILE
  m_fileType : SectorType
  m_firstTrack : Nat
  m_serialNumber : Nat
  m_bytesPerSector : Nat
  m_sectorsPerTrack : Nat
  m_numHeads : Nat
  m_mode : SectorMode
  m_totalTracks : Nat
  m_trackSearch : List (Nat × SectorRW_File.DecodedTrack)
  deriving DecidableEq, Repr

namespace SectorRW_File

/-- The `for` loop of `decodeMSATrack` (lines 164-174) over the bytes still to visit; `skip` counts
the bytes stepped over by `pos += 3`, `out` is `track.data`. -/
def decodeLoop : List Nat → Nat → List Nat → List Nat
  | [], _, out => out
  | _ :: rest, skip + 1, out => decodeLoop rest skip out
  | b :: rest, 0, out =>
    if b = 0xE5 then
      let numBytes := u16 ((rest.getD 1 0 <<< 8) ||| rest.getD 2 0)
      decodeLoop rest 3 (out ++ List.replicate numBytes (rest.getD 0 0))
    else decodeLoop rest 0 (out ++ [b])

/-- Decoding of one MSA track at the stream position (`decodeMSATrack`, lines 145-181). -/
def decodeMSATrack (self : SectorRW_File) (f : FILE) (track : DecodedTrack) :
    Bool × DecodedTrack × FILE :=
  let uncompressedTrackSize := u32 (self.m_bytesPerSector * self.m_sectorsPerTrack)
  if track.dataSize = uncompressedTrackSize then
    let r := fread (resize track.data uncompressedTrackSize) track.dataSize 1 f
    (decide (r.1 = track.dataSize), { track with data := r.2.1 }, r.2.2)
  else
    let r := fread (resize [] track.dataSize) track.dataSize 1 f
    if r.1 ≠ track.dataSize then (false, track, r.2.2)
    else
      let data := decodeLoop r.2.1 0 track.data
      (decide (data.length ≥ uncompressedTrackSize), { track with data := data }, r.2.2)

/-- The `while (track <= trackSeek)` loop of the MSA read (lines 268-281); `n` is the number of
iterations left, `trackSeek + 1 - track`. The flag is false when the loop leaves through
`return false`; the tracks indexed before that stay in the index. -/
def msaSearch (self : SectorRW_File) :
    Nat → Nat → Nat → FILE → List (Nat × DecodedTrack) →
      Bool × List (Nat × DecodedTrack) × FILE
  | 0, _, _, f, idx => (true, idx, f)
  | n + 1, track, startSeekPos, f, idx =>
    let r := fread [0, 0] 2 1 f
    if r.1 ≠ 2 then (false, idx, r.2.2)
    else
      let dataSize := BYTESWAP (le16 r.2.1 0)
      let startSeekPos := u32 (startSeekPos + 2)
      let d := decodeMSATrack self r.2.2
        { seekPos := startSeekPos, dataSize := dataSize, data := [] }
      if ¬ d.1 then (false, idx, d.2.2)
      else msaSearch self n (u32 (track + 1)) startSeekPos d.2.2 (mapInsert track d.2.1 idx)

/-- Read of one sector from the image (`internalReadData`, lines 220-295): the success flag, the
caller's buffer and the new state. A `NULL` stream (undefined in C++) reads nothing. -/
def internalReadData (self : SectorRW_File) (sectorNumber sectorSize : Nat) (data : List Nat) :
    Bool × List Nat × SectorRW_File :=
  match self.m_file with
  | none => (false, data, self)
  | some file =>
    match self.m_mode with
    | SectorMode.smNormal =>
      let pos := u32 (sectorNumber * sectorSize)
      let r := fread data sectorSize 1 (fseek file pos)
      let bytesRead := r.1
      (decide (bytesRead = sectorSize), r.2.1, { self with m_file := some r.2.2 })
    | SectorMode.smMSA =>
      let trackSeek := sectorNumber / self.m_sectorsPerTrack
      let memPos := u32 ((sectorNumber % self.m_sectorsPerTrack) * sectorSize)
      let copyOut (st : SectorRW_File) (t : DecodedTrack) : Bool × List Nat × SectorRW_File :=
        if u32 (memPos + sectorSize) > t.data.length then (false, data, st)
        else (true, memcpy_s data (t.data.drop memPos) sectorSize, st)
      match mapFind trackSeek self.m_trackSearch with
      | some t => copyOut self t
      | none =>
        let start : Nat × Nat :=
          match self.m_trackSearch.getLast? with
          | some trk => (u32 (trk.1 + 1), u32 (trk.2.seekPos + trk.2.dataSize))
          | none => (self.m_firstTrack, 10)
        let r := msaSearch self (trackSeek + 1 - start.1) start.1 start.2 (fseek file start.2)
          self.m_trackSearch
        let st := { self with m_file := some r.2.2, m_trackSearch := r.2.1 }
        if ¬ r.1 then (false, data, st)
        else
          match mapFind trackSeek r.2.1 with
          | none => (false, data, st)
          | some t => copyOut st t

/-- Write of one sector to the image (`internalWriteData`, lines 297-316). -/
def internalWriteData (self : SectorRW_File) (_sectorNumber sectorSize : Nat) (data : List Nat) :
    Bool × SectorRW_File :=
  let write := 0
  match self.m_mode with
  | SectorMode.smNormal =>
    match self.m_file with
    | none => (false, self)
    | some file =>
      let r := fwrite data sectorSize 1 (fseek file 0)
      (decide (write = sectorSize), { self with m_file := some r.2 })
  | _ => (false, self)

/-- The call `GetFileSize(file)` (lines 317-331). -/
def GetFileSize (file : FILE) : Nat := file.bytes.length

/-- Whether the back end still holds its file (`available`). -/
def available (self : SectorRW_File) : Bool := self.m_file.isSome

/-- Modelled from the spec: the default value of the second parameter of
`GuessSectorsPerTrackFromImageSize`, declared in the absent header `readwrite_file.h`; the spec
guesses the geometry at 512 bytes per sector. -/
def defaultSectorSize : Nat := 512

/-- The call `filename.rfind(L".")`: index of the last dot, `none` for `npos`. -/
def rfindDot : List Char → Option Nat
  | [] => none
  | c :: cs =>
    match rfindDot cs with
    | some i => some (i + 1)
    | none => if c = '.' then some 0 else none

/-- The call `towupper(c)` in the "C" locale. -/
def towupper (c : Char) : Char := c.toUpper

/-- Lines 92-95: the text after the last dot of the file name, upper-cased; `none` when the name
has no dot. -/
def upperExt (filename : List Char) : Option (List Char) :=
  match rfindDot filename with
  | none => none
  | some i => some ((filename.drop (i + 1)).map towupper)

/-- Lines 126-137 of the constructor: for an IBM or Atari image the first 128 bytes are read and
handed to the boot-sector parser. `getTrackDetails_IBM` lives in the absent `ibm_sectors.cpp` and
is a parameter: from the sector bytes and the current values of its reference arguments it yields
its result and the values it leaves behind. -/
def readBootSector (getTrackDetails_IBM : List Nat → IBMDetails → Bool × IBMDetails)
    (s : SectorRW_File) : SectorRW_File :=
  if s.m_fileType = SectorType.stIBM ∨ s.m_fileType = SectorType.stAtari then
    let r := internalReadData s 0 (min s.m_bytesPerSector 128) (List.replicate 128 0)
    let s := r.2.2
    if r.1 then
      let d := getTrackDetails_IBM r.2.1
        { serialNumber := s.m_serialNumber, numHeads := s.m_numHeads, totalSectors := 0,
          sectorsPerTrack := s.m_sectorsPerTrack, bytesPerSector := s.m_bytesPerSector }
      let s := { s with m_serialNumber := d.2.serialNumber, m_numHeads := d.2.numHeads,
                        m_sectorsPerTrack := d.2.sectorsPerTrack,
                        m_bytesPerSector := d.2.bytesPerSector }
      if ¬ d.1 then
        { s with m_bytesPerSector := 512, m_numHeads := 2, m_serialNumber := 0x41444630 }
      else { s with m_totalTracks := d.2.totalSectors / s.m_sectorsPerTrack }
    else s
  else s

/-- Lines 140-141 of the constructor: geometry still unknown is guessed from the file size. -/
def guessGeometry (fle : FILE) (s : SectorRW_File) : SectorRW_File :=
  let s := if s.m_sectorsPerTrack = 0 then
      { s with m_sectorsPerTrack :=
          GuessSectorsPerTrackFromImageSize (u32 (GetFileSize fle)) defaultSectorSize }
    else s
  if s.m_totalTracks = 0 then
    { s with m_totalTracks :=
        if s.m_sectorsPerTrack ≠ 0 then
          u32 ((GetFileSize fle / s.m_sectorsPerTrack) / s.m_bytesPerSector)
        else 80 }
  else s

/-- Lines 77-86 of the constructor: the member initialisers. -/
def initial (fle : FILE) : SectorRW_File :=
  { m_file := some (fseek fle 0), m_fileType := SectorType.stAmiga, m_firstTrack := 0,
    m_serialNumber := 0x41444630, m_bytesPerSector := 512, m_sectorsPerTrack := 0,
    m_numHeads := 2, m_mode := SectorMode.smNormal, m_totalTracks := 0, m_trackSearch := [] }

/-- The constructor (lines 77-142); `getTrackDetails_IBM` as in `readBootSector`. -/
def new (getTrackDetails_IBM : List Nat → IBMDetails → Bool × IBMDetails)
    (filename : List Char) (fle : FILE) : SectorRW_File :=
  let s0 := initial fle
  let finish := guessGeometry fle
  let bootSector := readBootSector getTrackDetails_IBM
  match upperExt filename with
  | none => finish s0
  | some ext =>
    if ext = "IMG".toList ∨ ext = "IMA".toList ∨ ext = "DSK".toList then
      finish (bootSector { s0 with m_fileType := SectorType.stIBM, m_serialNumber := 0x494D4130 })
    else if ext = "ST".toList then
      finish (bootSector { s0 with m_fileType := SectorType.stAtari, m_serialNumber := 0x53544630 })
    else if ext = "MSA".toList then
      let r := fread (List.replicate 10 0) 10 1 (fseek fle 0)
      let header := r.2.1
      let read := r.1
      if read ≠ 10 ∨ le16 header 0 ≠ 0x0F0E then
        { s0 with m_file := none }
      else
        let firstTrack := BYTESWAP (le16 header 6)
        let totalTracks := (((BYTESWAP (le16 header 8) : Int) - firstTrack + 1) % 2 ^ 32).toNat
        let numHeads := BYTESWAP (le16 header 4) + 1
        finish (bootSector
          { s0 with m_file := some r.2.2, m_firstTrack := firstTrack,
                    m_totalTracks := u32 (totalTracks * numHeads), m_numHeads := numHeads,
                    m_sectorsPerTrack := BYTESWAP (le16 header 2),
                    m_fileType := SectorType.stAtari, m_serialNumber := 0x4D534120,
                    m_mode := SectorMode.smMSA })
    else finish (bootSector s0)

end SectorRW_File

end DiskFlashback

namespace DiskFlashback

/-! ## `sectorCache.cpp` -/

/-- One cached sector (`SectorCacheEngine::SectorData`). -/
structure SectorCacheEngine.SectorData where
  data : List Nat
  sectorSize : Nat
  lastUse : Nat
  deriving DecidableEq, Repr

/-- The members of the LRU sector cache (`SectorCacheEngine`): the map from sector number to
cached sector, the lazily computed entry limit and the byte budget. -/
structure SectorCacheEngine where
  m_cache : List (Nat × SectorCacheEngine.SectorData)
  m_maxCacheEntries : Nat
  m_cacheMaxMem : Nat
  deriving DecidableEq, Repr

namespace SectorCacheEngine

/-- The constructor `SectorCacheEngine(maxCacheMem)` (line 98). -/
def new (maxCacheMem : Nat) : SectorCacheEngine :=
  { m_cache := [], m_maxCacheEntries := 0, m_cacheMaxMem := maxCacheMem }

/-- The `for` loop of `getAndReleaseOldestSector` (lines 23-27): the accumulator is the pair
`(sectorNumber, result)`, `none` while `result` is null. -/
def oldestLoop : List (Nat × SectorData) → Option (Nat × SectorData) → Option (Nat × SectorData)
  | [], acc => acc
  | e :: rest, none => oldestLoop rest (some e)
  | e :: rest, some r =>
    oldestLoop rest (if e.2.lastUse < r.2.lastUse then some e else some r)

/-- Removal of the entry used least recently (`getAndReleaseOldestSector`, lines 19-32). -/
def getAndReleaseOldestSector (self : SectorCacheEngine) :
    Option SectorData × SectorCacheEngine :=
  match oldestLoop self.m_cache none with
  | none => (none, self)
  | some r => (some r.2, { self with m_cache := mapErase r.1 self.m_cache })

/-- Admission of a sector (`writeCache`, lines 36-74); `now` is the reading of the system clock
taken at line 73. Allocation is assumed to succeed and fresh memory is zero. -/
def writeCache (self : SectorCacheEngine) (sectorNumber sectorSize : Nat) (data : List Nat)
    (now : Nat) : SectorCacheEngine :=
  if self.m_cacheMaxMem = 0 then self
  else
    match mapFind sectorNumber self.m_cache with
    | none =>
      let self :=
        if self.m_maxCacheEntries = 0 then
          { self with m_maxCacheEntries := self.m_cacheMaxMem / sectorSize }
        else self
      if self.m_cache.length > self.m_maxCacheEntries then
        match getAndReleaseOldestSector self with
        | (none, self) => self
        | (some secData, self) =>
          let secData :=
            if secData.sectorSize ≠ sectorSize then
              { secData with data := List.replicate sectorSize 0, sectorSize := sectorSize }
            else secData
          let secData := { secData with data := memcpy_s secData.data data sectorSize,
                                        lastUse := now }
          { self with m_cache := mapInsert sectorNumber secData self.m_cache }
      else
        let secData : SectorData :=
          { data := List.replicate sectorSize 0, sectorSize := sectorSize, lastUse := 0 }
        let secData := { secData with data := memcpy_s secData.data data sectorSize,
                                      lastUse := now }
        { self with m_cache := mapInsert sectorNumber secData self.m_cache }
    | some secData =>
      let secData := { secData with data := memcpy_s secData.data data sectorSize,
                                    lastUse := now }
      { self with m_cache := mapSet sectorNumber secData self.m_cache }

/-- Lookup of a sector (`readCache`, lines 77-87): the hit flag, the caller's buffer and the new
cache; `now` is the reading of the system clock taken at line 85. -/
def readCache (self : SectorCacheEngine) (sectorNumber sectorSize : Nat) (data : List Nat)
    (now : Nat) : Bool × List Nat × SectorCacheEngine :=
  if self.m_cacheMaxMem = 0 then (false, data, self)
  else
    match mapFind sectorNumber self.m_cache with
    | none => (false, data, self)
    | some f =>
      let self :=
        if self.m_maxCacheEntries = 0 then
          { self with m_maxCacheEntries := self.m_cacheMaxMem / sectorSize }
        else self
      let out := memcpy_s data f.data (min sectorSize f.sectorSize)
      let f := { f with lastUse := now }
      (true, out, { self with m_cache := mapSet sectorNumber f self.m_cache })

/-- The call `readData` (lines 111-122). The virtual `internalReadData` of the derived class is a
parameter acting on the derived state `β`. -/
def readData {β : Type} (internalReadData : β → Nat → Nat → List Nat → Bool × List Nat × β)
    (self : SectorCacheEngine) (dev : β) (sectorNumber sectorSize : Nat) (data : List Nat)
    (now : Nat) : Bool × List Nat × SectorCacheEngine × β :=
  let c := readCache self sectorNumber sectorSize data now
  if c.1 then (true, c.2.1, c.2.2, dev)
  else
    let r := internalReadData dev sectorNumber sectorSize c.2.1
    if r.1 then (true, r.2.1, writeCache c.2.2 sectorNumber sectorSize r.2.1 now, r.2.2)
    else (false, r.2.1, c.2.2, r.2.2)

/-- The call `writeData` (lines 124-132), with the virtual `internalWriteData` as a parameter. -/
def writeData {β : Type} (internalWriteData : β → Nat → Nat → List Nat → Bool × β)
    (self : SectorCacheEngine) (dev : β) (sectorNumber sectorSize : Nat) (data : List Nat)
    (now : Nat) : Bool × SectorCacheEngine × β :=
  let r := internalWriteData dev sectorNumber sectorSize data
  if r.1 then (true, writeCache self sectorNumber sectorSize data now, r.2)
  else (false, self, r.2)

/-- A request to `readData`: sector number, caller's buffer and clock reading. -/
structure ReadRequest where
  sectorNumber : Nat
  data : List Nat
  now : Nat
  deriving DecidableEq, Repr

/-- The cache and device reached from `(self, dev)` by a sequence of `readData` calls with one
sector size. -/
def readAll {β : Type} (internalReadData : β → Nat → Nat → List Nat → Bool × List Nat × β)
    (sectorSize : Nat) (self : SectorCacheEngine) (dev : β) :
    List ReadRequest → SectorCacheEngine × β
  | [] => (self, dev)
  | q :: rest =>
    let r := readData internalReadData self dev q.sectorNumber sectorSize q.data q.now
    readAll internalReadData sectorSize r.2.2.1 r.2.2.2 rest

/-- The sector numbers held by the cache, each with its `lastUse` stamp, in map order. -/
def stamps (self : SectorCacheEngine) : List (Nat × Nat) :=
  self.m_cache.map (fun e => (e.1, e.2.lastUse))

/-- One admission into the cache: sector number, sector bytes and clock reading. -/
structure Admission where
  sectorNumber : Nat
  data : List Nat
  now : Nat
  deriving DecidableEq, Repr

/-- The cache after the admissions of the list, each through `writeCache`. -/
def admitAll (sectorSize : Nat) (self : SectorCacheEngine) (adm : List Admission) :
    SectorCacheEngine :=
  adm.foldl (fun st a => writeCache st a.sectorNumber sectorSize a.data a.now) self

end SectorCacheEngine

end DiskFlashback

namespace DiskFlashback

/-! ## `mfminterface.cpp` -/

/-- Modelled from the spec: the constant `MAX_TRACKS` of the absent header `mfminterface.h`;
the spec gives 168. -/
def MAX_TRACKS : Nat := 168

/-- Modelled from the spec: the constant `FORCE_FLUSH_AT_TRACKS` of the absent header
`mfminterface.h`; the spec gives 4. -/
def FORCE_FLUSH_AT_TRACKS : Nat := 4

/-- Modelled from the spec: the constant `MAX_TRACK_SIZE` of the absent header
`mfminterface.h`; the spec gives 16 KiB. -/
def MAX_TRACK_SIZE : Nat := 16384

/-- Modelled from the spec: the constant `TRACK_READ_TIMEOUT` of the absent header
`mfminterface.h`, in milliseconds; the spec gives about one second. -/
def TRACK_READ_TIMEOUT : Nat := 1000

/-- A decoded sector (`DecodedSector`). -/
structure DecodedSector where
  data : List Nat
  numErrors : Nat
  deriving DecidableEq, Repr

/-- A decoded track (`DecodedTrack` of the MFM engine): the map from sector index to sector. -/
structure DecodedTrack where
  sectors : List (Nat × DecodedSector)
  sectorsWithErrors : Nat
  deriving DecidableEq, Repr

/-- Conversion of a `uint32_t` value to `int` (two's complement, 32 bits). -/
def toInt32 (x : Nat) : Int :=
  if x % 2 ^ 32 < 2 ^ 31 then ((x % 2 ^ 32 : Nat) : Int) else ((x % 2 ^ 32 : Nat) : Int) - 2 ^ 32

/-- Assignment `a[i] = v` to a member array. -/
def setAt {α : Type} (a : Nat → α) (i : Nat) (v : α) : Nat → α :=
  fun j => if j = i then v else a j

/-- The pure virtual drive primitives of `SectorCacheMFM` (implemented by the bridge driver,
outside this repository) over a drive state `δ`: queries read the state, commands change it,
and reading the clock lets time pass. `mfmRead` yields the bit count and the filled buffer. -/
structure Bridge (δ : Type) where
  isDiskInDrive : δ → Bool
  isDriveWriteProtected : δ → Bool
  isHD : δ → Bool
  isPhysicalDisk : δ → Bool
  motorReady : δ → Bool
  writeCompleted : δ → Bool
  motorEnable : Bool → Bool → δ → δ
  cylinderSeek : Nat → Bool → δ → δ
  resetDrive : Nat → δ → δ
  restoreDrive : δ → Bool × δ
  mfmRead : Nat → Bool → List Nat → Nat → δ → (Nat × List Nat) × δ
  mfmReadCylinder : Nat → Bool → Bool → List Nat → Nat → δ → (Nat × List Nat) × δ
  mfmWrite : Nat → Bool → Bool → List Nat → Nat → δ → Bool × δ
  GetTickCount64 : δ → Nat × δ
  sleep : Nat → δ → δ

/-- The sector codec of the absent `amiga_sectors.cpp` and `ibm_sectors.cpp`.
`findSectors_AMIGA buf bits hd track expected out` and `findSectors_IBM buf bits hd track
expected out nonStandard` return the updated track (and flag); `getTrackDetails_AMIGA hd (spt,
bps)` returns the two values it leaves in its reference parameters; `getTrackDetails_IBM track`
returns the parsed boot-sector values, `none` when it returns false. -/
structure Codec where
  getTrackDetails_AMIGA : Bool → Nat × Nat → Nat × Nat
  findSectors_AMIGA : List Nat → Nat → Bool → Nat → Nat → DecodedTrack → DecodedTrack
  findSectors_IBM : List Nat → Nat → Bool → Nat → Nat → DecodedTrack → Bool → DecodedTrack × Bool
  getTrackDetails_IBM : DecodedTrack → Option IBMDetails

/-- The members of the MFM engine (`SectorCacheMFM`); the arrays indexed by plane are functions
of the plane, `m_trackCache plane track` is `m_trackCache[plane][track]`, `m_tracksToFlush` is the
dirty map. -/
structure SectorCacheMFM where
  m_diskType : SectorType
  m_diskInDrive : Bool
  m_alwaysIgnore : Bool
  m_ignoreErrors : Bool
  m_blockWriting : Bool
  m_writeOnly : Bool
  m_fileSystemID : Bool
  m_motorTurnOnTime : Nat
  m_mfmBuffer : List Nat
  m_sectorsPerTrack : Nat → Nat
  m_bytesPerSector : Nat → Nat
  m_serialNumber : Nat → Nat
  m_numHeads : Nat → Nat
  m_totalCylinders : Nat → Nat
  m_trackCache : Nat → Nat → DecodedTrack
  m_tracksToFlush : List (Nat × Nat)

namespace SectorCacheMFM

/-- The call `motorInUse(upperSide)` (lines 226-229). -/
def motorInUse {δ : Type} (br : Bridge δ) (upperSide : Bool) (self : SectorCacheMFM) (d : δ) :
    SectorCacheMFM × δ :=
  let d := if self.m_motorTurnOnTime = 0 then br.motorEnable true upperSide d else d
  let t := br.GetTickCount64 d
  ({ self with m_motorTurnOnTime := t.1 }, t.2)

/-- Lines 378-383 of `doTrackReading`: one pass of the read loop - the motor is kept on, the
track is requested by number and, when no bits came, by cylinder and head. The result is the bit
count, the engine with the filled scratch buffer and the drive. -/
def pollFlux {δ : Type} (br : Bridge δ) (fileSystem track : Nat) (retryMode : Bool)
    (self : SectorCacheMFM) (d : δ) : Nat × SectorCacheMFM × δ :=
  let m := motorInUse br (decide (track % self.m_numHeads fileSystem ≠ 0)) self d
  let self := m.1
  let r1 :=
    if fileSystem = 1 then
      br.mfmRead (u32 (track * (if self.m_numHeads fileSystem = 1 then 2 else 1))) retryMode
        self.m_mfmBuffer MAX_TRACK_SIZE m.2
    else br.mfmRead track retryMode self.m_mfmBuffer MAX_TRACK_SIZE m.2
  let r2 :=
    if r1.1.1 = 0 then
      br.mfmReadCylinder (track / self.m_numHeads fileSystem)
        (decide (track % self.m_numHeads fileSystem ≠ 0)) retryMode r1.1.2 MAX_TRACK_SIZE r1.2
    else r1
  (r2.1.1, { self with m_mfmBuffer := r2.1.2 }, r2.2)

/-- The `do ... while (!bitsReceived)` loop of `doTrackReading` (lines 375-389); `fuel` bounds
the number of iterations. The result is `none` when the fuel runs out, `some (none, ..)` when the
loop leaves through `return false`, `some (some bits, ..)` when flux was received. -/
def readFlux {δ : Type} (br : Bridge δ) (fileSystem track : Nat) (retryMode : Bool)
    (start : Nat) : Nat → SectorCacheMFM → δ → Option (Option Nat × SectorCacheMFM × δ)
  | 0, _, _ => none
  | fuel + 1, self, d =>
    let p := pollFlux br fileSystem track retryMode self d
    if p.1 = 0 then
      let t := br.GetTickCount64 p.2.2
      if t.1 - start > TRACK_READ_TIMEOUT then some (none, p.2.1, t.2)
      else readFlux br fileSystem track retryMode start fuel p.2.1 (br.sleep 50 t.2)
    else some (some p.1, p.2.1, p.2.2)

/-- Lines 392-440 of `doTrackReading`: identification of the disk from the flux in the scratch
buffer (run when `m_diskType` is unknown). -/
def identify (cd : Codec) (hd : Bool) (track bitsReceived : Nat) (self : SectorCacheMFM) :
    SectorCacheMFM :=
  let self := { self with
    m_serialNumber := setAt (setAt self.m_serialNumber 0 0x554E4B4E) 1 0x554E4B4E,
    m_numHeads := setAt (setAt self.m_numHeads 0 2) 1 2 }
  let ad := cd.getTrackDetails_AMIGA hd (self.m_sectorsPerTrack 0, self.m_bytesPerSector 0)
  let self := { self with
    m_sectorsPerTrack := setAt self.m_sectorsPerTrack 0 ad.1,
    m_bytesPerSector := setAt self.m_bytesPerSector 0 ad.2 }
  let trAmiga := cd.findSectors_AMIGA self.m_mfmBuffer bitsReceived hd track 0 ⟨[], 0⟩
  let ibm := cd.findSectors_IBM self.m_mfmBuffer bitsReceived hd track 0 ⟨[], 0⟩ false
  let trIBM := ibm.1
  let nonStandard := ibm.2
  let self :=
    if trAmiga.sectors.length ≠ 0 then
      { self with
        m_diskType := SectorType.stAmiga,
        m_sectorsPerTrack :=
          setAt self.m_sectorsPerTrack 0 (max (self.m_sectorsPerTrack 0) trAmiga.sectors.length),
        m_serialNumber := setAt self.m_serialNumber 0 0x414D4644 }
    else { self with m_diskType := SectorType.stUnknown }
  if trIBM.sectors.length ≥ 5 then
    let self := { self with m_diskType := SectorType.stIBM }
    match cd.getTrackDetails_IBM trIBM with
    | some det =>
      let self :=
        if trIBM.sectors.length ≥ 5 ∧ trAmiga.sectors.length > 1 then
          { self with m_diskType := SectorType.stHybrid }
        else if nonStandard then { self with m_diskType := SectorType.stAtari }
        else self
      let i := if self.m_diskType = SectorType.stHybrid then 1 else 0
      let self := { self with
        m_sectorsPerTrack := setAt self.m_sectorsPerTrack i det.sectorsPerTrack,
        m_bytesPerSector := setAt self.m_bytesPerSector i det.bytesPerSector,
        m_serialNumber := setAt self.m_serialNumber i det.serialNumber,
        m_numHeads := setAt self.m_numHeads i det.numHeads }
      { self with
        m_totalCylinders := setAt self.m_totalCylinders i
          (max 80 ((det.totalSectors / det.sectorsPerTrack) / self.m_numHeads i)) }
    | none =>
      { self with
        m_sectorsPerTrack := setAt self.m_sectorsPerTrack 0 (if hd then 18 else 9),
        m_bytesPerSector := setAt self.m_bytesPerSector 0 512,
        m_serialNumber := setAt self.m_serialNumber 0 0xAAAAAAAA,
        m_totalCylinders := setAt self.m_totalCylinders 0 80,
        m_numHeads := setAt self.m_numHeads 0 2 }
  else self

/-- The call `findSectors_AMIGA(m_mfmBuffer, bits, isHD(), trackNo, m_sectorsPerTrack[0],
m_trackCache[0][slot])`. -/
def storeAmiga (cd : Codec) (hd : Bool) (bitsReceived trackNo slot : Nat)
    (self : SectorCacheMFM) : SectorCacheMFM :=
  { self with
    m_trackCache := setAt self.m_trackCache 0
      (setAt (self.m_trackCache 0) slot
        (cd.findSectors_AMIGA self.m_mfmBuffer bitsReceived hd trackNo (self.m_sectorsPerTrack 0)
          (self.m_trackCache 0 slot))) }

/-- The call `findSectors_IBM(m_mfmBuffer, bits, isHD(), track, m_sectorsPerTrack[spt],
m_trackCache[plane][slot])`; the flag handed back by the finder is not used here. -/
def storeIBM (cd : Codec) (hd : Bool) (bitsReceived track spt plane slot : Nat)
    (nonStandard : Bool) (self : SectorCacheMFM) : SectorCacheMFM :=
  { self with
    m_trackCache := setAt self.m_trackCache plane
      (setAt (self.m_trackCache plane) slot
        (cd.findSectors_IBM self.m_mfmBuffer bitsReceived hd track (self.m_sectorsPerTrack spt)
          (self.m_trackCache plane slot) nonStandard).1) }

/-- Lines 391-464 of `doTrackReading`: what the function does once `bitsReceived` bits of flux
are in the scratch buffer - identification when the disk type is unknown, then decoding into the
plane caches. `hd` is the value of `isHD()`. -/
def decodeFlux (cd : Codec) (hd : Bool) (fileSystem track bitsReceived : Nat)
    (self : SectorCacheMFM) : SectorCacheMFM :=
  let ident := decide (self.m_diskType = SectorType.stUnknown)
  -- `nonStandard` is a local of the identification block; the later calls pass a fresh flag
  let self := if ident then identify cd hd track bitsReceived self else self
  let self :=
    if self.m_diskType = SectorType.stHybrid then
      if self.m_numHeads 1 = 2 then
        storeIBM cd hd bitsReceived track 1 1 track false
          (storeAmiga cd hd bitsReceived track track self)
      else if fileSystem = 1 then
        storeIBM cd hd bitsReceived track 1 1 track false
          (storeAmiga cd hd bitsReceived (u32 (track * 2)) (u32 (track * 2)) self)
      else
        let self := storeAmiga cd hd bitsReceived track track self
        if track &&& 1 = 0 then storeIBM cd hd bitsReceived track 1 1 (track >>> 1) false self
        else self
    else if self.m_diskType = SectorType.stAmiga then
      storeAmiga cd hd bitsReceived track track self
    else self
  if self.m_diskType = SectorType.stAtari ∨ self.m_diskType = SectorType.stIBM then
    storeIBM cd hd bitsReceived track 0 0 track false self
  else self

/-- One attempt to read a track (`doTrackReading`, lines 373-465) with at most `fuel` polls of
the drive: `none` when the fuel runs out, else the result and the new engine and drive. -/
def doTrackReading {δ : Type} (br : Bridge δ) (cd : Codec) (fuel : Nat)
    (fileSystem track : Nat) (retryMode : Bool) (self : SectorCacheMFM) (d : δ) :
    Option (Bool × SectorCacheMFM × δ) :=
  let start := br.GetTickCount64 d
  match readFlux br fileSystem track retryMode start.1 fuel self start.2 with
  | none => none
  | some (none, self, d) => some (false, self, d)
  | some (some bitsReceived, self, d) =>
    some (true, decodeFlux cd (br.isHD d) fileSystem track bitsReceived self, d)

/-- The call `internalWriteData` (lines 468-512). `flushPendingWrites`, reached through
`checkFlushPendingWrites` (lines 515-518) once the sector is recorded, is a parameter: any
function of the engine and the drive. `track` is the `int` of line 473; it indexes the caches
through `slot` (a negative index is undefined in C++). -/
def internalWriteData {δ : Type} (br : Bridge δ)
    (flushPendingWrites : SectorCacheMFM → δ → Bool × SectorCacheMFM × δ)
    (self : SectorCacheMFM) (d : δ) (sectorNumber sectorSize : Nat) (data : List Nat) :
    Bool × SectorCacheMFM × δ :=
  if self.m_blockWriting then (false, self, d)
  else if self.m_diskType = SectorType.stHybrid ∨ self.m_diskType = SectorType.stUnknown then
    (false, self, d)
  else if br.isDriveWriteProtected d then (false, self, d)
  else
    let track : Int := toInt32 (sectorNumber / self.m_sectorsPerTrack 0)
    if track ≥ (MAX_TRACKS : Int) then (false, self, d)
    else
      let slot := track.toNat
      let trackBlock := sectorNumber % self.m_sectorsPerTrack 0
      let upperSurface := decide (u32 (sectorNumber / self.m_sectorsPerTrack 0) %
        self.m_numHeads 0 ≠ 0)
      let sectors := (self.m_trackCache 0 slot).sectors
      let record (sectors : List (Nat × DecodedSector)) : Bool × SectorCacheMFM × δ :=
        let self := { self with
          m_trackCache := setAt self.m_trackCache 0
            (setAt (self.m_trackCache 0) slot
              { self.m_trackCache 0 slot with sectors := sectors }) }
        let self :=
          match mapFind slot self.m_tracksToFlush with
          | none => { self with m_tracksToFlush := mapInsert slot 1 self.m_tracksToFlush }
          | some n => { self with m_tracksToFlush := mapSet slot (n + 1) self.m_tracksToFlush }
        let m := motorInUse br upperSurface self d
        if m.1.m_tracksToFlush.length < FORCE_FLUSH_AT_TRACKS then (true, m.1, m.2)
        else
          let f := flushPendingWrites m.1 m.2
          (true, f.2.1, f.2.2)
      match mapFind trackBlock sectors with
      | some it =>
        let n := min sectorSize it.data.length
        if it.data.take n = data.take n then
          if it.numErrors = 0 then (true, self, d)
          else record (mapSet trackBlock ({ it with numErrors := 0 }) sectors)
        else
          record (mapSet trackBlock
            ({ data := memcpy_s it.data data n, numErrors := 0 }) sectors)
      | none =>
        let buf := resize [] (self.m_bytesPerSector 0)
        record (mapInsert trackBlock
          ({ data := memcpy_s buf data (min buf.length sectorSize), numErrors := 0 }) sectors)

/-- The engine's `writeData`: the inherited `SectorCacheEngine::writeData` over the engine's
`internalWriteData`; the derived state is the engine together with the drive. -/
def writeData {δ : Type} (br : Bridge δ)
    (flushPendingWrites : SectorCacheMFM → δ → Bool × SectorCacheMFM × δ)
    (cache : SectorCacheEngine) (self : SectorCacheMFM) (d : δ)
    (sectorNumber sectorSize : Nat) (data : List Nat) (now : Nat) :
    Bool × SectorCacheEngine × SectorCacheMFM × δ :=
  SectorCacheEngine.writeData
    (fun (dev : SectorCacheMFM × δ) n z buf =>
      internalWriteData br flushPendingWrites dev.1 dev.2 n z buf)
    cache (self, d) sectorNumber sectorSize data now

/-- The engine after `initDrive` (lines 32-43) on a freshly constructed object: no disk type, motor
off, nothing cached, nothing dirty; members the constructor leaves unset are zero. -/
def initial : SectorCacheMFM :=
  { m_diskType := SectorType.stUnknown, m_diskInDrive := false, m_alwaysIgnore := false,
    m_ignoreErrors := false, m_blockWriting := false, m_writeOnly := false,
    m_fileSystemID := true, m_motorTurnOnTime := 0, m_mfmBuffer := [],
    m_sectorsPerTrack := fun _ => 0, m_bytesPerSector := fun _ => 0,
    m_serialNumber := fun _ => 0, m_numHeads := fun _ => 0, m_totalCylinders := fun _ => 0,
    m_trackCache := fun _ _ => ⟨[], 0⟩, m_tracksToFlush := [] }

end SectorCacheMFM

/-- A track of `n` error-free sectors of 512 zero bytes, numbered from 0. -/
def blankTrack (n : Nat) : DecodedTrack :=
  ⟨(List.range n).map (fun i => (i, ⟨List.replicate 512 0, 0⟩)), 0⟩

/-- A codec for examples: on any flux the Amiga finder yields `amiga` sectors, the IBM finder
yields `ibm` sectors and the flag `nonStandard`, and the boot-sector parser answers `boot`. -/
def Codec.fixed (amiga ibm : Nat) (nonStandard : Bool) (boot : Option IBMDetails) : Codec :=
  { getTrackDetails_AMIGA := fun hd _ => (if hd then 22 else 11, 512),
    findSectors_AMIGA := fun _ _ _ _ _ _ => blankTrack amiga,
    findSectors_IBM := fun _ _ _ _ _ _ _ => (blankTrack ibm, nonStandard),
    getTrackDetails_IBM := fun _ => boot }

/-- A drive for examples over the clock as only state: a double-density disk is present, the
motor is ready, every read delivers 100000 bits and every clock reading advances time by 1 ms;
`writeProtected` is the position of the write-protect tab. -/
def Bridge.steady (writeProtected : Bool) : Bridge Nat :=
  { isDiskInDrive := fun _ => true, isDriveWriteProtected := fun _ => writeProtected,
    isHD := fun _ => false, isPhysicalDisk := fun _ => true, motorReady := fun _ => true,
    writeCompleted := fun _ => true, motorEnable := fun _ _ t => t,
    cylinderSeek := fun _ _ t => t, resetDrive := fun _ t => t,
    restoreDrive := fun t => (true, t),
    mfmRead := fun _ _ buf _ t => ((100000, buf), t),
    mfmReadCylinder := fun _ _ _ buf _ t => ((100000, buf), t),
    mfmWrite := fun _ _ _ _ _ t => (true, t),
    GetTickCount64 := fun t => (t, t + 1), sleep := fun ms t => t + ms }

end DiskFlashback

namespace DiskFlashback

/-! ## `mfminterface.cpp`: motor, flush and monitor -/

/-- Modelled from the spec: the constant `MAX_RETRIES` of the absent header `mfminterface.h`;
the spec gives 10. -/
def MAX_RETRIES : Nat := 10

/-- Modelled from the spec: the constant `MOTOR_TIMEOUT_TIME` of the absent header
`mfminterface.h`, in milliseconds; the spec gives about one second. -/
def MOTOR_TIMEOUT_TIME : Nat := 1000

/-- Modelled from the spec: the constant `MOTOR_IDLE_TIMEOUT` of the absent header
`mfminterface.h`, in milliseconds; the spec gives about two seconds. -/
def MOTOR_IDLE_TIMEOUT : Nat := 2000

/-- Modelled from the spec: the constant `DISK_WRITE_TIMEOUT` of the absent header
`mfminterface.h`, in milliseconds; the spec gives about two seconds. -/
def DISK_WRITE_TIMEOUT : Nat := 2000

/-- The track encoders of the absent `amiga_sectors.cpp` and `ibm_sectors.cpp`:
`encodeSectorsIntoMFM_AMIGA hd track trackNo maxBytes buf` and `encodeSectorsIntoMFM_IBM hd
asAtari track trackNo maxBytes buf` return the byte count and the filled buffer. -/
structure Encoder where
  encodeSectorsIntoMFM_AMIGA : Bool → DecodedTrack → Nat → Nat → List Nat → Nat × List Nat
  encodeSectorsIntoMFM_IBM : Bool → Bool → DecodedTrack → Nat → Nat → List Nat → Nat × List Nat

namespace SectorCacheMFM

/-- Assignment to `m_trackCache[plane][track].sectors`. -/
def setSectors (self : SectorCacheMFM) (plane track : Nat)
    (sectors : List (Nat × DecodedSector)) : SectorCacheMFM :=
  { self with
    m_trackCache := setAt self.m_trackCache plane
      (setAt (self.m_trackCache plane) track
        { self.m_trackCache plane track with sectors := sectors }) }

/-- The `while (!motorReady())` loop of `waitForMotor` (lines 234-239); the counter bounds the
number of iterations, `none` when it runs out. -/
def waitLoop {δ : Type} (br : Bridge δ) (upperSide : Bool) :
    Nat → SectorCacheMFM → δ → Option (Bool × SectorCacheMFM × δ)
  | 0, _, _ => none
  | n + 1, self, d =>
    if br.motorReady d then some (true, self, d)
    else
      let t := br.GetTickCount64 (br.sleep 100 d)
      if t.1 - self.m_motorTurnOnTime > MOTOR_TIMEOUT_TIME then some (false, self, t.2)
      else
        let m := motorInUse br upperSide self t.2
        waitLoop br upperSide n m.1 m.2

/-- The call `waitForMotor(upperSide)` (lines 232-241) with at most `F` polls. -/
def waitForMotor {δ : Type} (br : Bridge δ) (F : Nat) (upperSide : Bool)
    (self : SectorCacheMFM) (d : δ) : Option (Bool × SectorCacheMFM × δ) :=
  let m := motorInUse br upperSide self d
  waitLoop br upperSide F m.1 m.2

/-- The call `removeFailedWritesFromCache()` (lines 521-526). -/
def removeFailedWritesFromCache (self : SectorCacheMFM) : SectorCacheMFM :=
  { (self.m_tracksToFlush.foldl
      (fun s trk => if trk.2 ≠ 0 then setSectors s 0 trk.1 [] else s) self) with
    m_tracksToFlush := [] }

/-- Line 547-553: whether sectors are missing from the cached track or carry errors. -/
def fillData (self : SectorCacheMFM) (track : Nat) : Bool :=
  decide ((self.m_trackCache 0 track).sectors.length < self.m_sectorsPerTrack 0) ||
    (self.m_trackCache 0 track).sectors.any (fun it => decide (it.2.numErrors ≠ 0))

/-- Lines 560-569: in write-only mode every missing sector index gets a zeroed sector. -/
def synthesize (spt bps : Nat) (sectors : List (Nat × DecodedSector)) :
    List (Nat × DecodedSector) :=
  (List.range spt).foldl
    (fun m sec =>
      match mapFind sec m with
      | none => mapInsert sec ⟨resize [] bps, 0⟩ m
      | some _ => m)
    sectors

/-- Lines 576-582: every error-free sector of the copy replaces the sector of the same index. -/
def reinstate (backup sectors : List (Nat × DecodedSector)) : List (Nat × DecodedSector) :=
  backup.foldl
    (fun m sec =>
      if sec.2.numErrors = 0 then
        match mapFind sec.1 m with
        | some _ => mapSet sec.1 sec.2 m
        | none => m
      else m)
    sectors

/-- Lines 586-587: while the track has more than `spt` sectors the highest index is erased; the
counter is the number of sectors the track starts with. -/
def truncate (spt : Nat) : Nat → List (Nat × DecodedSector) → List (Nat × DecodedSector)
  | 0, m => m
  | n + 1, m =>
    if m.length > spt then
      match m.getLast? with
      | some e => truncate spt n (mapErase e.1 m)
      | none => m
    else m

/-- Lines 547-587 of `flushPendingWrites`: the cached track is completed, merged with what the
user wrote and cut to `m_sectorsPerTrack[0]` sectors. `none` when the read of the track runs out
of polls. -/
def prepareTrack {δ : Type} (br : Bridge δ) (cd : Codec) (F : Nat) (track : Nat)
    (self : SectorCacheMFM) (d : δ) : Option (SectorCacheMFM × δ) :=
  let cut (s : SectorCacheMFM) : SectorCacheMFM :=
    setSectors s 0 track
      (truncate (s.m_sectorsPerTrack 0) (s.m_trackCache 0 track).sectors.length
        (s.m_trackCache 0 track).sectors)
  if fillData self track then
    let backup := (self.m_trackCache 0 track).sectors
    if self.m_writeOnly then
      let s := setSectors self 0 track
        (synthesize (self.m_sectorsPerTrack 0) (self.m_bytesPerSector 0) backup)
      some (cut (setSectors s 0 track (reinstate backup (s.m_trackCache 0 track).sectors)), d)
    else
      match doTrackReading br cd F 0 track false self d with
      | none => none
      | some r =>
        let s := r.2.1
        some (cut (setSectors s 0 track (reinstate backup (s.m_trackCache 0 track).sectors)),
          r.2.2)
  else some (cut self, d)

/-- Lines 592-605: the track is encoded into the scratch buffer; the result is `numBytes` and the
engine. `hd` is the value of `isHD()`. -/
def encodeTrack (en : Encoder) (hd : Bool) (track : Nat) (self : SectorCacheMFM) :
    Nat × SectorCacheMFM :=
  let trk := self.m_trackCache 0 track
  let r : Nat × List Nat :=
    match self.m_diskType with
    | SectorType.stAmiga =>
      en.encodeSectorsIntoMFM_AMIGA hd trk track MAX_TRACK_SIZE self.m_mfmBuffer
    | SectorType.stIBM =>
      en.encodeSectorsIntoMFM_IBM hd false trk track MAX_TRACK_SIZE self.m_mfmBuffer
    | SectorType.stAtari =>
      en.encodeSectorsIntoMFM_IBM hd true trk track MAX_TRACK_SIZE self.m_mfmBuffer
    | SectorType.stHybrid =>
      if trk.sectors.length = 11 ∨ trk.sectors.length = 22 then
        en.encodeSectorsIntoMFM_AMIGA hd trk track MAX_TRACK_SIZE self.m_mfmBuffer
      else en.encodeSectorsIntoMFM_IBM hd true trk track MAX_TRACK_SIZE self.m_mfmBuffer
    | SectorType.stUnknown => (0, self.m_mfmBuffer)
  (u32 r.1, { self with m_mfmBuffer := r.2 })

/-- Lines 701-730: the comparison of the copy taken before the verify with the track read back;
true when no error was found, that is when every sector of the copy is present in the track read
back with no errors, the same size and the same bytes. -/
def verifyMatches (backup sectors : List (Nat × DecodedSector)) : Bool :=
  backup.all (fun sec =>
    match mapFind sec.1 sectors with
    | none => false
    | some s =>
      decide (s.numErrors = 0) && decide (s.data.length = sec.2.data.length) &&
        decide (s.data.take s.data.length = sec.2.data.take s.data.length))

/-- The `while (!writeCompleted())` loop (lines 650-674); the flag is false when the loop leaves
through `return false` after `DISK_WRITE_TIMEOUT`; `none` when the counter runs out. -/
def awaitWrite {δ : Type} (br : Bridge δ) (cylinder start : Nat) :
    Nat → SectorCacheMFM → δ → Option (Bool × SectorCacheMFM × δ)
  | 0, _, _ => none
  | n + 1, self, d =>
    if br.writeCompleted d then some (true, self, d)
    else
      let t := br.GetTickCount64 d
      if t.1 - start > DISK_WRITE_TIMEOUT then
        let d := br.resetDrive cylinder t.2
        let self := { self with m_motorTurnOnTime := 0 }
        let d := if br.isPhysicalDisk d then br.sleep 200 d else d
        -- lines 657-672: both branches of the media test return false
        some (false, self, d)
      else awaitWrite br cylinder start n self t.2

/-- The verifying `for (;;)` loop (lines 681-698): the track is read back until a read succeeds;
the flag is false when the loop leaves through `return false` (read failed with media present);
`none` when the counter or the polls of a read run out. -/
def verifyRead {δ : Type} (br : Bridge δ) (cd : Codec) (F : Nat) (track : Nat)
    (retryMode : Bool) : Nat → SectorCacheMFM → δ → Option (Bool × SectorCacheMFM × δ)
  | 0, _, _ => none
  | n + 1, self, d =>
    match doTrackReading br cd F 0 track retryMode self d with
    | none => none
    | some (true, s, d) => some (true, s, d)
    | some (false, s, d) =>
      let s := { s with m_motorTurnOnTime := 0 }
      if ¬ br.isDiskInDrive d then
        let d := if br.isPhysicalDisk d then br.sleep 100 d else d
        verifyRead br cd F track retryMode n s d
      else some (false, s, d)

/-- Lines 616-628 of the write retry loop: at `retries == MAX_RETRIES / 2` the head is moved
away (on a physical drive) and `retries` starts again at 0. The result holds the new value of
`retries`. -/
def reseek {δ : Type} (br : Bridge δ) (upperSurface : Bool) (cylinder retries : Nat)
    (self : SectorCacheMFM) (d : δ) : Nat × SectorCacheMFM × δ :=
  if retries = MAX_RETRIES / 2 then
    if br.isPhysicalDisk d then
      let m := motorInUse br upperSurface self d
      let d := if cylinder < 40 then br.cylinderSeek 79 upperSurface m.2
        else br.cylinderSeek 0 upperSurface m.2
      (0, m.1, br.sleep 300 d)
    else (0, self, d)
  else (retries, self, d)

/-- The write retry loop `for (;;)` (lines 615-742) for one track; `upperSurface` and `cylinder`
are the constants of lines 534-535. The flag is true when the loop is left by the `break` of line
732 (written and verified) and false when `flushPendingWrites` returns false from inside the loop;
`none` when the counter (the number of write attempts allowed) or an inner loop runs out. -/
def writeLoop {δ : Type} (br : Bridge δ) (cd : Codec) (F : Nat) (track : Nat)
    (upperSurface : Bool) (cylinder : Nat) (numBytes : Nat) :
    Nat → Nat → SectorCacheMFM → δ → Option (Bool × SectorCacheMFM × δ)
  | 0, _, _, _ => none
  | n + 1, retries, self, d =>
    let c := reseek br upperSurface cylinder retries self d
    let retries := c.1
    let m := motorInUse br upperSurface c.2.1 (br.cylinderSeek cylinder upperSurface c.2.2)
    if ¬ br.isDiskInDrive m.2 then some (false, m.1, m.2)
    else
      let w := br.mfmWrite cylinder upperSurface
        (decide (m.1.m_diskType = SectorType.stIBM ∨ m.1.m_diskType = SectorType.stAtari))
        m.1.m_mfmBuffer numBytes m.2
      if w.1 then
        let start := br.GetTickCount64 w.2
        match awaitWrite br cylinder start.1 F m.1 start.2 with
        | none => none
        | some (false, s, d) => some (false, s, d)
        | some (true, s, d) =>
          let backup := (s.m_trackCache 0 track).sectors
          match verifyRead br cd F track (decide (retries > 1)) F s d with
          | none => none
          | some (false, s, d) => some (false, s, d)
          | some (true, s, d) =>
            if verifyMatches backup (s.m_trackCache 0 track).sectors then some (true, s, d)
            else writeLoop br cd F track upperSurface cylinder numBytes n (retries + 1) s d
      else some (false, removeFailedWritesFromCache m.1, w.2)

/-- The body of the `for` loop over the dirty map (lines 533-745) for one track: spin up, prepare,
encode, write and verify, then `trk.second = 0`. The flag is false when `flushPendingWrites`
returns false from inside the body. -/
def flushTrack {δ : Type} (br : Bridge δ) (cd : Codec) (en : Encoder) (F : Nat) (track : Nat)
    (self : SectorCacheMFM) (d : δ) : Option (Bool × SectorCacheMFM × δ) :=
  let upperSurface := decide (track % self.m_numHeads 0 ≠ 0)
  let cylinder := track / self.m_numHeads 0
  let m := motorInUse br upperSurface self d
  match waitForMotor br F upperSurface m.1 (br.cylinderSeek cylinder upperSurface m.2) with
  | none => none
  | some (false, s, d) => some (false, { s with m_tracksToFlush := [] }, d)
  | some (true, s, d) =>
    match prepareTrack br cd F track s (br.cylinderSeek cylinder upperSurface d) with
    | none => none
    | some p =>
      let e := encodeTrack en (br.isHD p.2) track p.1
      match writeLoop br cd F track upperSurface cylinder e.1 F 0 e.2 p.2 with
      | none => none
      | some (false, s, d) => some (false, s, d)
      | some (true, s, d) =>
        some (true, { s with m_tracksToFlush := mapSet track 0 s.m_tracksToFlush }, d)

/-- The `for (auto& trk : m_tracksToFlush)` loop (lines 532-746) over the entries of the dirty
map still to visit. -/
def flushTracks {δ : Type} (br : Bridge δ) (cd : Codec) (en : Encoder) (F : Nat) :
    List (Nat × Nat) → SectorCacheMFM → δ → Option (Bool × SectorCacheMFM × δ)
  | [], self, d => some (true, self, d)
  | trk :: rest, self, d =>
    match flushTrack br cd en F trk.1 self d with
    | none => none
    | some (false, s, d) => some (false, s, d)
    | some (true, s, d) => flushTracks br cd en F rest s d

/-- The call `flushPendingWrites()` (lines 529-750); every loop inside is allowed `F` iterations
and the result is `none` when one of them needs more. -/
def flushPendingWrites {δ : Type} (br : Bridge δ) (cd : Codec) (en : Encoder) (F : Nat)
    (self : SectorCacheMFM) (d : δ) : Option (Bool × SectorCacheMFM × δ) :=
  if self.m_blockWriting then some (false, self, d)
  else
    match flushTracks br cd en F self.m_tracksToFlush self d with
    | none => none
    | some (false, s, d) => some (false, s, d)
    | some (true, s, d) => some (true, removeFailedWritesFromCache s, d)

/-- The `for (retries < 5)` loop of `identifyFileSystem` (lines 105-109); `k` is the number of
attempts left. -/
def identifyLoop {δ : Type} (br : Bridge δ) (cd : Codec) (F : Nat) :
    Nat → SectorCacheMFM → δ → Option (SectorCacheMFM × δ)
  | 0, self, d => some (self, d)
  | k + 1, self, d =>
    match doTrackReading br cd F 0 0 false self d with
    | none => none
    | some (ok, s, d) =>
      if ok ∧ s.m_diskType ≠ SectorType.stUnknown then some (s, d)
      else identifyLoop br cd F k s d

/-- The call `identifyFileSystem()` (lines 92-111). -/
def identifyFileSystem {δ : Type} (br : Bridge δ) (cd : Codec) (F : Nat)
    (self : SectorCacheMFM) (d : δ) : Option (SectorCacheMFM × δ) :=
  if ¬ self.m_fileSystemID then some (self, d)
  else
    let self := { self with
      m_totalCylinders := setAt (setAt self.m_totalCylinders 0 0) 1 0,
      m_numHeads := setAt (setAt self.m_numHeads 0 2) 1 2,
      m_alwaysIgnore := false,
      m_diskType := SectorType.stUnknown }
    let m := motorInUse br true self (br.cylinderSeek 0 false d)
    match waitForMotor br F false m.1 m.2 with
    | none => none
    | some (false, s, d) => some (s, d)
    | some (true, s, d) => identifyLoop br cd F 5 s d

/-- Every track below `MAX_TRACKS` of one plane loses its sectors. -/
def clearPlane (self : SectorCacheMFM) (plane : Nat) : SectorCacheMFM :=
  { self with
    m_trackCache := setAt self.m_trackCache plane
      (fun trk =>
        if trk < MAX_TRACKS then { self.m_trackCache plane trk with sectors := [] }
        else self.m_trackCache plane trk) }

/-- Lines 179-185 of `motorMonitor`, the time-out part: when the motor has been on and idle for
more than `MOTOR_IDLE_TIMEOUT` the pending writes are flushed (the result is not looked at), the
motor is switched off and the flags are reset. The clock is read only when `m_motorTurnOnTime` is
non-zero. `none` when the flush needs more than `F` iterations of one of its loops. -/
def idleTimeout {δ : Type} (br : Bridge δ) (cd : Codec) (en : Encoder) (F : Nat)
    (self : SectorCacheMFM) (d : δ) : Option (SectorCacheMFM × δ) :=
  if self.m_motorTurnOnTime ≠ 0 then
    let t := br.GetTickCount64 d
    if t.1 - self.m_motorTurnOnTime > MOTOR_IDLE_TIMEOUT then
      match flushPendingWrites br cd en F self t.2 with
      | none => none
      | some (_, s, d) =>
        let d := br.motorEnable false false d
        let s := if ¬ s.m_alwaysIgnore then { s with m_ignoreErrors := false } else s
        some ({ s with m_blockWriting := false, m_motorTurnOnTime := 0 }, d)
    else some (self, t.2)
  else some (self, d)

/-- The call `motorMonitor()` (lines 174-223). `hasCallback` tells whether
`m_diskChangeCallback` is set; the result holds the engine, the drive and the calls made to the
callback. -/
def motorMonitor {δ : Type} (br : Bridge δ) (cd : Codec) (en : Encoder) (F : Nat)
    (hasCallback : Bool) (self : SectorCacheMFM) (d : δ) :
    Option (SectorCacheMFM × δ × List (Bool × SectorType)) :=
  match idleTimeout br cd en F self d with
  | none => none
  | some (self, d) =>
    -- lines 188-209
    let isDiskNowInDrive := br.isDiskInDrive d
    if isDiskNowInDrive ≠ self.m_diskInDrive then
      let r : SectorCacheMFM × δ :=
        if ¬ isDiskNowInDrive then
          let d := br.motorEnable false false (br.cylinderSeek 0 false d)
          let s := if self.m_tracksToFlush.length ≠ 0 then { self with m_tracksToFlush := [] }
            else self
          -- lines 200-205: plane 0 is cleared twice
          let s := if s.m_tracksToFlush.length < 1 then clearPlane (clearPlane s 0) 0 else s
          (s, d)
        else (self, d)
      let self := { r.1 with m_diskInDrive := isDiskNowInDrive }
      let d := r.2
      -- lines 212-222
      if ¬ self.m_fileSystemID then some (self, d, [])
      else if hasCallback then
        let self := clearPlane (clearPlane self 0) 1
        if self.m_diskInDrive then
          match identifyFileSystem br cd F self d with
          | none => none
          | some (s, d) =>
            some (s, d,
              [(s.m_diskInDrive, if s.m_diskInDrive then s.m_diskType else SectorType.stUnknown)])
        else
          some ({ self with m_diskType := SectorType.stUnknown }, d,
            [(false, SectorType.stUnknown)])
      else some (self, d, [])
    else some (self, d, [])

/-- Lines 503-508 of `internalWriteData`: with the sectors of the track replaced, the dirty
counter of the track is created at 1 or incremented and the motor is kept on. -/
def stageRecord {δ : Type} (br : Bridge δ) (self : SectorCacheMFM) (d : δ) (slot : Nat)
    (upperSurface : Bool) (sectors : List (Nat × DecodedSector)) : SectorCacheMFM × δ :=
  let self := setSectors self 0 slot sectors
  let self :=
    match mapFind slot self.m_tracksToFlush with
    | none => { self with m_tracksToFlush := mapInsert slot 1 self.m_tracksToFlush }
    | some n => { self with m_tracksToFlush := mapSet slot (n + 1) self.m_tracksToFlush }
  motorInUse br upperSurface self d

/-- Lines 468-508 of `internalWriteData`: everything before the call of
`checkFlushPendingWrites`. The result is `Except.error b` when the function has returned `b` by
then, leaving the engine untouched, and `Except.ok` with the engine and drive reached at line 509
otherwise. -/
def stageWrite {δ : Type} (br : Bridge δ) (self : SectorCacheMFM) (d : δ)
    (sectorNumber sectorSize : Nat) (data : List Nat) : Except Bool (SectorCacheMFM × δ) :=
  if self.m_blockWriting then Except.error false
  else if self.m_diskType = SectorType.stHybrid ∨ self.m_diskType = SectorType.stUnknown then
    Except.error false
  else if br.isDriveWriteProtected d then Except.error false
  else
    let track : Int := toInt32 (sectorNumber / self.m_sectorsPerTrack 0)
    if track ≥ (MAX_TRACKS : Int) then Except.error false
    else
      let slot := track.toNat
      let trackBlock := sectorNumber % self.m_sectorsPerTrack 0
      let upperSurface := decide (u32 (sectorNumber / self.m_sectorsPerTrack 0) %
        self.m_numHeads 0 ≠ 0)
      let sectors := (self.m_trackCache 0 slot).sectors
      match mapFind trackBlock sectors with
      | some it =>
        let n := min sectorSize it.data.length
        if it.data.take n = data.take n then
          if it.numErrors = 0 then Except.error true
          else
            Except.ok (stageRecord br self d slot upperSurface
              (mapSet trackBlock ({ it with numErrors := 0 }) sectors))
        else
          Except.ok (stageRecord br self d slot upperSurface
            (mapSet trackBlock ({ data := memcpy_s it.data data n, numErrors := 0 }) sectors))
      | none =>
        let buf := resize [] (self.m_bytesPerSector 0)
        Except.ok (stageRecord br self d slot upperSurface
          (mapInsert trackBlock
            ({ data := memcpy_s buf data (min buf.length sectorSize), numErrors := 0 })
            sectors))

/-- An engine for examples: a double-density PC disk (9 sectors of 512 bytes, 2 heads, 80
cylinders) has been identified and is in the drive, nothing is cached, nothing is dirty. -/
def ibmDD : SectorCacheMFM :=
  { initial with
    m_diskType := SectorType.stIBM, m_diskInDrive := true,
    m_sectorsPerTrack := fun _ => 9, m_bytesPerSector := fun _ => 512,
    m_numHeads := fun _ => 2, m_totalCylinders := fun _ => 80 }

/-- An engine for examples: `ibmDD` with track 0 read (nine blank sectors) and sector 0 then
overwritten with 512 bytes `E5`, so that track 0 is dirty with counter 1. -/
def ibmWritten : SectorCacheMFM :=
  { setSectors ibmDD 0 0 (mapSet 0 ⟨List.replicate 512 0xE5, 0⟩ (blankTrack 9).sectors) with
    m_tracksToFlush := [(0, 1)] }

end SectorCacheMFM

/-- A drive for examples: as `Bridge.steady` with the tab open, but no disk is in the drive. -/
def Bridge.ejected : Bridge Nat :=
  { Bridge.steady false with isDiskInDrive := fun _ => false }

/-- A drive for examples: as `Bridge.steady` with the tab open, but a write never completes and
every clock reading advances time by one second. -/
def Bridge.stalled : Bridge Nat :=
  { Bridge.steady false with
    writeCompleted := fun _ => false, GetTickCount64 := fun t => (t, t + 1000) }

/-- An encoder for examples: the scratch buffer is left as it is and a track takes 12500 bytes. -/
def Encoder.plain : Encoder :=
  { encodeSectorsIntoMFM_AMIGA := fun _ _ _ _ buf => (12500, buf),
    encodeSectorsIntoMFM_IBM := fun _ _ _ _ _ buf => (12500, buf) }

/-- A codec for examples: the flux read back always decodes to the sectors the track cache
already holds (the disk returns what was written). -/
def Codec.echo : Codec :=
  { getTrackDetails_AMIGA := fun hd _ => (if hd then 22 else 11, 512),
    findSectors_AMIGA := fun _ _ _ _ _ out => out,
    findSectors_IBM := fun _ _ _ _ _ out _ => (out, false),
    getTrackDetails_IBM := fun _ => none }

/-- A track holding only sector 0, read with one error. -/
def noisyTrack : DecodedTrack :=
  ⟨[(0, ⟨List.replicate 512 0, 1⟩)], 0⟩

/-- A codec for examples: a damaged surface - the IBM finder always yields `noisyTrack`, whatever
the flux. -/
def Codec.noisy : Codec :=
  { getTrackDetails_AMIGA := fun hd _ => (if hd then 22 else 11, 512),
    findSectors_AMIGA := fun _ _ _ _ _ _ => ⟨[], 0⟩,
    findSectors_IBM := fun _ _ _ _ _ _ _ => (noisyTrack, false),
    getTrackDetails_IBM := fun _ => none }

/-! ## `MountedVolumes.cpp`: the block device handed to FatFs -/

/-- The status bit `STA_NOINIT` of FatFs (`diskio.h`). -/
def STA_NOINIT : Nat := 1

/-- The status bit `STA_NODISK` of FatFs (`diskio.h`). -/
def STA_NODISK : Nat := 2

/-- The status bit `STA_PROTECT` of FatFs (`diskio.h`). -/
def STA_PROTECT : Nat := 4

/-- The results of the disk functions of FatFs (`DRESULT` in `diskio.h`). -/
inductive DRESULT where
  | RES_OK
  | RES_ERROR
  | RES_WRPRT
  | RES_NOTRDY
  | RES_PARERR
  deriving DecidableEq, Repr

/-- The virtual interface of `SectorCacheEngine` the disk functions call, over a back end state
`β`: the two media queries and the two sector sizes read the state, `hybridReadData sector size`
returns its result, the bytes it stores at the start of the caller's buffer and the new state. -/
structure BlockDevice (β : Type) where
  isDiskPresent : β → Bool
  isDiskWriteProtected : β → Bool
  sectorSize : β → Nat
  hybridSectorSize : β → Nat
  hybridReadData : β → Nat → Nat → Bool × List Nat × β

/-- The call `disk_status(pdrv)` (lines 14-21); `fatfsSectorCache` is `none` when null. -/
def disk_status {β : Type} (dev : BlockDevice β) (fatfsSectorCache : Option β) (pdrv : Nat) :
    Nat :=
  match fatfsSectorCache with
  | some c =>
    if pdrv = 0 then
      if ¬ dev.isDiskPresent c then STA_NODISK
      else if dev.isDiskWriteProtected c then STA_PROTECT
      else 0
    else STA_NOINIT
  | none => STA_NOINIT

/-- The call `disk_initialize(pdrv)` (lines 22-29). -/
def disk_initialize {β : Type} (dev : BlockDevice β) (fatfsSectorCache : Option β)
    (pdrv : Nat) : Nat :=
  match fatfsSectorCache with
  | some c =>
    if pdrv = 0 then
      if ¬ dev.isDiskPresent c then STA_NODISK
      else if dev.isDiskWriteProtected c then STA_PROTECT
      else 0
    else STA_NOINIT
  | none => STA_NOINIT

/-- Bytes stored through a pointer `off` bytes into the caller's buffer. -/
def storeAt (buff : List Nat) (off : Nat) (bytes : List Nat) : List Nat :=
  buff.take off ++ bytes ++ buff.drop (off + bytes.length)

/-- The `while (count)` loop of `disk_read` (lines 34-40); `off` is the distance of `buff` from
the start of the caller's buffer. The result holds the sector numbers and sizes handed to
`hybridReadData`, in order. -/
def readSectors {β : Type} (dev : BlockDevice β) :
    Nat → β → List Nat → Nat → Nat → List (Nat × Nat) →
      DRESULT × List Nat × β × List (Nat × Nat)
  | 0, c, buff, _, _, log => (DRESULT.RES_OK, buff, c, log)
  | count + 1, c, buff, off, sector, log =>
    let r := dev.hybridReadData c (u32 sector) (dev.sectorSize c)
    let buff := storeAt buff off r.2.1
    let log := log ++ [(u32 sector, dev.sectorSize c)]
    if ¬ r.1 then (DRESULT.RES_ERROR, buff, r.2.2, log)
    else readSectors dev count r.2.2 buff (off + dev.hybridSectorSize r.2.2) (sector + 1) log

/-- The call `disk_read(pdrv, buff, sector, count)` (lines 30-44): the result, the caller's
buffer, the back end and the reads issued. -/
def disk_read {β : Type} (dev : BlockDevice β) (fatfsSectorCache : Option β) (pdrv : Nat)
    (buff : List Nat) (sector count : Nat) :
    DRESULT × List Nat × Option β × List (Nat × Nat) :=
  match fatfsSectorCache with
  | some c =>
    if pdrv = 0 then
      if ¬ dev.isDiskPresent c then (DRESULT.RES_NOTRDY, buff, some c, [])
      else
        let r := readSectors dev count c buff 0 sector []
        (r.1, r.2.1, some r.2.2.1, r.2.2.2)
    else (DRESULT.RES_PARERR, buff, some c, [])
  | none => (DRESULT.RES_PARERR, buff, none, [])

/-- The broken-down local time `struct tm` as far as `get_fattime` reads it. -/
structure tm where
  tm_sec : Int
  tm_min : Int
  tm_hour : Int
  tm_mday : Int
  tm_mon : Int
  tm_year : Int
  deriving DecidableEq, Repr

/-- Conversion of an `int` to `uint32_t`. -/
def toU32 (i : Int) : Nat := (i % 2 ^ 32).toNat

/-- The call `get_fattime()` (lines 85-90) on the local time `stm` delivered by
`localtime_s`. -/
def get_fattime (stm : tm) : Nat :=
  u32 (toU32 (stm.tm_year - 80) <<< 25) ||| u32 (toU32 (stm.tm_mon + 1) <<< 21) |||
    u32 (toU32 stm.tm_mday <<< 16) ||| u32 (toU32 stm.tm_hour <<< 11) |||
    u32 (toU32 stm.tm_min <<< 5) ||| (toU32 stm.tm_sec >>> 1)

end DiskFlashback

namespace DiskFlashback

namespace SectorCacheMFM

/-! ## `mfminterface.cpp`: the read path -/

/-- What a call of `readDataAllFS` did besides answering: the number of calls of
`doTrackReading` it made and the cylinders of its calibration seeks (line 329-331), in order. -/
structure ReadTrace where
  trackReads : Nat
  reseeks : List Nat
  deriving DecidableEq, Repr

/-- Lines 288-296 of `readDataAllFS`: the sector of the cache that can be handed out - present,
and free of errors unless errors are ignored. -/
def cacheHit (fileSystem track trackBlock : Nat) (self : SectorCacheMFM) :
    Option DecodedSector :=
  match mapFind trackBlock (self.m_trackCache fileSystem track).sectors with
  | some it => if it.numErrors = 0 ∨ self.m_ignoreErrors then some it else none
  | none => none

/-- Lines 299-320 of `readDataAllFS`, the retry monitor. `shouldPrompt` is the answer of the
absent `shouldPrompt()`, `keys` are the characters `getchar()` will deliver (end of file when the
list is used up). `Except.error` stands for `return false`, `Except.ok` carries the new value of
`retries` and the characters left. -/
def retryMonitor {δ : Type} (br : Bridge δ) (shouldPrompt : Bool) (retries : Nat)
    (keys : List Nat) (self : SectorCacheMFM) (d : δ) :
    Except SectorCacheMFM (Nat × List Nat × SectorCacheMFM) :=
  if retries > MAX_RETRIES then
    if self.m_ignoreErrors then Except.error self
    else if ¬ shouldPrompt then Except.error self
    else
      let answer : Except SectorCacheMFM SectorCacheMFM :=
        match keys.head? with
        | some 114 => Except.ok self
        | some 105 => Except.ok { self with m_ignoreErrors := true }
        | some 97 => Except.ok { self with m_alwaysIgnore := true, m_ignoreErrors := true }
        | _ => Except.error self
      match answer with
      | Except.error s => Except.error s
      | Except.ok s =>
        if ¬ br.isDiskInDrive d then Except.error s else Except.ok (0, keys.tail, s)
  else Except.ok (retries, keys, self)

/-- Lines 323-336 of `readDataAllFS`: at `retries == MAX_RETRIES / 2` the head is moved away and
back (on a physical drive). `Except.error` stands for `return false`. -/
def readReseek {δ : Type} (br : Bridge δ) (upperSurface : Bool) (cylinder retries : Nat)
    (tr : ReadTrace) (self : SectorCacheMFM) (d : δ) :
    Except (SectorCacheMFM × δ × ReadTrace) (SectorCacheMFM × δ × ReadTrace) :=
  if retries = MAX_RETRIES / 2 then
    if ¬ br.isDiskInDrive d then Except.error (self, d, tr)
    else
      let m := motorInUse br upperSurface self d
      let c : δ × ReadTrace :=
        if br.isPhysicalDisk m.2 then
          let target := if cylinder < 40 then 79 else 0
          (br.sleep 300 (br.cylinderSeek target upperSurface m.2),
            { tr with reseeks := tr.reseeks ++ [target] })
        else (m.2, tr)
      if ¬ br.isDiskInDrive c.1 then Except.error (m.1, c.1, c.2)
      else Except.ok (m.1, c.1, c.2)
  else Except.ok (self, d, tr)

/-- The retry loop `for (;;)` of `readDataAllFS` (lines 286-350). `track`, `trackBlock`,
`upperSurface` and `cylinder` are the constants of lines 270-273. The counter bounds the number of
passes; the result holds the flag, the caller's buffer, the engine, the drive and the trace. -/
def readLoop {δ : Type} (br : Bridge δ) (cd : Codec) (shouldPrompt : Bool) (F : Nat)
    (fileSystem track trackBlock : Nat) (upperSurface : Bool) (cylinder sectorSize : Nat)
    (data : List Nat) :
    Nat → Nat → List Nat → ReadTrace → SectorCacheMFM → δ →
      Option (Bool × List Nat × SectorCacheMFM × δ × ReadTrace)
  | 0, _, _, _, _, _ => none
  | n + 1, retries, keys, tr, self, d =>
    match cacheHit fileSystem track trackBlock self with
    | some it =>
      some (true, memcpy_s data it.data (min (u32 it.data.length) sectorSize), self, d, tr)
    | none =>
      match retryMonitor br shouldPrompt retries keys self d with
      | Except.error s => some (false, data, s, d, tr)
      | Except.ok (retries, keys, self) =>
        match readReseek br upperSurface cylinder retries tr self d with
        | Except.error (s, d, tr) => some (false, data, s, d, tr)
        | Except.ok (self, d, tr) =>
          -- lines 339-349
          let m := motorInUse br upperSurface self d
          match waitForMotor br F upperSurface m.1 (br.cylinderSeek cylinder upperSurface m.2) with
          | none => none
          | some (false, s, d) => some (false, data, s, d, tr)
          | some (true, s, d) =>
            match doTrackReading br cd F fileSystem track (decide (retries > 1)) s d with
            | none => none
            | some (_, s, d) =>
              readLoop br cd shouldPrompt F fileSystem track trackBlock upperSurface cylinder
                sectorSize data n (u32 (retries + 1)) keys
                { tr with trackReads := tr.trackReads + 1 } s d

/-- The call `readDataAllFS(fileSystem, sectorNumber, sectorSize, data)` (lines 266-353). `track`
is the `int` of line 270; it indexes the cache through `slot` (a negative index is undefined in
C++). Every loop is allowed `F` iterations, the result is `none` when one needs more. -/
def readDataAllFS {δ : Type} (br : Bridge δ) (cd : Codec) (en : Encoder) (shouldPrompt : Bool)
    (F : Nat) (fileSystem sectorNumber sectorSize : Nat) (data : List Nat) (keys : List Nat)
    (self : SectorCacheMFM) (d : δ) :
    Option (Bool × List Nat × SectorCacheMFM × δ × ReadTrace) :=
  if sectorSize ≠ self.m_bytesPerSector fileSystem then some (false, data, self, d, ⟨0, []⟩)
  else
    let track : Int := toInt32 (sectorNumber / self.m_sectorsPerTrack fileSystem)
    let trackBlock := sectorNumber % self.m_sectorsPerTrack fileSystem
    let upperSurface := decide (u32 (sectorNumber / self.m_sectorsPerTrack fileSystem) %
      self.m_numHeads fileSystem ≠ 0)
    let cylinder := u32 (sectorNumber / self.m_sectorsPerTrack fileSystem) /
      self.m_numHeads fileSystem
    if track ≥ (MAX_TRACKS : Int) then some (false, data, self, d, ⟨0, []⟩)
    else
      -- line 280, `checkFlushPendingWrites()`
      let flushed : Option (SectorCacheMFM × δ) :=
        if self.m_tracksToFlush.length < FORCE_FLUSH_AT_TRACKS then some (self, d)
        else
          match flushPendingWrites br cd en F self d with
          | none => none
          | some (_, s, d) => some (s, d)
      match flushed with
      | none => none
      | some (self, d) =>
        if ¬ br.isDiskInDrive d then some (false, data, self, d, ⟨0, []⟩)
        else
          readLoop br cd shouldPrompt F fileSystem track.toNat trackBlock upperSurface cylinder
            sectorSize data F 0 keys ⟨0, []⟩ self d

/-- An engine for examples: a hybrid disk has been identified - plane 0 is the Amiga side (11
sectors of 512 bytes, 2 heads), plane 1 a single-sided PC side (9 sectors of 512 bytes, 1 head) -
and is in the drive, nothing is cached, nothing is dirty. -/
def hybridSingleSided : SectorCacheMFM :=
  { initial with
    m_diskType := SectorType.stHybrid, m_diskInDrive := true,
    m_sectorsPerTrack := fun i => if i = 1 then 9 else 11, m_bytesPerSector := fun _ => 512,
    m_numHeads := fun i => if i = 1 then 1 else 2, m_totalCylinders := fun _ => 80 }

end SectorCacheMFM

/-- A drive for examples: as `Bridge.steady` with the tab open, but the motor never becomes
ready and time passes only while the caller sleeps. -/
def Bridge.seized : Bridge Nat :=
  { Bridge.steady false with motorReady := fun _ => false, GetTickCount64 := fun t => (t, t) }

end DiskFlashback

namespace DiskFlashback

/-! ## Facts about the C stream -/

theorem fread_one_le (ptr : List Nat) (size : Nat) (f : FILE) : (fread ptr size 1 f).1 ≤ 1 := by
  unfold fread
  by_cases hs : size = 0
  · simp [hs]
  · simp only [hs, if_false, Nat.mul_one]
    have h : ((f.bytes.drop f.pos).take size).length ≤ size := by
      simp [List.length_take]
    have hpos : 0 < size := Nat.pos_of_ne_zero hs
    calc ((f.bytes.drop f.pos).take size).length / size ≤ size / size :=
          Nat.div_le_div_right h
      _ = 1 := Nat.div_self hpos

namespace SectorRW_File

/-! ## C1: geometry guessed from the image size -/

/-- C1: for every image size and non-zero sector size, with `s = imageSize / sectorSize`, the
guess is 9, 10, 11, 18 or 22 when `s` is `N*2*9`, `N*2*10`, `N*2*11`, `N*2*18` or `2*N*2*11` for
an `N` in 80..83, and for every other `s` it is 22 if `s > 84*2*11` and 11 otherwise. -/
theorem guessSectorsPerTrack_table (imageSize sectorSize : Nat) (_hz : sectorSize ≠ 0) :
    (∀ N, N ∈ [80, 81, 82, 83] → imageSize / sectorSize = N * 2 * 9 →
        GuessSectorsPerTrackFromImageSize imageSize sectorSize = 9) ∧
    (∀ N, N ∈ [80, 81, 82, 83] → imageSize / sectorSize = N * 2 * 10 →
        GuessSectorsPerTrackFromImageSize imageSize sectorSize = 10) ∧
    (∀ N, N ∈ [80, 81, 82, 83] → imageSize / sectorSize = N * 2 * 11 →
        GuessSectorsPerTrackFromImageSize imageSize sectorSize = 11) ∧
    (∀ N, N ∈ [80, 81, 82, 83] → imageSize / sectorSize = N * 2 * 18 →
        GuessSectorsPerTrackFromImageSize imageSize sectorSize = 18) ∧
    (∀ N, N ∈ [80, 81, 82, 83] → imageSize / sectorSize = 2 * N * 2 * 11 →
        GuessSectorsPerTrackFromImageSize imageSize sectorSize = 22) ∧
    ((∀ N, N ∈ [80, 81, 82, 83] →
        imageSize / sectorSize ≠ N * 2 * 9 ∧ imageSize / sectorSize ≠ N * 2 * 10 ∧
        imageSize / sectorSize ≠ N * 2 * 11 ∧ imageSize / sectorSize ≠ N * 2 * 18 ∧
        imageSize / sectorSize ≠ 2 * N * 2 * 11) →
        GuessSectorsPerTrackFromImageSize imageSize sectorSize =
          if imageSize / sectorSize > 84 * 2 * 11 then 22 else 11) := by
  simp only [GuessSectorsPerTrackFromImageSize]
  generalize imageSize / sectorSize = s
  refine ⟨?_, ?_, ?_, ?_, ?_, ?_⟩
  · intro N hN hs
    simp only [List.mem_cons, List.mem_singleton, List.not_mem_nil, or_false] at hN
    rcases hN with rfl | rfl | rfl | rfl <;> simp [hs]
  · intro N hN hs
    simp only [List.mem_cons, List.mem_singleton, List.not_mem_nil, or_false] at hN
    rcases hN with rfl | rfl | rfl | rfl <;> simp [hs]
  · intro N hN hs
    simp only [List.mem_cons, List.mem_singleton, List.not_mem_nil, or_false] at hN
    rcases hN with rfl | rfl | rfl | rfl <;> simp [hs]
  · intro N hN hs
    simp only [List.mem_cons, List.mem_singleton, List.not_mem_nil, or_false] at hN
    rcases hN with rfl | rfl | rfl | rfl <;> simp [hs]
  · intro N hN hs
    simp only [List.mem_cons, List.mem_singleton, List.not_mem_nil, or_false] at hN
    rcases hN with rfl | rfl | rfl | rfl <;> simp [hs]
  · intro h
    have h80 := h 80 (by simp)
    have h81 := h 81 (by simp)
    have h82 := h 82 (by simp)
    have h83 := h 83 (by simp)
    simp only [] at h80 h81 h82 h83
    split_ifs <;> omega

/-- C1, the scenario of the spec: 737280 bytes at 512 bytes per sector give 9. -/
theorem guessSectorsPerTrack_table_witness :
    (512 : Nat) ≠ 0 ∧ GuessSectorsPerTrackFromImageSize 737280 512 = 9 :=
  ⟨by decide, (guessSectorsPerTrack_table 737280 512 (by decide)).1 80 (by decide) (by decide)⟩

/-! ## C2, C3: sector reads and writes in normal mode -/

/-- C2: a read in normal mode with a sector size of at least 2 bytes reports failure, although
the file holds the whole sector and its bytes reach the caller's buffer: the item count returned
by `fread` (at most 1) is compared with the byte count. -/
theorem internalReadData_normal_fails (self : SectorRW_File) (file : FILE)
    (n size : Nat) (out : List Nat)
    (hfile : self.m_file = some file) (hmode : self.m_mode = SectorMode.smNormal)
    (hlen : (n + 1) * size ≤ file.bytes.length) (hrange : n * size < 2 ^ 32)
    (hsize : 2 ≤ size) :
    (self.internalReadData n size out).1 = false ∧
    (self.internalReadData n size out).2.1.take size = (file.bytes.drop (n * size)).take size := by
  have hle := fread_one_le out size (fseek file (u32 (n * size)))
  have hpos : u32 (n * size) = n * size := Nat.mod_eq_of_lt hrange
  have hgot : ((file.bytes.drop (n * size)).take size).length = size := by
    rw [List.length_take, List.length_drop]
    have : (n + 1) * size = n * size + size := by ring
    omega
  constructor
  · simp only [internalReadData, hfile, hmode, decide_eq_false_iff_not]
    omega
  · simp only [internalReadData, hfile, hmode, fread, fseek, hpos, Nat.mul_one]
    rw [List.take_append_of_le_length (by omega)]
    exact List.take_of_length_le (by omega)

/-- C2, the scenario of the spec: sector 0 of a 720 KiB image read with size 512. -/
theorem internalReadData_normal_fails_witness :
    (internalReadData
      { m_file := some ⟨List.replicate 737280 0, 0⟩, m_fileType := SectorType.stIBM,
        m_firstTrack := 0, m_serialNumber := 0x494D4130, m_bytesPerSector := 512,
        m_sectorsPerTrack := 9, m_numHeads := 2, m_mode := SectorMode.smNormal,
        m_totalTracks := 80, m_trackSearch := [] } 0 512 (List.replicate 512 0)).1 = false :=
  (internalReadData_normal_fails _ ⟨List.replicate 737280 0, 0⟩ 0 512 (List.replicate 512 0)
    rfl rfl (by rw [List.length_replicate]; decide) (by decide) (by decide)).1

/-- C3: a write in normal mode of a non-empty sector reports failure and stores the data at
offset 0 of the file whatever the sector number: line 302 seeks to 0 and line 311 compares the
never-assigned `write` with the sector size. -/
theorem internalWriteData_normal_misplaced (self : SectorRW_File) (file : FILE)
    (n size : Nat) (data : List Nat)
    (hfile : self.m_file = some file) (hmode : self.m_mode = SectorMode.smNormal)
    (hsize : 0 < size) (hdata : data.length = size) :
    (self.internalWriteData n size data).1 = false ∧
    (self.internalWriteData n size data).2.m_file =
      some ⟨data ++ file.bytes.drop size, size⟩ := by
  constructor
  · simp only [internalWriteData, hfile, hmode, decide_eq_false_iff_not]
    omega
  · simp only [internalWriteData, hfile, hmode, fwrite, fseek, Nat.mul_one]
    have ht : data.take size = data := List.take_of_length_le (by omega)
    simp [ht, hdata]

/-- C3 at a concrete input: writing 512 bytes `E5` to sector 1 of a 720 KiB image of zeros
reports failure and overwrites sector 0. -/
theorem internalWriteData_normal_misplaced_witness :
    (internalWriteData
      { m_file := some ⟨List.replicate 737280 0, 0⟩, m_fileType := SectorType.stIBM,
        m_firstTrack := 0, m_serialNumber := 0x494D4130, m_bytesPerSector := 512,
        m_sectorsPerTrack := 9, m_numHeads := 2, m_mode := SectorMode.smNormal,
        m_totalTracks := 80, m_trackSearch := [] } 1 512 (List.replicate 512 0xE5)).1 = false ∧
    (internalWriteData
      { m_file := some ⟨List.replicate 737280 0, 0⟩, m_fileType := SectorType.stIBM,
        m_firstTrack := 0, m_serialNumber := 0x494D4130, m_bytesPerSector := 512,
        m_sectorsPerTrack := 9, m_numHeads := 2, m_mode := SectorMode.smNormal,
        m_totalTracks := 80, m_trackSearch := [] } 1 512 (List.replicate 512 0xE5)).2.m_file =
      some ⟨List.replicate 512 0xE5 ++ (List.replicate 737280 0).drop 512, 512⟩ :=
  internalWriteData_normal_misplaced _ ⟨List.replicate 737280 0, 0⟩ 1 512
    (List.replicate 512 0xE5) rfl rfl (by decide) (List.length_replicate 512 0xE5)

/-! ## C4, C5: MSA images -/

/-- C4: every file whose extension is MSA is rejected by the constructor, whatever its first ten
bytes: `fread` returns an item count (at most 1) that line 111 compares with `sizeof(header)`, so
the back end is unavailable and never enters MSA mode. -/
theorem new_MSA_rejected (p : List Nat → IBMDetails → Bool × IBMDetails)
    (filename : List Char) (fle : FILE) (hext : upperExt filename = some "MSA".toList) :
    (new p filename fle).available = false ∧
    (new p filename fle).m_mode = SectorMode.smNormal := by
  have hle := fread_one_le (List.replicate 10 0) 10 (fseek fle 0)
  have hne : (fread (List.replicate 10 0) 10 1 (fseek fle 0)).1 ≠ 10 := by omega
  have h1 : ¬ ("MSA".toList = "IMG".toList ∨ "MSA".toList = "IMA".toList
      ∨ "MSA".toList = "DSK".toList) := by decide
  have h2 : ¬ ("MSA".toList = "ST".toList) := by decide
  simp only [new, hext, h1, h2, if_false, if_true, hne, ne_eq, not_false_eq_true, true_or]
  exact ⟨rfl, rfl⟩

/-- C4, the scenario of the spec: the header `{0x0F0E, 9, 1, 0, 79}` in big-endian bytes. -/
theorem new_MSA_rejected_witness :
    upperExt "disk.msa".toList = some "MSA".toList ∧
    (new (fun _ d => (false, d)) "disk.msa".toList
      ⟨[0x0F, 0x0E, 0, 9, 0, 1, 0, 0, 0, 79], 0⟩).available = false :=
  ⟨by decide, (new_MSA_rejected (fun _ d => (false, d)) "disk.msa".toList
      ⟨[0x0F, 0x0E, 0, 9, 0, 1, 0, 0, 0, 79], 0⟩ (by decide)).1⟩

/-! ## C6: defaults chosen from the extension -/

theorem internalReadData_normal_flag (self : SectorRW_File) (file : FILE)
    (n size : Nat) (out : List Nat)
    (hfile : self.m_file = some file) (hmode : self.m_mode = SectorMode.smNormal)
    (hsize : 2 ≤ size) :
    (self.internalReadData n size out).1 = false := by
  have hle := fread_one_le out size (fseek file (u32 (n * size)))
  simp only [internalReadData, hfile, hmode, decide_eq_false_iff_not]
  omega

theorem internalReadData_normal_state (self : SectorRW_File) (file : FILE)
    (n size : Nat) (out : List Nat)
    (hfile : self.m_file = some file) (hmode : self.m_mode = SectorMode.smNormal) :
    (self.internalReadData n size out).2.2 =
      { self with m_file := some (fread out size 1 (fseek file (u32 (n * size)))).2.2 } := by
  simp only [internalReadData, hfile, hmode]

/-- With the stream open in normal mode and 512 bytes per sector, the boot-sector step changes
nothing but the stream position: its read of 128 bytes reports failure. -/
theorem readBootSector_normal (p : List Nat → IBMDetails → Bool × IBMDetails)
    (s : SectorRW_File) (file : FILE)
    (hfile : s.m_file = some file) (hmode : s.m_mode = SectorMode.smNormal)
    (hbps : s.m_bytesPerSector = 512) :
    ∃ f, readBootSector p s = { s with m_file := some f } := by
  unfold readBootSector
  by_cases ht : s.m_fileType = SectorType.stIBM ∨ s.m_fileType = SectorType.stAtari
  · have hflag := internalReadData_normal_flag s file 0 128 (List.replicate 128 0) hfile hmode
      (by decide)
    have hst := internalReadData_normal_state s file 0 128 (List.replicate 128 0) hfile hmode
    have hmin : min s.m_bytesPerSector 128 = 128 := by rw [hbps]; decide
    simp only [ht, if_true, hmin, hflag, hst, Bool.false_eq_true, if_false]
    exact ⟨_, rfl⟩
  · simp only [ht, if_false]
    exact ⟨file, by cases s; simp_all⟩

theorem guessGeometry_fields (fle : FILE) (s : SectorRW_File) :
    (guessGeometry fle s).m_fileType = s.m_fileType ∧
    (guessGeometry fle s).m_serialNumber = s.m_serialNumber ∧
    (guessGeometry fle s).m_bytesPerSector = s.m_bytesPerSector ∧
    (guessGeometry fle s).m_numHeads = s.m_numHeads := by
  simp only [guessGeometry]
  by_cases h1 : s.m_sectorsPerTrack = 0 <;> by_cases h2 : s.m_totalTracks = 0 <;>
    simp [h1, h2]

theorem new_normal_fields (p : List Nat → IBMDetails → Bool × IBMDetails) (fle : FILE)
    (s : SectorRW_File) (hf : s.m_file = some (fseek fle 0))
    (hm : s.m_mode = SectorMode.smNormal) (hb : s.m_bytesPerSector = 512) :
    (guessGeometry fle (readBootSector p s)).m_fileType = s.m_fileType ∧
    (guessGeometry fle (readBootSector p s)).m_serialNumber = s.m_serialNumber ∧
    (guessGeometry fle (readBootSector p s)).m_bytesPerSector = 512 ∧
    (guessGeometry fle (readBootSector p s)).m_numHeads = s.m_numHeads := by
  obtain ⟨f, hf⟩ := readBootSector_normal p s _ hf hm hb
  have hg := guessGeometry_fields fle (readBootSector p s)
  rw [hf] at hg ⊢
  simpa [hb] using hg

theorem new_of_no_ext (p : List Nat → IBMDetails → Bool × IBMDetails)
    (filename : List Char) (fle : FILE) (hext : upperExt filename = none) :
    (new p filename fle).m_fileType = SectorType.stAmiga ∧
    (new p filename fle).m_serialNumber = 0x41444630 ∧
    (new p filename fle).m_bytesPerSector = 512 ∧
    (new p filename fle).m_numHeads = 2 := by
  have hg := guessGeometry_fields fle (initial fle)
  simp only [new, hext]
  exact hg

theorem new_of_ibm_ext (p : List Nat → IBMDetails → Bool × IBMDetails)
    (filename : List Char) (fle : FILE) (ext : List Char) (hext : upperExt filename = some ext)
    (h1 : ext = "IMG".toList ∨ ext = "IMA".toList ∨ ext = "DSK".toList) :
    (new p filename fle).m_fileType = SectorType.stIBM ∧
    (new p filename fle).m_serialNumber = 0x494D4130 ∧
    (new p filename fle).m_bytesPerSector = 512 ∧
    (new p filename fle).m_numHeads = 2 := by
  simp only [new, hext, h1, if_true]
  exact new_normal_fields p fle _ rfl rfl rfl

theorem new_of_st_ext (p : List Nat → IBMDetails → Bool × IBMDetails)
    (filename : List Char) (fle : FILE) (hext : upperExt filename = some "ST".toList) :
    (new p filename fle).m_fileType = SectorType.stAtari ∧
    (new p filename fle).m_serialNumber = 0x53544630 ∧
    (new p filename fle).m_bytesPerSector = 512 ∧
    (new p filename fle).m_numHeads = 2 := by
  have hST : ¬ ("ST".toList = "IMG".toList ∨ "ST".toList = "IMA".toList
      ∨ "ST".toList = "DSK".toList) := by decide
  simp only [new, hext, hST, if_false, if_true]
  exact new_normal_fields p fle _ rfl rfl rfl

theorem new_of_other_ext (p : List Nat → IBMDetails → Bool × IBMDetails)
    (filename : List Char) (fle : FILE) (ext : List Char) (hext : upperExt filename = some ext)
    (h1 : ¬ (ext = "IMG".toList ∨ ext = "IMA".toList ∨ ext = "DSK".toList))
    (h2 : ext ≠ "ST".toList) :
    (new p filename fle).m_fileType = SectorType.stAmiga ∧
    (new p filename fle).m_serialNumber = 0x41444630 ∧
    (new p filename fle).m_bytesPerSector = 512 ∧
    (new p filename fle).m_numHeads = 2 := by
  have hle := fread_one_le (List.replicate 10 0) 10 (fseek fle 0)
  have hne : (fread (List.replicate 10 0) 10 1 (fseek fle 0)).1 ≠ 10 := by omega
  simp only [new, hext, h1, h2, if_false]
  by_cases h3 : ext = "MSA".toList
  · simp only [h3, if_true, hne, ne_eq, not_false_eq_true, true_or]
    exact ⟨rfl, rfl, rfl, rfl⟩
  · simp only [h3, if_false]
    exact new_normal_fields p fle _ rfl rfl rfl

/-- C6: the constructor picks type and serial number from the upper-cased text after the last dot
of the file name - IBM and `IMA0` for IMG, IMA or DSK, Atari and `STF0` for ST, Amiga and `ADF0`
for any other or missing extension - and ends with 512 bytes per sector and 2 heads, whatever the
file holds and whatever the boot-sector parser would answer. -/
theorem new_defaults (p : List Nat → IBMDetails → Bool × IBMDetails)
    (filename : List Char) (fle : FILE) :
    ((upperExt filename = some "IMG".toList ∨ upperExt filename = some "IMA".toList ∨
        upperExt filename = some "DSK".toList) →
      (new p filename fle).m_fileType = SectorType.stIBM ∧
      (new p filename fle).m_serialNumber = 0x494D4130) ∧
    (upperExt filename = some "ST".toList →
      (new p filename fle).m_fileType = SectorType.stAtari ∧
      (new p filename fle).m_serialNumber = 0x53544630) ∧
    ((upperExt filename ≠ some "IMG".toList ∧ upperExt filename ≠ some "IMA".toList ∧
        upperExt filename ≠ some "DSK".toList ∧ upperExt filename ≠ some "ST".toList) →
      (new p filename fle).m_fileType = SectorType.stAmiga ∧
      (new p filename fle).m_serialNumber = 0x41444630) ∧
    (new p filename fle).m_bytesPerSector = 512 ∧
    (new p filename fle).m_numHeads = 2 := by
  have hST : ¬ ("ST".toList = "IMG".toList ∨ "ST".toList = "IMA".toList
      ∨ "ST".toList = "DSK".toList) := by decide
  cases hext : upperExt filename with
  | none =>
    have h := new_of_no_ext p filename fle hext
    refine ⟨fun h1 => ?_, fun h2 => ?_, fun _ => ⟨h.1, h.2.1⟩, h.2.2.1, h.2.2.2⟩
    · rcases h1 with h1 | h1 | h1 <;> cases h1
    · cases h2
  | some ext =>
    by_cases h1 : ext = "IMG".toList ∨ ext = "IMA".toList ∨ ext = "DSK".toList
    · have h := new_of_ibm_ext p filename fle ext hext h1
      refine ⟨fun _ => ⟨h.1, h.2.1⟩, fun h2 => ?_, fun h3 => ?_, h.2.2.1, h.2.2.2⟩
      · have h2 : ext = "ST".toList := Option.some.inj h2
        rw [h2] at h1
        exact absurd h1 hST
      · rcases h1 with e | e | e
        · exact absurd (congrArg some e) h3.1
        · exact absurd (congrArg some e) h3.2.1
        · exact absurd (congrArg some e) h3.2.2.1
    · by_cases h2 : ext = "ST".toList
      · have h := new_of_st_ext p filename fle (h2 ▸ hext)
        refine ⟨fun h0 => ?_, fun _ => ⟨h.1, h.2.1⟩, fun h3 => ?_, h.2.2.1, h.2.2.2⟩
        · rcases h0 with e | e | e
          · exact absurd (Or.inl (Option.some.inj e)) h1
          · exact absurd (Or.inr (Or.inl (Option.some.inj e))) h1
          · exact absurd (Or.inr (Or.inr (Option.some.inj e))) h1
        · exact absurd (congrArg some h2) h3.2.2.2
      · have h := new_of_other_ext p filename fle ext hext h1 h2
        refine ⟨fun h0 => ?_, fun h0 => ?_, fun _ => ⟨h.1, h.2.1⟩, h.2.2.1, h.2.2.2⟩
        · rcases h0 with e | e | e
          · exact absurd (Or.inl (Option.some.inj e)) h1
          · exact absurd (Or.inr (Or.inl (Option.some.inj e))) h1
          · exact absurd (Or.inr (Or.inr (Option.some.inj e))) h1
        · exact absurd (Option.some.inj h0) h2

/-- C6 on three file names: `a.img`, `B.St` and a name without extension. -/
theorem new_defaults_witness :
    (new (fun _ d => (true, d)) "a.img".toList ⟨[1, 2, 3], 0⟩).m_serialNumber = 0x494D4130 ∧
    (new (fun _ d => (true, d)) "B.St".toList ⟨[1, 2, 3], 0⟩).m_fileType = SectorType.stAtari ∧
    (new (fun _ d => (true, d)) "disk".toList ⟨[1, 2, 3], 0⟩).m_fileType = SectorType.stAmiga :=
  ⟨((new_defaults _ "a.img".toList ⟨[1, 2, 3], 0⟩).1 (Or.inl (by decide))).2,
   ((new_defaults _ "B.St".toList ⟨[1, 2, 3], 0⟩).2.1 (by decide)).1,
   ((new_defaults _ "disk".toList ⟨[1, 2, 3], 0⟩).2.2.1
      ⟨by decide, by decide, by decide, by decide⟩).1⟩

/-- The decoding loop alone turns `E5 00 01 00` into 256 zero bytes. -/
theorem decodeLoop_rle_example :
    decodeLoop [0xE5, 0x00, 0x01, 0x00] 0 [] = List.replicate 256 0 := by
  rfl

/-- C5: on a compressed track of at least 2 bytes `decodeMSATrack` returns false and leaves the
track undecoded: line 161 compares the item count of `fread` (at most 1) with `dataSize`, so the
decoding loop is not reached. -/
theorem decodeMSATrack_compressed_fails (self : SectorRW_File) (f : FILE) (track : DecodedTrack)
    (hcomp : track.dataSize ≠ u32 (self.m_bytesPerSector * self.m_sectorsPerTrack))
    (hsize : 2 ≤ track.dataSize) :
    (decodeMSATrack self f track).1 = false ∧ (decodeMSATrack self f track).2.1 = track := by
  have hle := fread_one_le (resize [] track.dataSize) track.dataSize f
  have hne : (fread (resize [] track.dataSize) track.dataSize 1 f).1 ≠ track.dataSize := by omega
  simp only [decodeMSATrack, hcomp, if_false, hne, ne_eq, not_false_eq_true, if_true, and_self]

/-- C5, the scenario of the spec: the four bytes `E5 00 01 00` of a 9-sector track. -/
theorem decodeMSATrack_compressed_fails_witness :
    (decodeMSATrack
      { m_file := none, m_fileType := SectorType.stAtari, m_firstTrack := 0,
        m_serialNumber := 0x4D534120, m_bytesPerSector := 512, m_sectorsPerTrack := 9,
        m_numHeads := 2, m_mode := SectorMode.smMSA, m_totalTracks := 160, m_trackSearch := [] }
      ⟨[0xE5, 0x00, 0x01, 0x00], 0⟩ { seekPos := 12, dataSize := 4, data := [] }).1 = false :=
  (decodeMSATrack_compressed_fails _ ⟨[0xE5, 0x00, 0x01, 0x00], 0⟩
    { seekPos := 12, dataSize := 4, data := [] } (by decide) (by decide)).1

end SectorRW_File

end DiskFlashback

namespace DiskFlashback

/-! ## Facts about the association lists and `memcpy_s` -/

theorem mapFind_some_mem {α : Type} (k : Nat) (v : α) (m : List (Nat × α))
    (h : mapFind k m = some v) : (k, v) ∈ m := by
  induction m with
  | nil => simp [mapFind] at h
  | cons e rest ih =>
    obtain ⟨k', v'⟩ := e
    by_cases hk : k' = k
    · simp only [mapFind, hk, if_true, Option.some.injEq] at h
      simp [hk, h]
    · simp only [mapFind, hk, if_false] at h
      exact List.mem_cons_of_mem _ (ih h)

theorem mapFind_eq_none {α : Type} (k : Nat) (m : List (Nat × α)) :
    mapFind k m = none ↔ ∀ e ∈ m, e.1 ≠ k := by
  induction m with
  | nil => simp [mapFind]
  | cons e rest ih =>
    obtain ⟨k', v'⟩ := e
    by_cases hk : k' = k
    · simp [mapFind, hk]
    · simp [mapFind, hk, ih]

theorem mem_mapInsert {α : Type} (k : Nat) (v : α) (m : List (Nat × α)) (e : Nat × α)
    (h : e ∈ mapInsert k v m) : e = (k, v) ∨ e ∈ m := by
  induction m with
  | nil => simpa [mapInsert] using h
  | cons x rest ih =>
    obtain ⟨k', v'⟩ := x
    simp only [mapInsert] at h
    split_ifs at h with h1 h2
    · simpa using h
    · exact Or.inr h
    · rcases List.mem_cons.1 h with h | h
      · exact Or.inr (by simp [h])
      · rcases ih h with h | h
        · exact Or.inl h
        · exact Or.inr (List.mem_cons_of_mem _ h)

theorem mem_mapSet {α : Type} (k : Nat) (v : α) (m : List (Nat × α)) (e : Nat × α)
    (h : e ∈ mapSet k v m) : e = (k, v) ∨ e ∈ m := by
  induction m with
  | nil => simp [mapSet] at h
  | cons x rest ih =>
    obtain ⟨k', v'⟩ := x
    simp only [mapSet] at h
    split_ifs at h with h1
    · rcases List.mem_cons.1 h with h | h
      · exact Or.inl (by rw [h, h1])
      · exact Or.inr (List.mem_cons_of_mem _ h)
    · rcases List.mem_cons.1 h with h | h
      · exact Or.inr (by simp [h])
      · rcases ih h with h | h
        · exact Or.inl h
        · exact Or.inr (List.mem_cons_of_mem _ h)

theorem mem_mapErase {α : Type} (k : Nat) (m : List (Nat × α)) (e : Nat × α)
    (h : e ∈ mapErase k m) : e ∈ m := by
  unfold mapErase at h
  exact (List.mem_filter.1 h).1

theorem memcpy_s_full (dest src : List Nat) (z : Nat) (hd : dest.length = z)
    (hs : src.length = z) : memcpy_s dest src z = src := by
  unfold memcpy_s
  have ht : src.take z = src := List.take_of_length_le (by omega)
  rw [ht, List.drop_of_length_le (by omega), List.append_nil]

theorem memcpy_s_take (dest src : List Nat) (z : Nat) (hs : src.length = z) :
    (memcpy_s dest src z).take z = src := by
  unfold memcpy_s
  have ht : src.take z = src := List.take_of_length_le (by omega)
  rw [ht, List.take_append_of_le_length (by omega)]
  exact List.take_of_length_le (by omega)

namespace SectorCacheEngine

/-! ## C8: the cache returns what the device returns -/

theorem oldestLoop_mem (m : List (Nat × SectorData)) (acc r : Option (Nat × SectorData))
    (h : oldestLoop m acc = r) : r = acc ∨ ∃ e ∈ m, r = some e := by
  induction m generalizing acc with
  | nil => simp only [oldestLoop] at h; exact Or.inl h.symm
  | cons x rest ih =>
    cases acc with
    | none =>
      simp only [oldestLoop] at h
      rcases ih _ h with h | ⟨e, he, h⟩
      · exact Or.inr ⟨x, List.mem_cons_self _ _, h⟩
      · exact Or.inr ⟨e, List.mem_cons_of_mem _ he, h⟩
    | some a =>
      simp only [oldestLoop] at h
      rcases ih _ h with h | ⟨e, he, h⟩
      · split_ifs at h
        · exact Or.inr ⟨x, List.mem_cons_self _ _, h⟩
        · exact Or.inl h
      · exact Or.inr ⟨e, List.mem_cons_of_mem _ he, h⟩

/-- Admitting the bytes the device returns for a readable sector keeps every cached entry equal
to what the device returns for its sector. -/
theorem writeCache_coherent (media : Nat → Bool × List Nat) (size : Nat)
    (hlen : ∀ s, (media s).2.length = size) (c : SectorCacheEngine)
    (hc : ∀ e ∈ c.m_cache,
      (media e.1).1 = true ∧ e.2.data = (media e.1).2 ∧ e.2.sectorSize = size)
    (s now : Nat) (hs : (media s).1 = true) :
    ∀ e ∈ (writeCache c s size (media s).2 now).m_cache,
      (media e.1).1 = true ∧ e.2.data = (media e.1).2 ∧ e.2.sectorSize = size := by
  unfold writeCache
  by_cases hmem : c.m_cacheMaxMem = 0
  · simpa [hmem] using hc
  · simp only [hmem, if_false]
    cases hfind : mapFind s c.m_cache with
    | some d =>
      have hd := hc _ (mapFind_some_mem _ _ _ hfind)
      intro e he
      rcases mem_mapSet _ _ _ _ he with rfl | he
      · refine ⟨hs, ?_, hd.2.2⟩
        exact memcpy_s_full _ _ _ (by rw [hd.2.1]; exact hlen s) (hlen s)
      · exact hc e he
    | none =>
      simp only []
      split_ifs with hfull
      all_goals first
        | (intro e he
           rcases mem_mapInsert _ _ _ _ he with rfl | he
           · refine ⟨hs, ?_, rfl⟩
             exact memcpy_s_full _ _ _ (by simp) (hlen s)
           · exact hc e he)
        | skip
      all_goals
        unfold getAndReleaseOldestSector
        cases hold : oldestLoop _ none with
        | none => exact hc
        | some r =>
          simp only []
          have hr : r ∈ c.m_cache := by
            rcases oldestLoop_mem _ _ _ hold with h | ⟨e, he, h⟩
            · cases h
            · cases h; exact he
          have hd := hc r hr
          intro e he
          rcases mem_mapInsert _ _ _ _ he with rfl | he
          · simp only [hd.2.2, ne_eq, not_true_eq_false, if_false]
            refine ⟨hs, ?_, trivial⟩
            exact memcpy_s_full _ _ _ (by rw [hd.2.1]; exact hlen _) (hlen s)
          · exact hc e (mem_mapErase _ _ _ he)

/-- One `readData` on a coherent cache over stable media: flag and bytes are those of the media
and the cache stays coherent. -/
theorem readData_coherent {β : Type}
    (ird : β → Nat → Nat → List Nat → Bool × List Nat × β)
    (media : Nat → Bool × List Nat) (size : Nat)
    (hstable : ∀ b s buf, (ird b s size buf).1 = (media s).1 ∧
      (ird b s size buf).2.1 = (media s).2)
    (hlen : ∀ s, (media s).2.length = size) (c : SectorCacheEngine)
    (hc : ∀ e ∈ c.m_cache,
      (media e.1).1 = true ∧ e.2.data = (media e.1).2 ∧ e.2.sectorSize = size)
    (dev : β) (s : Nat) (buf : List Nat) (now : Nat) :
    (readData ird c dev s size buf now).1 = (media s).1 ∧
    (readData ird c dev s size buf now).2.1.take size = (media s).2 ∧
    ∀ e ∈ (readData ird c dev s size buf now).2.2.1.m_cache,
      (media e.1).1 = true ∧ e.2.data = (media e.1).2 ∧ e.2.sectorSize = size := by
  have htake : ((media s).2).take size = (media s).2 :=
    List.take_of_length_le (by rw [hlen s])
  have miss : ∀ c' : SectorCacheEngine, c'.m_cache = c.m_cache →
      readCache c s size buf now = (false, buf, c') →
      (readData ird c dev s size buf now).1 = (media s).1 ∧
      (readData ird c dev s size buf now).2.1.take size = (media s).2 ∧
      ∀ e ∈ (readData ird c dev s size buf now).2.2.1.m_cache,
        (media e.1).1 = true ∧ e.2.data = (media e.1).2 ∧ e.2.sectorSize = size := by
    intro c' hc' hrc
    have h1 := (hstable dev s buf).1
    have h2 := (hstable dev s buf).2
    unfold readData
    simp only [hrc, Bool.false_eq_true, if_false]
    cases hm : (media s).1 with
    | false =>
      rw [hm] at h1
      simp only [h1, Bool.false_eq_true, if_false, h2, htake, true_and]
      rw [hc']; exact hc
    | true =>
      rw [hm] at h1
      simp only [h1, if_true, h2, htake, true_and]
      exact writeCache_coherent media size hlen c' (by rw [hc']; exact hc) s now hm
  by_cases hmem : c.m_cacheMaxMem = 0
  · exact miss c rfl (by simp [readCache, hmem])
  · cases hfind : mapFind s c.m_cache with
    | none => exact miss c rfl (by simp [readCache, hmem, hfind])
    | some f =>
      have hf := hc _ (mapFind_some_mem _ _ _ hfind)
      simp only at hf
      unfold readData
      simp only [readCache, hmem, if_false, hfind, if_true, hf.2.2, min_self, hf.1, hf.2.1]
      refine ⟨trivial, memcpy_s_take _ _ _ (hlen s), ?_⟩
      intro e he
      have he' : e ∈ mapSet s
          { data := (media s).2, sectorSize := size, lastUse := now } c.m_cache := by
        split_ifs at he <;> exact he
      rcases mem_mapSet _ _ _ _ he' with rfl | he'
      · exact ⟨hf.1, rfl, rfl⟩
      · exact hc e he'

theorem readAll_coherent {β : Type}
    (ird : β → Nat → Nat → List Nat → Bool × List Nat × β)
    (media : Nat → Bool × List Nat) (size : Nat)
    (hstable : ∀ b s buf, (ird b s size buf).1 = (media s).1 ∧
      (ird b s size buf).2.1 = (media s).2)
    (hlen : ∀ s, (media s).2.length = size) (reqs : List ReadRequest) :
    ∀ (c : SectorCacheEngine) (dev : β),
      (∀ e ∈ c.m_cache,
        (media e.1).1 = true ∧ e.2.data = (media e.1).2 ∧ e.2.sectorSize = size) →
      ∀ e ∈ (readAll ird size c dev reqs).1.m_cache,
        (media e.1).1 = true ∧ e.2.data = (media e.1).2 ∧ e.2.sectorSize = size := by
  induction reqs with
  | nil => intro c dev hc; exact hc
  | cons q rest ih =>
    intro c dev hc
    simp only [readAll]
    exact ih _ _ (readData_coherent ird media size hstable hlen c hc dev _ _ _).2.2

/-- C8: over stable media - `internalReadData` returns, for the fixed sector size, a flag and
`size` bytes that depend on the sector only - and for every cache budget and every state reached
from the empty cache by `readData` calls, `readData` returns the flag and the bytes that
`internalReadData` returns, and a second `readData` of the same sector returns the same again. -/
theorem readData_stable {β : Type}
    (ird : β → Nat → Nat → List Nat → Bool × List Nat × β)
    (media : Nat → Bool × List Nat) (size : Nat)
    (hstable : ∀ b s buf, (ird b s size buf).1 = (media s).1 ∧
      (ird b s size buf).2.1 = (media s).2)
    (hlen : ∀ s, (media s).2.length = size)
    (maxCacheMem : Nat) (dev0 : β) (reqs : List ReadRequest)
    (s : Nat) (buf buf' : List Nat) (now now' : Nat) :
    (readData ird (readAll ird size (new maxCacheMem) dev0 reqs).1
        (readAll ird size (new maxCacheMem) dev0 reqs).2 s size buf now).1 =
      (ird (readAll ird size (new maxCacheMem) dev0 reqs).2 s size buf).1 ∧
    (readData ird (readAll ird size (new maxCacheMem) dev0 reqs).1
        (readAll ird size (new maxCacheMem) dev0 reqs).2 s size buf now).2.1.take size =
      (ird (readAll ird size (new maxCacheMem) dev0 reqs).2 s size buf).2.1.take size ∧
    (readData ird
        (readData ird (readAll ird size (new maxCacheMem) dev0 reqs).1
          (readAll ird size (new maxCacheMem) dev0 reqs).2 s size buf now).2.2.1
        (readData ird (readAll ird size (new maxCacheMem) dev0 reqs).1
          (readAll ird size (new maxCacheMem) dev0 reqs).2 s size buf now).2.2.2
        s size buf' now').1 =
      (readData ird (readAll ird size (new maxCacheMem) dev0 reqs).1
        (readAll ird size (new maxCacheMem) dev0 reqs).2 s size buf now).1 ∧
    (readData ird
        (readData ird (readAll ird size (new maxCacheMem) dev0 reqs).1
          (readAll ird size (new maxCacheMem) dev0 reqs).2 s size buf now).2.2.1
        (readData ird (readAll ird size (new maxCacheMem) dev0 reqs).1
          (readAll ird size (new maxCacheMem) dev0 reqs).2 s size buf now).2.2.2
        s size buf' now').2.1.take size =
      (readData ird (readAll ird size (new maxCacheMem) dev0 reqs).1
        (readAll ird size (new maxCacheMem) dev0 reqs).2 s size buf now).2.1.take size := by
  have h0 : ∀ e ∈ (new maxCacheMem).m_cache,
      (media e.1).1 = true ∧ e.2.data = (media e.1).2 ∧ e.2.sectorSize = size := by
    intro e he; simp [new] at he
  have hc := readAll_coherent ird media size hstable hlen reqs (new maxCacheMem) dev0 h0
  have h1 := readData_coherent ird media size hstable hlen _ hc
    (readAll ird size (new maxCacheMem) dev0 reqs).2 s buf now
  have h2 := readData_coherent ird media size hstable hlen _ h1.2.2
    (readData ird (readAll ird size (new maxCacheMem) dev0 reqs).1
      (readAll ird size (new maxCacheMem) dev0 reqs).2 s size buf now).2.2.2 s buf' now'
  have hs := hstable (readAll ird size (new maxCacheMem) dev0 reqs).2 s buf
  have htake : ((media s).2).take size = (media s).2 :=
    List.take_of_length_le (by rw [hlen s])
  refine ⟨?_, ?_, ?_, ?_⟩
  · rw [h1.1, hs.1]
  · rw [h1.2.1, hs.2, htake]
  · rw [h2.1, h1.1]
  · rw [h2.2.1, h1.2.1]

/-- C8 on a device with four readable two-byte sectors and a budget of two sectors, after reads
of sectors 0, 1, 2 and 9. -/
theorem readData_stable_witness :
    (readData (fun (b : Unit) s _ _ => (decide (s < 4), [s, s + 1], b))
      (readAll (fun (b : Unit) s _ _ => (decide (s < 4), [s, s + 1], b)) 2 (new 4) ()
        [⟨0, [0, 0], 10⟩, ⟨1, [0, 0], 11⟩, ⟨2, [0, 0], 12⟩, ⟨9, [0, 0], 13⟩]).1
      (readAll (fun (b : Unit) s _ _ => (decide (s < 4), [s, s + 1], b)) 2 (new 4) ()
        [⟨0, [0, 0], 10⟩, ⟨1, [0, 0], 11⟩, ⟨2, [0, 0], 12⟩, ⟨9, [0, 0], 13⟩]).2
      1 2 [7, 7] 14).1 = true :=
  (readData_stable (fun (b : Unit) s _ _ => (decide (s < 4), [s, s + 1], b))
    (fun s => (decide (s < 4), [s, s + 1])) 2 (fun _ _ _ => ⟨rfl, rfl⟩) (fun _ => rfl)
    4 () [⟨0, [0, 0], 10⟩, ⟨1, [0, 0], 11⟩, ⟨2, [0, 0], 12⟩, ⟨9, [0, 0], 13⟩]
    1 [7, 7] [7, 7] 14 15).1

end SectorCacheEngine

end DiskFlashback

namespace DiskFlashback

/-! ## C7: eviction of the least recently used sector -/

theorem perm_mapInsert {α : Type} (k : Nat) (v : α) (m : List (Nat × α))
    (h : ∀ e ∈ m, e.1 ≠ k) : (mapInsert k v m).Perm ((k, v) :: m) := by
  induction m with
  | nil => exact List.Perm.refl _
  | cons x rest ih =>
    obtain ⟨k', v'⟩ := x
    have hk : k' ≠ k := h (k', v') (List.mem_cons_self _ _)
    have hrest : ∀ e ∈ rest, e.1 ≠ k := fun e he => h e (List.mem_cons_of_mem _ he)
    simp only [mapInsert]
    split_ifs with h1 h2
    · exact List.Perm.refl _
    · exact absurd h2.symm hk
    · exact ((ih hrest).cons (k', v')).trans (List.Perm.swap _ _ _)

theorem map_mapErase {α β : Type} (g : α → β) (k : Nat) (m : List (Nat × α)) :
    (mapErase k m).map (fun e => (e.1, g e.2)) =
      (m.map (fun e => (e.1, g e.2))).filter (fun p => p.1 ≠ k) := by
  unfold mapErase
  rw [List.filter_map]
  rfl

namespace SectorCacheEngine

/-- The loop of `getAndReleaseOldestSector` returns the entry whose stamp is strictly below all
others. -/
theorem oldestLoop_min (m : List (Nat × SectorData)) (e : Nat × SectorData) :
    ∀ acc : Option (Nat × SectorData),
      (acc = some e ∨ e ∈ m) →
      (∀ x ∈ m, x ≠ e → e.2.lastUse < x.2.lastUse) →
      (∀ a, acc = some a → a ≠ e → e.2.lastUse < a.2.lastUse) →
      oldestLoop m acc = some e := by
  induction m with
  | nil =>
    intro acc h _ _
    rcases h with h | h
    · simpa [oldestLoop] using h
    · cases h
  | cons x rest ih =>
    intro acc h hm hacc
    have hrest : ∀ y ∈ rest, y ≠ e → e.2.lastUse < y.2.lastUse :=
      fun y hy => hm y (List.mem_cons_of_mem _ hy)
    cases acc with
    | none =>
      simp only [oldestLoop]
      apply ih _ _ hrest
      · intro a ha hne
        cases ha
        exact hm _ (List.mem_cons_self _ _) hne
      · rcases h with h | h
        · cases h
        · rcases List.mem_cons.1 h with h | h
          · exact Or.inl (by rw [h])
          · exact Or.inr h
    | some r =>
      simp only [oldestLoop]
      by_cases hxe : x = e
      · subst hxe
        by_cases hre : r = x
        · subst hre
          apply ih _ _ hrest
          · intro a ha hne
            split_ifs at ha <;> cases ha <;> exact absurd rfl hne
          · exact Or.inl (by split_ifs <;> rfl)
        · have hlt := hacc r rfl hre
          simp only [hlt, if_true]
          apply ih _ _ hrest
          · intro a ha hne
            cases ha
            exact absurd rfl hne
          · exact Or.inl rfl
      · have hxlt := hm x (List.mem_cons_self _ _) hxe
        apply ih _ _ hrest
        · intro a ha hne
          split_ifs at ha
          · cases ha; exact hxlt
          · cases ha; exact hacc _ rfl hne
        · rcases h with h | h
          · cases h
            have : ¬ x.2.lastUse < e.2.lastUse := by omega
            exact Or.inl (by simp only [this, if_false])
          · rcases List.mem_cons.1 h with h | h
            · exact absurd h.symm hxe
            · exact Or.inr h

end SectorCacheEngine

end DiskFlashback
namespace DiskFlashback
namespace SectorCacheEngine

/-- One admission of a sector not yet cached: the cache then holds the last `E + 1` of the
sectors admitted so far, each with the stamp of its admission. -/
theorem writeCache_stamps (B E Z : Nat) (hB : B ≠ 0) (hE : E = B / Z)
    (L : List (Nat × Nat)) (st : SectorCacheEngine)
    (hmem : st.m_cacheMaxMem = B)
    (hmax : st.m_maxCacheEntries = 0 ∨ st.m_maxCacheEntries = E)
    (hperm : (stamps st).Perm (L.drop (L.length - (E + 1))))
    (hnodup : (L.map Prod.fst).Nodup) (hsorted : (L.map Prod.snd).Pairwise (· < ·))
    (s t : Nat) (data : List Nat) (hs : s ∉ L.map Prod.fst) :
    (writeCache st s Z data t).m_cacheMaxMem = B ∧
    ((writeCache st s Z data t).m_maxCacheEntries = 0 ∨
      (writeCache st s Z data t).m_maxCacheEntries = E) ∧
    (stamps (writeCache st s Z data t)).Perm
      ((L ++ [(s, t)]).drop (L.length + 1 - (E + 1))) := by
  have hDsub : (L.drop (L.length - (E + 1))).Sublist L := List.drop_sublist _ _
  have hkeys : ∀ e ∈ st.m_cache, e.1 ≠ s := by
    intro e he hes
    have h1 : (e.1, e.2.lastUse) ∈ stamps st := List.mem_map.2 ⟨e, he, rfl⟩
    have h2 := hDsub.subset ((hperm.mem_iff).1 h1)
    exact hs (List.mem_map.2 ⟨_, h2, hes⟩)
  have hfind : mapFind s st.m_cache = none := (mapFind_eq_none _ _).2 hkeys
  have hlen : st.m_cache.length = (L.drop (L.length - (E + 1))).length := by
    rw [← hperm.length_eq, stamps, List.length_map]
  rw [List.length_drop] at hlen
  unfold writeCache
  rw [if_neg (by rw [hmem]; exact hB)]
  simp only [hfind]
  generalize hst' : (if st.m_maxCacheEntries = 0 then
    ({ st with m_maxCacheEntries := st.m_cacheMaxMem / Z } : SectorCacheEngine) else st) = st'
  have h1 : st'.m_cache = st.m_cache := by
    rw [← hst']; split_ifs <;> rfl
  have h2 : st'.m_cacheMaxMem = B := by
    rw [← hst']; split_ifs <;> exact hmem
  have h3 : st'.m_maxCacheEntries = E := by
    rw [← hst']
    split_ifs with h0
    · simp only [hmem, hE]
    · rcases hmax with h | h
      · exact absurd h h0
      · exact h
  have hf : ∀ (c : List (Nat × SectorData)) (X : SectorData), X.lastUse = t →
      (∀ e ∈ c, e.1 ≠ s) →
      ((mapInsert s X c).map (fun e => (e.1, e.2.lastUse))).Perm
        ((s, t) :: c.map (fun e => (e.1, e.2.lastUse))) := by
    intro c X hX hc
    have := (perm_mapInsert s X c hc).map (fun e => (e.1, e.2.lastUse))
    simpa [hX] using this
  by_cases hfull : st'.m_cache.length > st'.m_maxCacheEntries
  · rw [if_pos hfull]
    rw [h1, h3] at hfull
    have hn : L.length - (E + 1) < L.length := by omega
    have hD := List.drop_eq_getElem_cons hn
    rw [hD] at hperm hDsub
    have hnd : ((L[L.length - (E + 1)] :: L.drop (L.length - (E + 1) + 1)).map Prod.fst).Nodup :=
      (hDsub.map Prod.fst).nodup hnodup
    have hpw : ((L[L.length - (E + 1)] :: L.drop (L.length - (E + 1) + 1)).map
        Prod.snd).Pairwise (· < ·) := hsorted.sublist (hDsub.map Prod.snd)
    have hcnd : (st.m_cache.map Prod.fst).Nodup := by
      have hp := hperm.map Prod.fst
      have : (stamps st).map Prod.fst = st.m_cache.map Prod.fst := by
        simp [stamps, List.map_map, Function.comp_def]
      rw [this] at hp
      exact (hp.nodup_iff).2 hnd
    obtain ⟨e0, he0, hed⟩ : ∃ e0 ∈ st.m_cache,
        (e0.1, e0.2.lastUse) = L[L.length - (E + 1)] :=
      List.mem_map.1 ((hperm.mem_iff).2 (List.mem_cons_self _ _))
    have hk0 : (L[L.length - (E + 1)]).1 = e0.1 := by rw [← hed]
    have ht0 : (L[L.length - (E + 1)]).2 = e0.2.lastUse := by rw [← hed]
    rw [List.map_cons, List.nodup_cons] at hnd
    rw [List.map_cons, List.pairwise_cons] at hpw
    have hmin : ∀ x ∈ st.m_cache, x ≠ e0 → e0.2.lastUse < x.2.lastUse := by
      intro x hx hne
      have hx1 : (x.1, x.2.lastUse) ∈ stamps st := List.mem_map.2 ⟨x, hx, rfl⟩
      rcases List.mem_cons.1 ((hperm.mem_iff).1 hx1) with h | h
      · exfalso
        apply hne
        apply List.inj_on_of_nodup_map hcnd hx he0
        rw [← hk0, ← h]
      · have := hpw.1 _ (List.mem_map.2 ⟨_, h, rfl⟩)
        rw [ht0] at this
        exact this
    have hold : oldestLoop st'.m_cache none = some e0 := by
      rw [h1]
      exact oldestLoop_min _ _ none (Or.inr he0) hmin (by intro a ha; cases ha)
    simp only [getAndReleaseOldestSector, hold]
    refine ⟨h2, Or.inr h3, ?_⟩
    have hidx : L.length + 1 - (E + 1) = L.length - (E + 1) + 1 := by omega
    rw [hidx, List.drop_append_of_le_length (by omega)]
    refine ((hf _ _ rfl ?_).trans ?_).trans (List.perm_append_singleton _ _).symm
    · intro e he
      exact hkeys e (mem_mapErase _ _ _ (h1 ▸ he))
    · refine List.Perm.cons _ ?_
      rw [h1, map_mapErase SectorData.lastUse]
      have hp := hperm.filter (fun p => decide (p.1 ≠ e0.1))
      have hflt : (L[L.length - (E + 1)] :: L.drop (L.length - (E + 1) + 1)).filter
          (fun p => decide (p.1 ≠ e0.1)) = L.drop (L.length - (E + 1) + 1) := by
        rw [List.filter_cons_of_neg (by simp [hk0])]
        rw [List.filter_eq_self]
        intro a ha
        have : a.1 ≠ (L[L.length - (E + 1)]).1 := by
          intro h
          exact hnd.1 (List.mem_map.2 ⟨a, ha, h⟩)
        simpa [hk0] using this
      rw [hflt] at hp
      exact hp
  · rw [if_neg hfull]
    rw [h1, h3] at hfull
    refine ⟨h2, Or.inr h3, ?_⟩
    have hz : L.length - (E + 1) = 0 := by omega
    have hz' : L.length + 1 - (E + 1) = 0 := by omega
    rw [hz, List.drop_zero] at hperm
    rw [hz', List.drop_zero]
    refine ((hf _ _ rfl ?_).trans ?_).trans (List.perm_append_singleton _ _).symm
    · intro e he
      exact hkeys e (h1 ▸ he)
    · rw [h1]
      exact List.Perm.cons _ hperm


/-- After admitting distinct sectors at strictly increasing clock readings into an empty cache
of budget `B`, the cache holds exactly the last `B / Z + 1` of them. -/
theorem admitAll_stamps (B Z : Nat) (hB : B ≠ 0) (adm : List Admission)
    (hdistinct : (adm.map Admission.sectorNumber).Nodup)
    (hclock : (adm.map Admission.now).Pairwise (· < ·)) :
    (admitAll Z (new B) adm).m_cacheMaxMem = B ∧
    ((admitAll Z (new B) adm).m_maxCacheEntries = 0 ∨
      (admitAll Z (new B) adm).m_maxCacheEntries = B / Z) ∧
    (stamps (admitAll Z (new B) adm)).Perm
      ((adm.map (fun a => (a.sectorNumber, a.now))).drop (adm.length - (B / Z + 1))) := by
  induction adm using List.reverseRecOn with
  | nil => exact ⟨rfl, Or.inl rfl, by simp [admitAll, new, stamps]⟩
  | append_singleton l a ih =>
    rw [List.map_append, List.nodup_append] at hdistinct
    rw [List.map_append, List.pairwise_append] at hclock
    have h := ih hdistinct.1 hclock.1
    have hL1 : (l.map (fun a => (a.sectorNumber, a.now))).map Prod.fst =
        l.map Admission.sectorNumber := by
      simp [List.map_map, Function.comp_def]
    have hL2 : (l.map (fun a => (a.sectorNumber, a.now))).map Prod.snd =
        l.map Admission.now := by
      simp [List.map_map, Function.comp_def]
    have hs : a.sectorNumber ∉ (l.map (fun a => (a.sectorNumber, a.now))).map Prod.fst := by
      rw [hL1]
      intro hmem
      exact hdistinct.2.2 hmem (by simp)
    have hperm := h.2.2
    have hlen : l.length = (l.map (fun a => (a.sectorNumber, a.now))).length := by simp
    rw [hlen] at hperm
    have step := writeCache_stamps B (B / Z) Z hB rfl
      (l.map (fun a => (a.sectorNumber, a.now))) (admitAll Z (new B) l) h.1 h.2.1 hperm
      (by rw [hL1]; exact hdistinct.1) (by rw [hL2]; exact hclock.1)
      a.sectorNumber a.now a.data hs
    have hfold : admitAll Z (new B) (l ++ [a]) =
        writeCache (admitAll Z (new B) l) a.sectorNumber Z a.data a.now := by
      simp [admitAll, List.foldl_append]
    rw [hfold]
    refine ⟨step.1, step.2.1, ?_⟩
    have := step.2.2
    simpa [List.map_append] using this

/-- C7, amended: with budget `B > 0` and sector size `Z > 0`, after admitting `B / Z + 1 + k`
distinct sectors at strictly increasing clock readings into an initially empty cache, the cache
holds exactly `B / Z + 1` entries (which is `⌈B/Z⌉` only when `Z` does not divide `B`) and the
first `k` sectors admitted are absent. -/
theorem lru_eviction (B Z k : Nat) (hB : 0 < B) (_hZ : 0 < Z) (adm : List Admission)
    (hcount : adm.length = B / Z + 1 + k)
    (hdistinct : (adm.map Admission.sectorNumber).Nodup)
    (hclock : (adm.map Admission.now).Pairwise (· < ·)) :
    (admitAll Z (new B) adm).m_cache.length = B / Z + 1 ∧
    ∀ a ∈ adm.take k, mapFind a.sectorNumber (admitAll Z (new B) adm).m_cache = none := by
  have h := (admitAll_stamps B Z (by omega) adm hdistinct hclock).2.2
  generalize B / Z = E at h hcount ⊢
  have hk : adm.length - (E + 1) = k := by omega
  rw [hk] at h
  constructor
  · have hl := h.length_eq
    rw [stamps, List.length_map, List.length_drop, List.length_map] at hl
    omega
  · intro a ha
    rw [mapFind_eq_none]
    intro e he hea
    have h1 : (e.1, e.2.lastUse) ∈ stamps (admitAll Z (new B) adm) :=
      List.mem_map.2 ⟨e, he, rfl⟩
    have h2 := (h.mem_iff).1 h1
    rw [← List.map_drop] at h2
    obtain ⟨b, hb, hbe⟩ := List.mem_map.1 h2
    have hdisj := List.disjoint_take_drop hdistinct (le_refl k)
    rw [← List.map_take, ← List.map_drop] at hdisj
    apply hdisj (List.mem_map.2 ⟨a, ha, rfl⟩) (List.mem_map.2 ⟨b, hb, ?_⟩)
    have : b.sectorNumber = e.1 := congrArg Prod.fst hbe
    rw [this, hea]

/-- C7 on a budget of 1000 bytes with 512-byte sectors (`B / Z + 1 = 2 = ⌈B/Z⌉`) and `k = 1`. -/
theorem lru_eviction_witness :
    (admitAll 512 (new 1000)
      [⟨4, List.replicate 512 1, 100⟩, ⟨2, List.replicate 512 2, 101⟩,
       ⟨9, List.replicate 512 3, 105⟩]).m_cache.length = 1000 / 512 + 1 :=
  (lru_eviction 1000 512 1 (by decide) (by decide)
    [⟨4, List.replicate 512 1, 100⟩, ⟨2, List.replicate 512 2, 101⟩,
     ⟨9, List.replicate 512 3, 105⟩] (by decide) (by decide) (by decide)).1

/-- C7 as stated fails. With budget 1024 and sector size 512, `⌈B/Z⌉ = 2`; after admitting
`2 + 1` distinct sectors the cache holds 3 entries and the first sector admitted is still cached.
With budget 1000 (again `⌈B/Z⌉ = 2`) and three sectors 5, 3, 7 admitted within the same second,
the entry evicted is sector 3 and the first sector admitted, 5, is still cached. -/
theorem lru_eviction_ceil_counterexample :
    ((1024 + 512 - 1) / 512 = 2 ∧
      (admitAll 512 (new 1024)
        [⟨0, List.replicate 512 1, 100⟩, ⟨1, List.replicate 512 2, 101⟩,
         ⟨2, List.replicate 512 3, 102⟩]).m_cache.length = 3 ∧
      (mapFind 0 (admitAll 512 (new 1024)
        [⟨0, List.replicate 512 1, 100⟩, ⟨1, List.replicate 512 2, 101⟩,
         ⟨2, List.replicate 512 3, 102⟩]).m_cache).isSome = true) ∧
    ((1000 + 512 - 1) / 512 = 2 ∧
      (mapFind 5 (admitAll 512 (new 1000)
        [⟨5, List.replicate 512 1, 100⟩, ⟨3, List.replicate 512 2, 100⟩,
         ⟨7, List.replicate 512 3, 100⟩]).m_cache).isSome = true ∧
      (mapFind 3 (admitAll 512 (new 1000)
        [⟨5, List.replicate 512 1, 100⟩, ⟨3, List.replicate 512 2, 100⟩,
         ⟨7, List.replicate 512 3, 100⟩]).m_cache).isSome = false) := by
  refine ⟨⟨by decide, ?_, ?_⟩, ⟨by decide, ?_, ?_⟩⟩ <;> rfl

end SectorCacheEngine
end DiskFlashback

namespace DiskFlashback

namespace SectorCacheMFM

/-! ## C9: rejected writes -/

/-- C9: whenever `blockWriting` is set, the disk type is Unknown or Hybrid, or the drive is
write-protected, the engine's `internalWriteData` returns false and leaves the engine (both plane
caches, the dirty map and every other member) unchanged, and `writeData` through it returns false
and leaves the LRU sector cache and the engine unchanged. -/
theorem internalWriteData_rejected {δ : Type} (br : Bridge δ)
    (flush : SectorCacheMFM → δ → Bool × SectorCacheMFM × δ)
    (cache : SectorCacheEngine) (self : SectorCacheMFM) (d : δ)
    (sectorNumber sectorSize : Nat) (data : List Nat) (now : Nat)
    (h : self.m_blockWriting = true ∨ self.m_diskType = SectorType.stUnknown ∨
      self.m_diskType = SectorType.stHybrid ∨ br.isDriveWriteProtected d = true) :
    (internalWriteData br flush self d sectorNumber sectorSize data).1 = false ∧
    (internalWriteData br flush self d sectorNumber sectorSize data).2.1 = self ∧
    (writeData br flush cache self d sectorNumber sectorSize data now).1 = false ∧
    (writeData br flush cache self d sectorNumber sectorSize data now).2.1 = cache ∧
    (writeData br flush cache self d sectorNumber sectorSize data now).2.2.1 = self := by
  have key : internalWriteData br flush self d sectorNumber sectorSize data =
      (false, self, d) := by
    unfold internalWriteData
    by_cases hb : self.m_blockWriting = true
    · rw [if_pos hb]
    · rw [if_neg hb]
      by_cases ht : self.m_diskType = SectorType.stHybrid ∨
          self.m_diskType = SectorType.stUnknown
      · rw [if_pos ht]
      · rw [if_neg ht]
        have hw : br.isDriveWriteProtected d = true := by
          rcases h with h | h | h | h
          · exact absurd h hb
          · exact absurd (Or.inr h) ht
          · exact absurd (Or.inl h) ht
          · exact h
        rw [if_pos hw]
  simp only [writeData, SectorCacheEngine.writeData, key, Bool.false_eq_true, if_false,
    and_self]

/-- C9 on the hybrid disk of scenario S3: `write(0, 512, zeros)` is refused. -/
theorem internalWriteData_rejected_witness :
    (writeData (Bridge.steady false) (fun s d => (true, s, d)) (SectorCacheEngine.new 0)
      { initial with m_diskType := SectorType.stHybrid } 0 0 512 (List.replicate 512 0) 7).1
      = false :=
  (internalWriteData_rejected (Bridge.steady false) (fun s d => (true, s, d))
    (SectorCacheEngine.new 0) { initial with m_diskType := SectorType.stHybrid } 0 0 512
    (List.replicate 512 0) 7 (Or.inr (Or.inr (Or.inl rfl)))).2.2.1

/-! ## C10: identification of the disk type -/

theorem storeAmiga_fields (cd : Codec) (hd : Bool) (bits trackNo slot : Nat)
    (self : SectorCacheMFM) :
    (storeAmiga cd hd bits trackNo slot self).m_diskType = self.m_diskType ∧
    (storeAmiga cd hd bits trackNo slot self).m_sectorsPerTrack = self.m_sectorsPerTrack ∧
    (storeAmiga cd hd bits trackNo slot self).m_bytesPerSector = self.m_bytesPerSector ∧
    (storeAmiga cd hd bits trackNo slot self).m_totalCylinders = self.m_totalCylinders ∧
    (storeAmiga cd hd bits trackNo slot self).m_numHeads = self.m_numHeads :=
  ⟨rfl, rfl, rfl, rfl, rfl⟩

theorem storeIBM_fields (cd : Codec) (hd : Bool) (bits track spt plane slot : Nat) (ns : Bool)
    (self : SectorCacheMFM) :
    (storeIBM cd hd bits track spt plane slot ns self).m_diskType = self.m_diskType ∧
    (storeIBM cd hd bits track spt plane slot ns self).m_sectorsPerTrack =
      self.m_sectorsPerTrack ∧
    (storeIBM cd hd bits track spt plane slot ns self).m_bytesPerSector =
      self.m_bytesPerSector ∧
    (storeIBM cd hd bits track spt plane slot ns self).m_totalCylinders =
      self.m_totalCylinders ∧
    (storeIBM cd hd bits track spt plane slot ns self).m_numHeads = self.m_numHeads :=
  ⟨rfl, rfl, rfl, rfl, rfl⟩

/-- Decoding into the plane caches changes neither the disk type nor the geometry fixed by the
identification. -/
theorem decodeFlux_fields (cd : Codec) (hd : Bool) (fs track bits : Nat)
    (self : SectorCacheMFM) (hunk : self.m_diskType = SectorType.stUnknown) :
    (decodeFlux cd hd fs track bits self).m_diskType =
      (identify cd hd track bits self).m_diskType ∧
    (decodeFlux cd hd fs track bits self).m_sectorsPerTrack =
      (identify cd hd track bits self).m_sectorsPerTrack ∧
    (decodeFlux cd hd fs track bits self).m_bytesPerSector =
      (identify cd hd track bits self).m_bytesPerSector ∧
    (decodeFlux cd hd fs track bits self).m_totalCylinders =
      (identify cd hd track bits self).m_totalCylinders ∧
    (decodeFlux cd hd fs track bits self).m_numHeads =
      (identify cd hd track bits self).m_numHeads := by
  simp only [decodeFlux, hunk, decide_True, if_true]
  split_ifs <;> simp only [storeAmiga_fields, storeIBM_fields, and_self]

/-- The disk type chosen by the identification block. -/
theorem identify_diskType (cd : Codec) (hd : Bool) (track bits : Nat) (self : SectorCacheMFM) :
    (identify cd hd track bits self).m_diskType =
      if 5 ≤ (cd.findSectors_IBM self.m_mfmBuffer bits hd track 0 ⟨[], 0⟩ false).1.sectors.length
      then
        if (cd.getTrackDetails_IBM
            (cd.findSectors_IBM self.m_mfmBuffer bits hd track 0 ⟨[], 0⟩ false).1).isSome then
          if 2 ≤ (cd.findSectors_AMIGA self.m_mfmBuffer bits hd track 0 ⟨[], 0⟩).sectors.length
          then SectorType.stHybrid
          else if (cd.findSectors_IBM self.m_mfmBuffer bits hd track 0 ⟨[], 0⟩ false).2 = true
          then SectorType.stAtari
          else SectorType.stIBM
        else SectorType.stIBM
      else if 1 ≤ (cd.findSectors_AMIGA self.m_mfmBuffer bits hd track 0 ⟨[], 0⟩).sectors.length
      then SectorType.stAmiga
      else SectorType.stUnknown := by
  simp only [identify]
  by_cases hi : 5 ≤
      (cd.findSectors_IBM self.m_mfmBuffer bits hd track 0 ⟨[], 0⟩ false).1.sectors.length
  · simp only [ge_iff_le, hi, if_true, true_and]
    cases hp : cd.getTrackDetails_IBM
        (cd.findSectors_IBM self.m_mfmBuffer bits hd track 0 ⟨[], 0⟩ false).1 with
    | none => simp
    | some det =>
      simp only [Option.isSome_some, if_true, gt_iff_lt]
      by_cases ha : 2 ≤
          (cd.findSectors_AMIGA self.m_mfmBuffer bits hd track 0 ⟨[], 0⟩).sectors.length
      · have ha' : 1 <
            (cd.findSectors_AMIGA self.m_mfmBuffer bits hd track 0 ⟨[], 0⟩).sectors.length := ha
        simp only [ha, ha', if_true]
      · have ha' : ¬ 1 <
            (cd.findSectors_AMIGA self.m_mfmBuffer bits hd track 0 ⟨[], 0⟩).sectors.length := ha
        simp only [ha, ha', if_false]
        split_ifs <;> rfl
  · simp only [ge_iff_le, hi, if_false]
    by_cases ha : 1 ≤
        (cd.findSectors_AMIGA self.m_mfmBuffer bits hd track 0 ⟨[], 0⟩).sectors.length
    · have ha' : (cd.findSectors_AMIGA self.m_mfmBuffer bits hd track 0 ⟨[], 0⟩).sectors.length
          ≠ 0 := by omega
      simp only [ha, ha', ne_eq, not_false_eq_true, if_true]
    · have ha' : (cd.findSectors_AMIGA self.m_mfmBuffer bits hd track 0 ⟨[], 0⟩).sectors.length
          = 0 := by omega
      simp only [ha', ne_eq, not_true_eq_false, if_false]
      rfl

/-- The geometry left by the identification block when the boot sector does not parse. -/
theorem identify_fallback (cd : Codec) (hd : Bool) (track bits : Nat) (self : SectorCacheMFM)
    (hi : 5 ≤
      (cd.findSectors_IBM self.m_mfmBuffer bits hd track 0 ⟨[], 0⟩ false).1.sectors.length)
    (hp : cd.getTrackDetails_IBM
      (cd.findSectors_IBM self.m_mfmBuffer bits hd track 0 ⟨[], 0⟩ false).1 = none) :
    (identify cd hd track bits self).m_sectorsPerTrack 0 = (if hd then 18 else 9) ∧
    (identify cd hd track bits self).m_bytesPerSector 0 = 512 ∧
    (identify cd hd track bits self).m_totalCylinders 0 = 80 ∧
    (identify cd hd track bits self).m_numHeads 0 = 2 := by
  simp only [identify, ge_iff_le, hi, if_true, hp, setAt]
  simp

theorem pollFlux_diskType {δ : Type} (br : Bridge δ) (fs track : Nat) (retry : Bool)
    (self : SectorCacheMFM) (d : δ) :
    (pollFlux br fs track retry self d).2.1.m_diskType = self.m_diskType := rfl

/-- The polling loop touches only the motor time stamp and the scratch buffer. -/
theorem readFlux_diskType {δ : Type} (br : Bridge δ) (fs track : Nat) (retry : Bool)
    (start : Nat) (fuel : Nat) :
    ∀ (self : SectorCacheMFM) (d : δ) (r : Option Nat) (s1 : SectorCacheMFM) (d1 : δ),
      readFlux br fs track retry start fuel self d = some (r, s1, d1) →
      s1.m_diskType = self.m_diskType := by
  induction fuel with
  | zero => intro self d r s1 d1 h; simp [readFlux] at h
  | succ n ih =>
    intro self d r s1 d1 h
    simp only [readFlux] at h
    by_cases h0 : (pollFlux br fs track retry self d).1 = 0
    · rw [if_pos h0] at h
      by_cases h1 : (br.GetTickCount64 (pollFlux br fs track retry self d).2.2).1 - start >
          TRACK_READ_TIMEOUT
      · rw [if_pos h1] at h
        simp only [Option.some.injEq, Prod.mk.injEq] at h
        rw [← h.2.1]
        exact pollFlux_diskType br fs track retry self d
      · rw [if_neg h1] at h
        rw [ih _ _ _ _ _ h]
        exact pollFlux_diskType br fs track retry self d
    · rw [if_neg h0] at h
      simp only [Option.some.injEq, Prod.mk.injEq] at h
      rw [← h.2.1]
      exact pollFlux_diskType br fs track retry self d

/-- C10, amended: when `doTrackReading` receives flux (`bits` bits, engine `s1`, drive `d1` at
the end of its polling loop) with the disk type Unknown on entry, it returns true and the disk
type is decided in this order from the two finder results: if the IBM finder returned at least 5
sectors, then Hybrid when the boot sector parses and the Amiga finder returned at least 2
sectors, else Atari when the boot sector parses and `nonStandard` is set, else IBM; else Amiga if
the Amiga finder returned at least 1 sector; else Unknown. When the IBM finder returned at least
5 sectors and the boot sector does not parse, plane 0 gets the fallback geometry 18 (HD) or 9
sectors, 512 bytes, 80 cylinders, 2 heads. -/
theorem doTrackReading_identifies {δ : Type} (br : Bridge δ) (cd : Codec) (fuel : Nat)
    (fs track : Nat) (retry : Bool) (self : SectorCacheMFM) (d : δ)
    (bits : Nat) (s1 : SectorCacheMFM) (d1 : δ)
    (hunk : self.m_diskType = SectorType.stUnknown)
    (hflux : readFlux br fs track retry (br.GetTickCount64 d).1 fuel self
      (br.GetTickCount64 d).2 = some (some bits, s1, d1)) :
    ∃ st', doTrackReading br cd fuel fs track retry self d = some (true, st', d1) ∧
      st'.m_diskType =
        (if 5 ≤ (cd.findSectors_IBM s1.m_mfmBuffer bits (br.isHD d1) track 0 ⟨[], 0⟩
            false).1.sectors.length
        then
          if (cd.getTrackDetails_IBM (cd.findSectors_IBM s1.m_mfmBuffer bits (br.isHD d1) track 0
              ⟨[], 0⟩ false).1).isSome then
            if 2 ≤ (cd.findSectors_AMIGA s1.m_mfmBuffer bits (br.isHD d1) track 0
                ⟨[], 0⟩).sectors.length
            then SectorType.stHybrid
            else if (cd.findSectors_IBM s1.m_mfmBuffer bits (br.isHD d1) track 0 ⟨[], 0⟩
                false).2 = true
            then SectorType.stAtari
            else SectorType.stIBM
          else SectorType.stIBM
        else if 1 ≤ (cd.findSectors_AMIGA s1.m_mfmBuffer bits (br.isHD d1) track 0
            ⟨[], 0⟩).sectors.length
        then SectorType.stAmiga
        else SectorType.stUnknown) ∧
      (5 ≤ (cd.findSectors_IBM s1.m_mfmBuffer bits (br.isHD d1) track 0 ⟨[], 0⟩
            false).1.sectors.length →
        cd.getTrackDetails_IBM (cd.findSectors_IBM s1.m_mfmBuffer bits (br.isHD d1) track 0
            ⟨[], 0⟩ false).1 = none →
        st'.m_sectorsPerTrack 0 = (if br.isHD d1 then 18 else 9) ∧
        st'.m_bytesPerSector 0 = 512 ∧ st'.m_totalCylinders 0 = 80 ∧
        st'.m_numHeads 0 = 2) := by
  have hs1 : s1.m_diskType = SectorType.stUnknown :=
    (readFlux_diskType br fs track retry _ fuel self _ _ s1 d1 hflux).trans hunk
  have hf := decodeFlux_fields cd (br.isHD d1) fs track bits s1 hs1
  refine ⟨decodeFlux cd (br.isHD d1) fs track bits s1, ?_, ?_, ?_⟩
  · simp only [doTrackReading, hflux]
  · rw [hf.1]
    exact identify_diskType cd (br.isHD d1) track bits s1
  · intro hi hp
    rw [hf.2.1, hf.2.2.1, hf.2.2.2.1, hf.2.2.2.2]
    exact identify_fallback cd (br.isHD d1) track bits s1 hi hp

/-- C10 on a double-density PC disk whose boot sector does not parse: nine IBM sectors, no Amiga
sector. -/
theorem doTrackReading_identifies_witness :
    ∃ st', doTrackReading (Bridge.steady false) (Codec.fixed 0 9 false none) 1 0 0 false
        initial 0 = some (true, st', 2) ∧
      st'.m_diskType = SectorType.stIBM ∧ st'.m_sectorsPerTrack 0 = 9 := by
  obtain ⟨st', h1, h2, h3⟩ := doTrackReading_identifies (Bridge.steady false)
    (Codec.fixed 0 9 false none) 1 0 0 false initial 0 100000
    { initial with m_motorTurnOnTime := 1 } 2 rfl rfl
  exact ⟨st', h1, h2, (h3 (by decide) rfl).1⟩

/-- C10 as stated fails. With one Amiga sector, five IBM sectors and a boot sector that parses,
the spec gives Hybrid and the code gives IBM; with no Amiga sector, five IBM sectors,
`nonStandard` set and a boot sector that does not parse, the spec gives Atari and the code gives
IBM. -/
theorem doTrackReading_identifies_counterexample :
    (doTrackReading (Bridge.steady false)
        (Codec.fixed 1 5 false (some ⟨0x12345678, 2, 1440, 9, 512⟩)) 1 0 0 false initial 0).map
      (fun r => (r.1, r.2.1.m_diskType)) = some (true, SectorType.stIBM) ∧
    (doTrackReading (Bridge.steady false) (Codec.fixed 0 5 true none) 1 0 0 false initial 0).map
      (fun r => (r.1, r.2.1.m_diskType)) = some (true, SectorType.stIBM) := by
  constructor <;> rfl

end SectorCacheMFM

end DiskFlashback

namespace DiskFlashback

/-! ## C16, C17: the disk functions -/

/-- C16: `disk_status` returns NOINIT when no back end is bound or the drive is not 0, otherwise
NODISK when no media is present, else PROTECT when the media is write-protected, else 0; and
`disk_initialize` returns the same value in every state (both only query the back end). -/
theorem disk_status_table {β : Type} (dev : BlockDevice β) (cache : Option β) (pdrv : Nat) :
    (cache = none ∨ pdrv ≠ 0 → disk_status dev cache pdrv = STA_NOINIT) ∧
    (∀ c, cache = some c → pdrv = 0 →
      disk_status dev cache pdrv =
        if dev.isDiskPresent c = false then STA_NODISK
        else if dev.isDiskWriteProtected c = true then STA_PROTECT
        else 0) ∧
    disk_initialize dev cache pdrv = disk_status dev cache pdrv := by
  refine ⟨?_, ?_, rfl⟩
  · intro h
    cases cache with
    | none => rfl
    | some c =>
      rcases h with h | h
      · cases h
      · simp [disk_status, h]
  · intro c hc hp
    subst hc hp
    simp only [disk_status, if_true]
    cases dev.isDiskPresent c <;> simp

/-- C16 on a back end with a write-protected disk. -/
theorem disk_status_table_witness :
    disk_status
      { isDiskPresent := fun _ => true, isDiskWriteProtected := fun _ => true,
        sectorSize := fun _ => 512, hybridSectorSize := fun _ => 512,
        hybridReadData := fun (b : Unit) _ _ => (true, List.replicate 512 0, b) }
      (some ()) 0 = STA_PROTECT :=
  ((disk_status_table
      { isDiskPresent := fun _ => true, isDiskWriteProtected := fun _ => true,
        sectorSize := fun _ => 512, hybridSectorSize := fun _ => 512,
        hybridReadData := fun (b : Unit) _ _ => (true, List.replicate 512 0, b) }
      (some ()) 0).2.1 () rfl rfl).trans rfl

/-- C17: `disk_read` hands `sectorSize()` to `hybridReadData`, not the hybrid sector size. On a
back end whose hybrid reads succeed exactly at the hybrid sector size (line 366 of
`mfminterface.cpp`) and whose two sizes differ, a read of a present, readable disk issues one read
with `sectorSize()` and returns `RES_ERROR`. -/
theorem disk_read_wrong_size {β : Type} (dev : BlockDevice β) (c : β)
    (buff : List Nat) (lba count : Nat)
    (hpresent : dev.isDiskPresent c = true)
    (hsize : dev.sectorSize c ≠ dev.hybridSectorSize c)
    (hread : ∀ s size, (dev.hybridReadData c s size).1 = decide (size = dev.hybridSectorSize c))
    (hcount : 0 < count) :
    (disk_read dev (some c) 0 buff lba count).1 = DRESULT.RES_ERROR ∧
    (disk_read dev (some c) 0 buff lba count).2.2.2 = [(u32 lba, dev.sectorSize c)] := by
  obtain ⟨n, rfl⟩ : ∃ n, count = n + 1 := ⟨count - 1, by omega⟩
  have h := hread (u32 lba) (dev.sectorSize c)
  simp only [hsize, decide_False] at h
  simp [disk_read, hpresent, readSectors, h]

/-- C17 at a concrete input: a hybrid disk whose plane 0 has 512-byte and whose plane 1 has
1024-byte sectors; `disk_read(0, buf, 0, 1)` asks for 512 bytes and fails. -/
theorem disk_read_wrong_size_witness :
    (disk_read
      { isDiskPresent := fun _ => true, isDiskWriteProtected := fun _ => false,
        sectorSize := fun _ => 512, hybridSectorSize := fun _ => 1024,
        hybridReadData := fun (b : Unit) _ size =>
          (decide (size = 1024), List.replicate size 0, b) }
      (some ()) 0 (List.replicate 1024 0) 0 1).1 = DRESULT.RES_ERROR :=
  (disk_read_wrong_size
    { isDiskPresent := fun _ => true, isDiskWriteProtected := fun _ => false,
      sectorSize := fun _ => 512, hybridSectorSize := fun _ => 1024,
      hybridReadData := fun (b : Unit) _ size =>
        (decide (size = 1024), List.replicate size 0, b) }
    () (List.replicate 1024 0) 0 1 rfl (by decide) (fun _ _ => rfl) (by decide)).1

/-! ## C18: the DOS time stamp -/

theorem or_low (a b i : Nat) (h : b < 2 ^ i) : a * 2 ^ i ||| b = a * 2 ^ i + b := by
  rw [Nat.mul_comm]
  exact (Nat.mul_add_lt_is_or h a).symm

theorem toU32_ofNat (n : Nat) (h : n < 2 ^ 32) : toU32 (n : Int) = n := by
  unfold toU32
  have : ((n : Int) % 2 ^ 32) = (n : Int) := Int.emod_eq_of_lt (by omega) (by exact_mod_cast h)
  rw [this]
  exact Int.toNat_natCast n

/-- C18: for every local time with year 1980..2107, month 1..12, day 1..31, hour 0..23, minute
0..59 and second 0..59, `get_fattime` returns the 32-bit value
`((y-1980)<<25) | (m<<21) | (d<<16) | (h<<11) | (min<<5) | (sec>>1)`, and the six fields occupy
disjoint bit ranges: each is recovered from the result by a shift and a mask. -/
theorem get_fattime_packed (y m d h mi s : Nat)
    (hy : 1980 ≤ y ∧ y ≤ 2107) (hm : 1 ≤ m ∧ m ≤ 12) (hd : 1 ≤ d ∧ d ≤ 31)
    (hh : h ≤ 23) (hmi : mi ≤ 59) (hs : s ≤ 59) :
    get_fattime ⟨s, mi, h, d, (m : Int) - 1, (y : Int) - 1900⟩ =
      ((y - 1980) <<< 25) ||| (m <<< 21) ||| (d <<< 16) ||| (h <<< 11) ||| (mi <<< 5) |||
        (s >>> 1) ∧
    get_fattime ⟨s, mi, h, d, (m : Int) - 1, (y : Int) - 1900⟩ < 2 ^ 32 ∧
    get_fattime ⟨s, mi, h, d, (m : Int) - 1, (y : Int) - 1900⟩ >>> 25 = y - 1980 ∧
    (get_fattime ⟨s, mi, h, d, (m : Int) - 1, (y : Int) - 1900⟩ >>> 21) % 16 = m ∧
    (get_fattime ⟨s, mi, h, d, (m : Int) - 1, (y : Int) - 1900⟩ >>> 16) % 32 = d ∧
    (get_fattime ⟨s, mi, h, d, (m : Int) - 1, (y : Int) - 1900⟩ >>> 11) % 32 = h ∧
    (get_fattime ⟨s, mi, h, d, (m : Int) - 1, (y : Int) - 1900⟩ >>> 5) % 64 = mi ∧
    get_fattime ⟨s, mi, h, d, (m : Int) - 1, (y : Int) - 1900⟩ % 32 = s / 2 := by
  have e1 : ((y : Int) - 1900 - 80) = ((y - 1980 : Nat) : Int) := by omega
  have e2 : ((m : Int) - 1 + 1) = (m : Int) := by omega
  have hY : y - 1980 < 128 := by omega
  have key : get_fattime ⟨s, mi, h, d, (m : Int) - 1, (y : Int) - 1900⟩ =
      ((y - 1980) <<< 25) ||| (m <<< 21) ||| (d <<< 16) ||| (h <<< 11) ||| (mi <<< 5) |||
        (s >>> 1) := by
    simp only [get_fattime, e1, e2]
    rw [toU32_ofNat _ (by omega), toU32_ofNat _ (by omega), toU32_ofNat _ (by omega),
      toU32_ofNat _ (by omega), toU32_ofNat _ (by omega), toU32_ofNat _ (by omega)]
    simp only [u32, Nat.shiftLeft_eq]
    rw [Nat.mod_eq_of_lt (by omega), Nat.mod_eq_of_lt (by omega), Nat.mod_eq_of_lt (by omega),
      Nat.mod_eq_of_lt (by omega), Nat.mod_eq_of_lt (by omega)]
  have sum : ((y - 1980) <<< 25) ||| (m <<< 21) ||| (d <<< 16) ||| (h <<< 11) ||| (mi <<< 5) |||
        (s >>> 1) =
      (y - 1980) * 2 ^ 25 + (m * 2 ^ 21 + (d * 2 ^ 16 + (h * 2 ^ 11 + (mi * 2 ^ 5 + s / 2)))) := by
    simp only [Nat.shiftLeft_eq, Nat.shiftRight_eq_div_pow, Nat.or_assoc, Nat.pow_one]
    rw [or_low mi (s / 2) 5 (by omega)]
    rw [or_low h _ 11 (by omega)]
    rw [or_low d _ 16 (by omega)]
    rw [or_low m _ 21 (by omega)]
    rw [or_low (y - 1980) _ 25 (by omega)]
  rw [key, sum]
  simp only [Nat.shiftRight_eq_div_pow]
  refine ⟨trivial, ?_, ?_, ?_, ?_, ?_, ?_, ?_⟩ <;> omega

/-- C18 on 29 February 2024, 13:45:58. -/
theorem get_fattime_packed_witness :
    get_fattime ⟨58, 45, 13, 29, 1, 124⟩ % 32 = 29 ∧
    (get_fattime ⟨58, 45, 13, 29, 1, 124⟩ >>> 21) % 16 = 2 ∧
    get_fattime ⟨58, 45, 13, 29, 1, 124⟩ >>> 25 = 44 :=
  ⟨(get_fattime_packed 2024 2 29 13 45 58 (by decide) (by decide) (by decide) (by decide)
      (by decide) (by decide)).2.2.2.2.2.2.2,
   (get_fattime_packed 2024 2 29 13 45 58 (by decide) (by decide) (by decide) (by decide)
      (by decide) (by decide)).2.2.2.1,
   (get_fattime_packed 2024 2 29 13 45 58 (by decide) (by decide) (by decide) (by decide)
      (by decide) (by decide)).2.2.1⟩

end DiskFlashback

namespace DiskFlashback

/-! ## C19: what an accepted write records -/

theorem mapFind_mapSet_self {α : Type} (k : Nat) (v w : α) (m : List (Nat × α))
    (h : mapFind k m = some w) : mapFind k (mapSet k v m) = some v := by
  induction m with
  | nil => simp [mapFind] at h
  | cons e rest ih =>
    obtain ⟨k1, v1⟩ := e
    by_cases hk : k1 = k
    · simp [mapSet, mapFind, hk]
    · simp only [mapFind, hk, if_false] at h
      simp [mapSet, mapFind, hk, ih h]

theorem mapFind_mapInsert_self {α : Type} (k : Nat) (v : α) (m : List (Nat × α))
    (h : mapFind k m = none) : mapFind k (mapInsert k v m) = some v := by
  induction m with
  | nil => simp [mapInsert, mapFind]
  | cons e rest ih =>
    obtain ⟨k1, v1⟩ := e
    by_cases hk : k1 = k
    · simp [mapFind, hk] at h
    · simp only [mapFind, hk, if_false] at h
      simp only [mapInsert]
      split_ifs with h1 h2
      · simp [mapFind]
      · exact absurd h2.symm hk
      · simp [mapFind, hk, ih h]

theorem toInt32_small (x : Nat) (h : x < 2 ^ 31) : toInt32 x = (x : Int) := by
  unfold toInt32
  have h1 : x % 2 ^ 32 = x := Nat.mod_eq_of_lt (by omega)
  rw [h1, if_pos h]

namespace SectorCacheMFM

theorem setSectors_find (self : SectorCacheMFM) (track : Nat)
    (sectors : List (Nat × DecodedSector)) :
    ((setSectors self 0 track sectors).m_trackCache 0 track).sectors = sectors := by
  simp [setSectors, setAt]

theorem stageRecord_spec {δ : Type} (br : Bridge δ) (self : SectorCacheMFM) (d : δ)
    (slot : Nat) (upper : Bool) (sectors : List (Nat × DecodedSector)) :
    ((stageRecord br self d slot upper sectors).1.m_trackCache 0 slot).sectors = sectors ∧
    mapFind slot (stageRecord br self d slot upper sectors).1.m_tracksToFlush =
      some ((mapFind slot self.m_tracksToFlush).getD 0 + 1) := by
  have hd : (setSectors self 0 slot sectors).m_tracksToFlush = self.m_tracksToFlush := rfl
  constructor
  · simp only [stageRecord, motorInUse, hd]
    cases mapFind slot self.m_tracksToFlush <;> exact setSectors_find self slot sectors
  · simp only [stageRecord, motorInUse, hd]
    cases h : mapFind slot self.m_tracksToFlush with
    | none => simpa using mapFind_mapInsert_self slot 1 _ h
    | some k => simpa using mapFind_mapSet_self slot (k + 1) k _ h

/-- The staged prefix is the prefix of `internalWriteData`: the two agree on the result and on
the engine wherever the flush check is not reached or does nothing. -/
theorem internalWriteData_of_stageWrite {δ : Type} (br : Bridge δ)
    (flush : SectorCacheMFM → δ → Bool × SectorCacheMFM × δ)
    (self : SectorCacheMFM) (d : δ) (n size : Nat) (data : List Nat) :
    internalWriteData br flush self d n size data =
      match stageWrite br self d n size data with
      | Except.error b => (b, self, d)
      | Except.ok s =>
        if s.1.m_tracksToFlush.length < FORCE_FLUSH_AT_TRACKS then (true, s.1, s.2)
        else (true, (flush s.1 s.2).2.1, (flush s.1 s.2).2.2) := by
  unfold internalWriteData stageWrite
  by_cases hb : self.m_blockWriting = true
  · rw [if_pos hb, if_pos hb]
  · rw [if_neg hb, if_neg hb]
    by_cases ht : self.m_diskType = SectorType.stHybrid ∨ self.m_diskType = SectorType.stUnknown
    · rw [if_pos ht, if_pos ht]
    · rw [if_neg ht, if_neg ht]
      by_cases hw : br.isDriveWriteProtected d = true
      · rw [if_pos hw, if_pos hw]
      · rw [if_neg hw, if_neg hw]
        by_cases hk : toInt32 (n / self.m_sectorsPerTrack 0) ≥ (MAX_TRACKS : Int)
        · simp only [hk, if_true]
        · simp only [hk, if_false]
          cases hf : mapFind (n % self.m_sectorsPerTrack 0)
              (self.m_trackCache 0 (toInt32 (n / self.m_sectorsPerTrack 0)).toNat).sectors with
          | none => rfl
          | some it =>
            simp only []
            by_cases h1 : it.data.take (min size it.data.length) =
                data.take (min size it.data.length)
            · rw [if_pos h1, if_pos h1]
              by_cases h2 : it.numErrors = 0
              · rw [if_pos h2, if_pos h2]
              · rw [if_neg h2, if_neg h2]
                rfl
            · rw [if_neg h1, if_neg h1]
              rfl

/-- C19, amended: for every accepted `internalWriteData(sector, size, data)` with
`size = bytesPerSector[0]` bytes of data, `track = sector / sectorsPerTrack[0] < MAX_TRACKS` and
any sector already cached at that index holding `size` bytes, either the cached sector already
held these bytes with no errors and the call returns true at once, leaving the dirty map as it
was, or immediately before the flush check the plane-0 cache of that track holds at index
`sector mod sectorsPerTrack[0]` a sector with `numErrors == 0` whose bytes equal `data`, and the
dirty counter of the track is one greater than before the call (1 if the track was not dirty). -/
theorem stageWrite_records {δ : Type} (br : Bridge δ) (self : SectorCacheMFM) (d : δ)
    (n size : Nat) (data : List Nat)
    (hb : self.m_blockWriting = false)
    (ht : self.m_diskType ≠ SectorType.stHybrid ∧ self.m_diskType ≠ SectorType.stUnknown)
    (hw : br.isDriveWriteProtected d = false)
    (hsize : size = self.m_bytesPerSector 0) (hdata : data.length = size)
    (htrack : n / self.m_sectorsPerTrack 0 < MAX_TRACKS)
    (hlen : ∀ it, mapFind (n % self.m_sectorsPerTrack 0)
        (self.m_trackCache 0 (n / self.m_sectorsPerTrack 0)).sectors = some it →
      it.data.length = size) :
    (stageWrite br self d n size data = Except.error true ∧
      ∃ it, mapFind (n % self.m_sectorsPerTrack 0)
          (self.m_trackCache 0 (n / self.m_sectorsPerTrack 0)).sectors = some it ∧
        it.numErrors = 0 ∧ it.data = data) ∨
    ∃ s d1, stageWrite br self d n size data = Except.ok (s, d1) ∧
      (∃ sec, mapFind (n % self.m_sectorsPerTrack 0)
          (s.m_trackCache 0 (n / self.m_sectorsPerTrack 0)).sectors = some sec ∧
        sec.numErrors = 0 ∧ sec.data = data) ∧
      mapFind (n / self.m_sectorsPerTrack 0) s.m_tracksToFlush =
        some ((mapFind (n / self.m_sectorsPerTrack 0) self.m_tracksToFlush).getD 0 + 1) := by
  have hT : toInt32 (n / self.m_sectorsPerTrack 0) = ((n / self.m_sectorsPerTrack 0 : Nat) : Int) :=
    toInt32_small _ (by unfold MAX_TRACKS at htrack; omega)
  have hk : ¬ (((n / self.m_sectorsPerTrack 0 : Nat) : Int) ≥ (MAX_TRACKS : Int)) := by
    intro h
    have : MAX_TRACKS ≤ n / self.m_sectorsPerTrack 0 := by exact_mod_cast h
    omega
  have hnt : ¬ (self.m_diskType = SectorType.stHybrid ∨ self.m_diskType = SectorType.stUnknown) :=
    fun h => h.elim ht.1 ht.2
  have hdt : data.take size = data := List.take_of_length_le (by omega)
  have fin : ∀ (up : Bool) (secs : List (Nat × DecodedSector)),
      (∃ sec, mapFind (n % self.m_sectorsPerTrack 0) secs = some sec ∧
        sec.numErrors = 0 ∧ sec.data = data) →
      ∃ s d1, (Except.ok (stageRecord br self d (n / self.m_sectorsPerTrack 0) up secs) :
          Except Bool (SectorCacheMFM × δ)) = Except.ok (s, d1) ∧
        (∃ sec, mapFind (n % self.m_sectorsPerTrack 0)
            (s.m_trackCache 0 (n / self.m_sectorsPerTrack 0)).sectors = some sec ∧
          sec.numErrors = 0 ∧ sec.data = data) ∧
        mapFind (n / self.m_sectorsPerTrack 0) s.m_tracksToFlush =
          some ((mapFind (n / self.m_sectorsPerTrack 0) self.m_tracksToFlush).getD 0 + 1) := by
    intro up secs h
    refine ⟨(stageRecord br self d (n / self.m_sectorsPerTrack 0) up secs).1,
      (stageRecord br self d (n / self.m_sectorsPerTrack 0) up secs).2, rfl, ?_,
      (stageRecord_spec br self d _ _ _).2⟩
    rw [(stageRecord_spec br self d _ _ _).1]
    exact h
  unfold stageWrite
  rw [if_neg (by simp [hb]), if_neg hnt, if_neg (by simp [hw])]
  simp only [hT, hk, if_false, Int.toNat_natCast]
  cases hf : mapFind (n % self.m_sectorsPerTrack 0)
      (self.m_trackCache 0 (n / self.m_sectorsPerTrack 0)).sectors with
  | none =>
    right
    have hbuf : (resize [] (self.m_bytesPerSector 0)).length = size := by
      simp [resize, hsize]
    apply fin
    refine ⟨_, mapFind_mapInsert_self _ _ _ hf, rfl, ?_⟩
    simp only [hbuf, min_self]
    exact memcpy_s_full _ _ _ hbuf hdata
  | some it =>
    have hl := hlen it hf
    have hit : it.data.take size = it.data := List.take_of_length_le (by omega)
    simp only [hl, min_self, hit, hdt]
    by_cases h1 : it.data = data
    · rw [if_pos h1]
      by_cases h2 : it.numErrors = 0
      · rw [if_pos h2]
        exact Or.inl ⟨rfl, it, rfl, h2, h1⟩
      · rw [if_neg h2]
        right
        apply fin
        exact ⟨_, mapFind_mapSet_self _ _ _ _ hf, rfl, h1⟩
    · rw [if_neg h1]
      right
      apply fin
      exact ⟨_, mapFind_mapSet_self _ _ _ _ hf, rfl, memcpy_s_full _ _ _ hl hdata⟩

/-- C19 on the first write to sector 100 of a PC disk with nothing cached: the staged engine holds
the sector at index 1 of track 11 and the dirty counter of track 11 is 1. -/
theorem stageWrite_records_witness :
    ∃ s d1, stageWrite (Bridge.steady false) ibmDD 0 100 512 (List.replicate 512 0xE5) =
        Except.ok (s, d1) ∧
      mapFind 11 s.m_tracksToFlush = some 1 := by
  rcases stageWrite_records (Bridge.steady false) ibmDD 0 100 512 (List.replicate 512 0xE5)
    rfl ⟨by decide, by decide⟩ rfl rfl (List.length_replicate 512 0xE5) (by decide)
    (by intro it h; cases h) with h | ⟨s, d1, h1, _, h3⟩
  · obtain ⟨_, it, hit, _⟩ := h
    cases hit
  · exact ⟨s, d1, h1, h3⟩

set_option maxRecDepth 100000 in
/-- C19 as stated fails. Writing to sector 0 the 512 zero bytes it already holds error-free
returns true with the dirty map still empty; and a cached sector of 256 bytes with errors, written
with 512 bytes `E5`, holds 256 bytes afterwards. -/
theorem stageWrite_records_counterexample :
    ((internalWriteData (Bridge.steady false) (fun s d => (true, s, d))
        (setSectors ibmDD 0 0 [(0, ⟨List.replicate 512 0, 0⟩)]) 0 0 512
        (List.replicate 512 0)).1 = true ∧
      (internalWriteData (Bridge.steady false) (fun s d => (true, s, d))
        (setSectors ibmDD 0 0 [(0, ⟨List.replicate 512 0, 0⟩)]) 0 0 512
        (List.replicate 512 0)).2.1.m_tracksToFlush = []) ∧
    (((internalWriteData (Bridge.steady false) (fun s d => (true, s, d))
        (setSectors ibmDD 0 0 [(0, ⟨List.replicate 256 0, 1⟩)]) 0 0 512
        (List.replicate 512 0xE5)).2.1.m_trackCache 0 0).sectors.map
        (fun e => (e.1, e.2.data.length, e.2.numErrors)) = [(0, 256, 0)]) := by
  refine ⟨⟨?_, ?_⟩, ?_⟩ <;> rfl

end SectorCacheMFM

end DiskFlashback

namespace DiskFlashback

namespace SectorCacheMFM

/-! ## `motorMonitor` on a removed disk and `flushPendingWrites` on a failing drive -/

theorem clearPlane_sectors (self : SectorCacheMFM) (plane trk : Nat) (h : trk < MAX_TRACKS) :
    ((clearPlane self plane).m_trackCache plane trk).sectors = [] := by
  simp [clearPlane, setAt, h]

theorem clearPlane_other (self : SectorCacheMFM) (plane other : Nat) (h : other ≠ plane) :
    (clearPlane self plane).m_trackCache other = self.m_trackCache other := by
  simp [clearPlane, setAt, h]

/-- C13: when `motorMonitor` sees the disk gone (motor idle, a disk recorded as present,
`isDiskInDrive()` false) on an engine without filesystem identification or without a change
callback, it returns with the dirty map empty and every plane-0 track below `MAX_TRACKS` empty,
but plane 1 of the track cache is exactly as it was: lines 202-203 clear plane 0 twice. -/
theorem motorMonitor_removal_keeps_plane1 {δ : Type} (br : Bridge δ) (cd : Codec) (en : Encoder)
    (F : Nat) (hasCallback : Bool) (self : SectorCacheMFM) (d : δ)
    (hmotor : self.m_motorTurnOnTime = 0) (hin : self.m_diskInDrive = true)
    (hout : br.isDiskInDrive d = false)
    (hcfg : self.m_fileSystemID = false ∨ hasCallback = false) :
    ∃ s d1, motorMonitor br cd en F hasCallback self d = some (s, d1, []) ∧
      s.m_diskInDrive = false ∧ s.m_tracksToFlush = [] ∧
      (∀ trk, trk < MAX_TRACKS → (s.m_trackCache 0 trk).sectors = []) ∧
      s.m_trackCache 1 = self.m_trackCache 1 := by
  have key : motorMonitor br cd en F hasCallback self d =
      some ({ clearPlane (clearPlane ({ self with m_tracksToFlush := [] }) 0) 0 with
          m_diskInDrive := false },
        br.motorEnable false false (br.cylinderSeek 0 false d), []) := by
    cases hl : self.m_tracksToFlush with
    | nil =>
      have hs : ({ self with m_tracksToFlush := [] } : SectorCacheMFM) = self := by
        cases self
        simp only [] at hl
        subst hl
        rfl
      rw [hs]
      rcases hcfg with hf | hc
      · simp [motorMonitor, idleTimeout, clearPlane, hmotor, hin, hout, hl, hf]
      · simp [motorMonitor, idleTimeout, clearPlane, hmotor, hin, hout, hl, hc]
    | cons e rest =>
      rcases hcfg with hf | hc
      · simp [motorMonitor, idleTimeout, clearPlane, hmotor, hin, hout, hl, hf]
      · simp [motorMonitor, idleTimeout, clearPlane, hmotor, hin, hout, hl, hc]
  refine ⟨_, _, key, rfl, rfl, fun trk h => clearPlane_sectors _ 0 trk h, ?_⟩
  show (clearPlane (clearPlane ({ self with m_tracksToFlush := [] }) 0) 0).m_trackCache 1 =
    self.m_trackCache 1
  rw [clearPlane_other _ 0 1 (by decide), clearPlane_other _ 0 1 (by decide)]

/-- C13 on a hybrid disk whose PC track 3 is cached in plane 1, with identification switched
off: after the removal the nine sectors of plane 1 are still cached. -/
theorem motorMonitor_removal_keeps_plane1_witness :
    ∃ s d1, motorMonitor Bridge.ejected (Codec.fixed 0 9 false none) Encoder.plain 10 true
        ({ setSectors ibmDD 1 3 (blankTrack 9).sectors with
            m_diskType := SectorType.stHybrid, m_fileSystemID := false }) 0 = some (s, d1, []) ∧
      s.m_diskInDrive = false ∧ s.m_tracksToFlush = [] ∧
      (∀ trk, trk < MAX_TRACKS → (s.m_trackCache 0 trk).sectors = []) ∧
      (s.m_trackCache 1 3).sectors.length = 9 := by
  obtain ⟨s, d1, h1, h2, h3, h4, h5⟩ :=
    motorMonitor_removal_keeps_plane1 Bridge.ejected (Codec.fixed 0 9 false none) Encoder.plain
      10 true
      ({ setSectors ibmDD 1 3 (blankTrack 9).sectors with
          m_diskType := SectorType.stHybrid, m_fileSystemID := false }) 0
      rfl rfl rfl (Or.inl rfl)
  refine ⟨s, d1, h1, h2, h3, h4, ?_⟩
  rw [h5]
  rfl

/-- C14: a flush of the dirty track 0 on a drive whose disk has been removed (motor ready, no
media) returns false at the media test of the write loop with the dirty map as it was: track 0 is
still dirty with counter 1 and its nine cached sectors are kept. -/
theorem flushPendingWrites_eject_keeps_dirty :
    (flushPendingWrites Bridge.ejected (Codec.fixed 0 9 false none) Encoder.plain 10
        ibmWritten 0).map
      (fun r => (r.1, r.2.1.m_tracksToFlush, (r.2.1.m_trackCache 0 0).sectors.length)) =
    some (false, [(0, 1)], 9) := by
  rfl

end SectorCacheMFM

end DiskFlashback

namespace DiskFlashback

namespace SectorCacheMFM

/-! ## What the parts of `flushPendingWrites` leave alone

None of the functions a flush calls assigns `m_blockWriting`, and the dirty map is only assigned
by `flushPendingWrites` itself and by `removeFailedWritesFromCache`. -/

theorem identify_frame (cd : Codec) (hd : Bool) (track bits : Nat) (self : SectorCacheMFM) :
    (identify cd hd track bits self).m_blockWriting = self.m_blockWriting ∧
      (identify cd hd track bits self).m_tracksToFlush = self.m_tracksToFlush := by
  unfold identify
  dsimp only
  split_ifs <;> (try split) <;> exact ⟨rfl, rfl⟩

theorem decodeFlux_frame (cd : Codec) (hd : Bool) (fs track bits : Nat) (self : SectorCacheMFM) :
    (decodeFlux cd hd fs track bits self).m_blockWriting = self.m_blockWriting ∧
      (decodeFlux cd hd fs track bits self).m_tracksToFlush = self.m_tracksToFlush := by
  have hi := identify_frame cd hd track bits self
  by_cases hu : self.m_diskType = SectorType.stUnknown
  · simp only [decodeFlux, hu, decide_True, if_true]
    generalize identify cd hd track bits self = s1 at hi ⊢
    split_ifs <;> exact hi
  · simp only [decodeFlux, hu, decide_False, Bool.false_eq_true, if_false]
    split_ifs <;> exact ⟨rfl, rfl⟩

theorem readFlux_frame {δ : Type} (br : Bridge δ) (fs track : Nat) (retryMode : Bool)
    (start : Nat) : ∀ (fuel : Nat) (self : SectorCacheMFM) (d : δ) (o : Option Nat)
      (s : SectorCacheMFM) (d1 : δ),
      readFlux br fs track retryMode start fuel self d = some (o, s, d1) →
      s.m_blockWriting = self.m_blockWriting ∧ s.m_tracksToFlush = self.m_tracksToFlush := by
  intro fuel
  induction fuel with
  | zero => intro self d o s d1 h; simp [readFlux] at h
  | succ n ih =>
    intro self d o s d1 h
    unfold readFlux at h
    dsimp only at h
    by_cases hp : (pollFlux br fs track retryMode self d).1 = 0
    · rw [if_pos hp] at h
      by_cases ht : (br.GetTickCount64 (pollFlux br fs track retryMode self d).2.2).1 - start >
          TRACK_READ_TIMEOUT
      · rw [if_pos ht] at h
        cases h
        exact ⟨rfl, rfl⟩
      · rw [if_neg ht] at h
        have hr := ih _ _ _ _ _ h
        exact hr
    · rw [if_neg hp] at h
      cases h
      exact ⟨rfl, rfl⟩

theorem doTrackReading_frame {δ : Type} (br : Bridge δ) (cd : Codec) (fuel fs track : Nat)
    (retryMode : Bool) (self : SectorCacheMFM) (d : δ) (b : Bool) (s : SectorCacheMFM) (d1 : δ)
    (h : doTrackReading br cd fuel fs track retryMode self d = some (b, s, d1)) :
    s.m_blockWriting = self.m_blockWriting ∧ s.m_tracksToFlush = self.m_tracksToFlush := by
  unfold doTrackReading at h
  dsimp only at h
  cases hr : readFlux br fs track retryMode (br.GetTickCount64 d).1 fuel self
      (br.GetTickCount64 d).2 with
  | none => rw [hr] at h; cases h
  | some r =>
    obtain ⟨o, s1, d2⟩ := r
    have hf := readFlux_frame br fs track retryMode _ fuel self _ o s1 d2 hr
    rw [hr] at h
    cases o with
    | none =>
      cases h
      exact hf
    | some bits =>
      cases h
      have hd := decodeFlux_frame cd (br.isHD d1) fs track bits s1
      exact ⟨hd.1.trans hf.1, hd.2.trans hf.2⟩

theorem waitLoop_frame {δ : Type} (br : Bridge δ) (upperSide : Bool) :
    ∀ (n : Nat) (self : SectorCacheMFM) (d : δ) (b : Bool) (s : SectorCacheMFM) (d1 : δ),
      waitLoop br upperSide n self d = some (b, s, d1) →
      s.m_blockWriting = self.m_blockWriting ∧ s.m_tracksToFlush = self.m_tracksToFlush := by
  intro n
  induction n with
  | zero => intro self d b s d1 h; simp [waitLoop] at h
  | succ n ih =>
    intro self d b s d1 h
    unfold waitLoop at h
    dsimp only at h
    by_cases hr : br.motorReady d = true
    · rw [if_pos hr] at h
      cases h
      exact ⟨rfl, rfl⟩
    · rw [if_neg hr] at h
      by_cases ht : (br.GetTickCount64 (br.sleep 100 d)).1 - self.m_motorTurnOnTime >
          MOTOR_TIMEOUT_TIME
      · rw [if_pos ht] at h
        cases h
        exact ⟨rfl, rfl⟩
      · rw [if_neg ht] at h
        have hr := ih _ _ _ _ _ h
        exact hr

theorem waitForMotor_frame {δ : Type} (br : Bridge δ) (F : Nat) (upperSide : Bool)
    (self : SectorCacheMFM) (d : δ) (b : Bool) (s : SectorCacheMFM) (d1 : δ)
    (h : waitForMotor br F upperSide self d = some (b, s, d1)) :
    s.m_blockWriting = self.m_blockWriting ∧ s.m_tracksToFlush = self.m_tracksToFlush := by
  have hr := waitLoop_frame br upperSide F _ _ b s d1 h
  exact hr

theorem prepareTrack_frame {δ : Type} (br : Bridge δ) (cd : Codec) (F track : Nat)
    (self : SectorCacheMFM) (d : δ) (s : SectorCacheMFM) (d1 : δ)
    (h : prepareTrack br cd F track self d = some (s, d1)) :
    s.m_blockWriting = self.m_blockWriting ∧ s.m_tracksToFlush = self.m_tracksToFlush := by
  unfold prepareTrack at h
  dsimp only at h
  by_cases hf : fillData self track = true
  · rw [if_pos hf] at h
    by_cases hw : self.m_writeOnly = true
    · rw [if_pos hw] at h
      cases h
      exact ⟨rfl, rfl⟩
    · rw [if_neg hw] at h
      cases hr : doTrackReading br cd F 0 track false self d with
      | none => rw [hr] at h; cases h
      | some r =>
        obtain ⟨b, s1, d2⟩ := r
        have hfr := doTrackReading_frame br cd F 0 track false self d b s1 d2 hr
        rw [hr] at h
        cases h
        exact hfr
  · rw [if_neg hf] at h
    cases h
    exact ⟨rfl, rfl⟩

theorem awaitWrite_frame {δ : Type} (br : Bridge δ) (cylinder start : Nat) :
    ∀ (n : Nat) (self : SectorCacheMFM) (d : δ) (b : Bool) (s : SectorCacheMFM) (d1 : δ),
      awaitWrite br cylinder start n self d = some (b, s, d1) →
      s.m_blockWriting = self.m_blockWriting ∧ s.m_tracksToFlush = self.m_tracksToFlush ∧
        s.m_trackCache = self.m_trackCache := by
  intro n
  induction n with
  | zero => intro self d b s d1 h; simp [awaitWrite] at h
  | succ n ih =>
    intro self d b s d1 h
    unfold awaitWrite at h
    dsimp only at h
    by_cases hc : br.writeCompleted d = true
    · rw [if_pos hc] at h
      cases h
      exact ⟨rfl, rfl, rfl⟩
    · rw [if_neg hc] at h
      by_cases ht : (br.GetTickCount64 d).1 - start > DISK_WRITE_TIMEOUT
      · rw [if_pos ht] at h
        cases h
        exact ⟨rfl, rfl, rfl⟩
      · rw [if_neg ht] at h
        exact ih _ _ _ _ _ h

theorem verifyRead_frame {δ : Type} (br : Bridge δ) (cd : Codec) (F track : Nat)
    (retryMode : Bool) :
    ∀ (n : Nat) (self : SectorCacheMFM) (d : δ) (b : Bool) (s : SectorCacheMFM) (d1 : δ),
      verifyRead br cd F track retryMode n self d = some (b, s, d1) →
      s.m_blockWriting = self.m_blockWriting ∧ s.m_tracksToFlush = self.m_tracksToFlush := by
  intro n
  induction n with
  | zero => intro self d b s d1 h; simp [verifyRead] at h
  | succ n ih =>
    intro self d b s d1 h
    unfold verifyRead at h
    cases hr : doTrackReading br cd F 0 track retryMode self d with
    | none => rw [hr] at h; cases h
    | some r =>
      obtain ⟨ok, s1, d2⟩ := r
      have hfr := doTrackReading_frame br cd F 0 track retryMode self d ok s1 d2 hr
      rw [hr] at h
      cases ok with
      | true =>
        dsimp only at h
        cases h
        exact hfr
      | false =>
        dsimp only at h
        by_cases hd : br.isDiskInDrive d2 = true
        · rw [if_neg (by simp [hd])] at h
          cases h
          exact hfr
        · rw [if_pos (by simpa using hd)] at h
          have hi := ih _ _ _ _ _ h
          exact ⟨hi.1.trans hfr.1, hi.2.trans hfr.2⟩

theorem setSectors_same (self : SectorCacheMFM) (plane track : Nat)
    (sectors : List (Nat × DecodedSector)) :
    ((setSectors self plane track sectors).m_trackCache plane track).sectors = sectors := by
  simp [setSectors, setAt]

theorem setSectors_other_track (self : SectorCacheMFM) (plane track t : Nat)
    (sectors : List (Nat × DecodedSector)) (h : t ≠ track) :
    (setSectors self plane track sectors).m_trackCache plane t = self.m_trackCache plane t := by
  simp [setSectors, setAt, h]

theorem setSectors_other_plane (self : SectorCacheMFM) (plane track p : Nat)
    (sectors : List (Nat × DecodedSector)) (h : p ≠ plane) :
    (setSectors self plane track sectors).m_trackCache p = self.m_trackCache p := by
  simp [setSectors, setAt, h]

/-- The loop of `removeFailedWritesFromCache` (lines 522-524) over the entries `l` of the dirty
map: the tracks with a non-zero counter lose their plane-0 sectors and nothing else changes. -/
theorem clearFailed_spec (l : List (Nat × Nat)) :
    ∀ s : SectorCacheMFM,
      (l.foldl (fun s trk => if trk.2 ≠ 0 then setSectors s 0 trk.1 [] else s) s).m_blockWriting =
          s.m_blockWriting ∧
      (∀ p, p ≠ 0 →
        (l.foldl (fun s trk => if trk.2 ≠ 0 then setSectors s 0 trk.1 [] else s) s).m_trackCache p =
          s.m_trackCache p) ∧
      ∀ t, ((∃ e ∈ l, e.1 = t ∧ e.2 ≠ 0) →
          ((l.foldl (fun s trk => if trk.2 ≠ 0 then setSectors s 0 trk.1 [] else s)
            s).m_trackCache 0 t).sectors = []) ∧
        ((¬ ∃ e ∈ l, e.1 = t ∧ e.2 ≠ 0) →
          (l.foldl (fun s trk => if trk.2 ≠ 0 then setSectors s 0 trk.1 [] else s)
            s).m_trackCache 0 t = s.m_trackCache 0 t) := by
  induction l with
  | nil =>
    intro s
    refine ⟨rfl, fun _ _ => rfl, fun t => ⟨?_, fun _ => rfl⟩⟩
    rintro ⟨e, he, _⟩
    cases he
  | cons e rest ih =>
    intro s
    rw [List.foldl_cons]
    obtain ⟨h1, h2, h3⟩ := ih (if e.2 ≠ 0 then setSectors s 0 e.1 [] else s)
    have hb : (if e.2 ≠ 0 then setSectors s 0 e.1 [] else s).m_blockWriting = s.m_blockWriting := by
      split_ifs <;> rfl
    have hp : ∀ p, p ≠ 0 →
        (if e.2 ≠ 0 then setSectors s 0 e.1 [] else s).m_trackCache p = s.m_trackCache p := by
      intro p hp
      split_ifs
      · exact setSectors_other_plane s 0 e.1 p [] hp
      · rfl
    refine ⟨h1.trans hb, fun p hp0 => (h2 p hp0).trans (hp p hp0), fun t => ⟨?_, ?_⟩⟩
    · rintro ⟨x, hx, hxt, hx0⟩
      by_cases hr : ∃ y ∈ rest, y.1 = t ∧ y.2 ≠ 0
      · exact (h3 t).1 hr
      · rw [(h3 t).2 hr]
        rcases List.mem_cons.1 hx with hxe | hxr
        · subst hxe
          rw [if_pos hx0, ← hxt]
          exact setSectors_same s 0 x.1 []
        · exact absurd ⟨x, hxr, hxt, hx0⟩ hr
    · intro hn
      have hr : ¬ ∃ y ∈ rest, y.1 = t ∧ y.2 ≠ 0 := by
        rintro ⟨y, hy, hyt, hy0⟩
        exact hn ⟨y, List.mem_cons_of_mem _ hy, hyt, hy0⟩
      rw [(h3 t).2 hr]
      by_cases he0 : e.2 ≠ 0
      · rw [if_pos he0]
        have hne : t ≠ e.1 := by
          intro h
          exact hn ⟨e, List.mem_cons_self _ _, h.symm, he0⟩
        exact setSectors_other_track s 0 e.1 t [] hne
      · rw [if_neg he0]

theorem removeFailedWritesFromCache_blockWriting (self : SectorCacheMFM) :
    (removeFailedWritesFromCache self).m_blockWriting = self.m_blockWriting :=
  (clearFailed_spec self.m_tracksToFlush self).1

theorem reseek_frame {δ : Type} (br : Bridge δ) (upperSurface : Bool) (cylinder retries : Nat)
    (self : SectorCacheMFM) (d : δ) :
    (reseek br upperSurface cylinder retries self d).2.1.m_blockWriting = self.m_blockWriting ∧
      (reseek br upperSurface cylinder retries self d).2.1.m_tracksToFlush =
        self.m_tracksToFlush := by
  unfold reseek
  split_ifs <;> exact ⟨rfl, rfl⟩

/-- What a return of the write retry loop tells: `m_blockWriting` is as on entry; a return
through the `break` of line 732 leaves the dirty map as on entry and comes right after an accepted
and completed `mfmWrite` whose verifying read gave a track matching the copy taken before it; a
return of false leaves the dirty map as on entry or empty. -/
theorem writeLoop_inv {δ : Type} (br : Bridge δ) (cd : Codec) (F track : Nat)
    (upperSurface : Bool) (cylinder numBytes : Nat) :
    ∀ (n retries : Nat) (self : SectorCacheMFM) (d : δ) (b : Bool) (s1 : SectorCacheMFM)
      (d1 : δ),
      writeLoop br cd F track upperSurface cylinder numBytes n retries self d =
        some (b, s1, d1) →
      s1.m_blockWriting = self.m_blockWriting ∧
      (b = true → s1.m_tracksToFlush = self.m_tracksToFlush ∧
        ∃ (m : SectorCacheMFM) (dm : δ) (sw : SectorCacheMFM) (dw : δ) (rm : Bool),
          (br.mfmWrite cylinder upperSurface
            (decide (m.m_diskType = SectorType.stIBM ∨ m.m_diskType = SectorType.stAtari))
            m.m_mfmBuffer numBytes dm).1 = true ∧
          awaitWrite br cylinder
            (br.GetTickCount64 (br.mfmWrite cylinder upperSurface
              (decide (m.m_diskType = SectorType.stIBM ∨ m.m_diskType = SectorType.stAtari))
              m.m_mfmBuffer numBytes dm).2).1 F m
            (br.GetTickCount64 (br.mfmWrite cylinder upperSurface
              (decide (m.m_diskType = SectorType.stIBM ∨ m.m_diskType = SectorType.stAtari))
              m.m_mfmBuffer numBytes dm).2).2 = some (true, sw, dw) ∧
          verifyRead br cd F track rm F sw dw = some (true, s1, d1) ∧
          verifyMatches (sw.m_trackCache 0 track).sectors (s1.m_trackCache 0 track).sectors =
            true) ∧
      (b = false → s1.m_tracksToFlush = self.m_tracksToFlush ∨ s1.m_tracksToFlush = []) := by
  intro n
  induction n with
  | zero => intro retries self d b s1 d1 h; simp [writeLoop] at h
  | succ n ih =>
    intro retries self d b s1 d1 h
    unfold writeLoop at h
    have hc := reseek_frame br upperSurface cylinder retries self d
    generalize reseek br upperSurface cylinder retries self d = c at h hc
    obtain ⟨r, cs, cdv⟩ := c
    dsimp only at h hc
    by_cases hdisk : br.isDiskInDrive
        (motorInUse br upperSurface cs (br.cylinderSeek cylinder upperSurface cdv)).2 = true
    · rw [if_neg (by simp [hdisk])] at h
      by_cases hw : (br.mfmWrite cylinder upperSurface
          (decide ((motorInUse br upperSurface cs
              (br.cylinderSeek cylinder upperSurface cdv)).1.m_diskType = SectorType.stIBM ∨
            (motorInUse br upperSurface cs
              (br.cylinderSeek cylinder upperSurface cdv)).1.m_diskType = SectorType.stAtari))
          (motorInUse br upperSurface cs
            (br.cylinderSeek cylinder upperSurface cdv)).1.m_mfmBuffer numBytes
          (motorInUse br upperSurface cs (br.cylinderSeek cylinder upperSurface cdv)).2).1 = true
      · rw [if_pos hw] at h
        generalize hm : motorInUse br upperSurface cs
          (br.cylinderSeek cylinder upperSurface cdv) = m at h hw hdisk
        have hmf : m.1.m_blockWriting = cs.m_blockWriting ∧
            m.1.m_tracksToFlush = cs.m_tracksToFlush := by
          rw [← hm]
          exact ⟨rfl, rfl⟩
        cases ha : awaitWrite br cylinder
            (br.GetTickCount64 (br.mfmWrite cylinder upperSurface
              (decide (m.1.m_diskType = SectorType.stIBM ∨ m.1.m_diskType = SectorType.stAtari))
              m.1.m_mfmBuffer numBytes m.2).2).1 F m.1
            (br.GetTickCount64 (br.mfmWrite cylinder upperSurface
              (decide (m.1.m_diskType = SectorType.stIBM ∨ m.1.m_diskType = SectorType.stAtari))
              m.1.m_mfmBuffer numBytes m.2).2).2 with
        | none => rw [ha] at h; cases h
        | some ra =>
          obtain ⟨oka, sw, dw⟩ := ra
          have haf := awaitWrite_frame br cylinder _ F _ _ oka sw dw ha
          rw [ha] at h
          cases oka with
          | false =>
            dsimp only at h
            cases h
            refine ⟨haf.1.trans (hmf.1.trans hc.1), fun hb => absurd hb (by decide),
              fun _ => Or.inl (haf.2.1.trans (hmf.2.trans hc.2))⟩
          | true =>
            dsimp only at h
            cases hv : verifyRead br cd F track (decide (r > 1)) F sw dw with
            | none => rw [hv] at h; cases h
            | some rv =>
              obtain ⟨okv, sv, dv⟩ := rv
              have hvf := verifyRead_frame br cd F track _ F sw dw okv sv dv hv
              rw [hv] at h
              cases okv with
              | false =>
                dsimp only at h
                cases h
                refine ⟨hvf.1.trans (haf.1.trans (hmf.1.trans hc.1)), fun hb => absurd hb (by decide),
                  fun _ => Or.inl (hvf.2.trans (haf.2.1.trans (hmf.2.trans hc.2)))⟩
              | true =>
                dsimp only at h
                by_cases hvm : verifyMatches (sw.m_trackCache 0 track).sectors
                    (sv.m_trackCache 0 track).sectors = true
                · rw [if_pos hvm] at h
                  cases h
                  refine ⟨hvf.1.trans (haf.1.trans (hmf.1.trans hc.1)),
                    fun _ => ⟨hvf.2.trans (haf.2.1.trans (hmf.2.trans hc.2)),
                      m.1, m.2, sw, dw, _, hw, ha, hv, hvm⟩,
                    fun hb => absurd hb (by decide)⟩
                · rw [if_neg hvm] at h
                  obtain ⟨i1, i2, i3⟩ := ih _ _ _ _ _ _ h
                  have hbw := hvf.1.trans (haf.1.trans (hmf.1.trans hc.1))
                  have hdm := hvf.2.trans (haf.2.1.trans (hmf.2.trans hc.2))
                  refine ⟨i1.trans hbw, fun hb => ?_, fun hb => ?_⟩
                  · obtain ⟨j1, j2⟩ := i2 hb
                    exact ⟨j1.trans hdm, j2⟩
                  · rcases i3 hb with j | j
                    · exact Or.inl (j.trans hdm)
                    · exact Or.inr j
      · rw [if_neg hw] at h
        cases h
        refine ⟨(removeFailedWritesFromCache_blockWriting _).trans hc.1, fun hb => absurd hb (by decide),
          fun _ => Or.inr rfl⟩
    · rw [if_pos (by simpa using hdisk)] at h
      cases h
      exact ⟨hc.1, fun hb => absurd hb (by decide), fun _ => Or.inl hc.2⟩

theorem verifyMatches_iff (backup sectors : List (Nat × DecodedSector)) :
    verifyMatches backup sectors = true ↔
      ∀ sec ∈ backup, ∃ r, mapFind sec.1 sectors = some r ∧ r.numErrors = 0 ∧
        r.data.length = sec.2.data.length ∧ r.data = sec.2.data := by
  unfold verifyMatches
  rw [List.all_eq_true]
  constructor
  · intro h sec hs
    have hx := h sec hs
    cases hf : mapFind sec.1 sectors with
    | none => rw [hf] at hx; cases hx
    | some r =>
      rw [hf] at hx
      simp only [Bool.and_eq_true, decide_eq_true_eq] at hx
      obtain ⟨⟨h1, h2⟩, h3⟩ := hx
      refine ⟨r, rfl, h1, h2, ?_⟩
      rw [List.take_of_length_le (le_refl _), List.take_of_length_le (by omega)] at h3
      exact h3
  · intro h sec hs
    obtain ⟨r, hf, h1, h2, h3⟩ := h sec hs
    rw [hf]
    simp only [Bool.and_eq_true, decide_eq_true_eq]
    exact ⟨⟨h1, h2⟩, by rw [h3]⟩

/-- What a return of the loop body for one dirty track tells: `m_blockWriting` is as on entry;
when the body reaches `trk.second = 0` the dirty map is the one on entry with this counter set to
0, and the track returned is the one the verifying read left after an accepted and completed
`mfmWrite`, matching the copy taken before that read; a return of false from inside the body
leaves the dirty map as on entry or empty. -/
theorem flushTrack_inv {δ : Type} (br : Bridge δ) (cd : Codec) (en : Encoder) (F track : Nat)
    (self : SectorCacheMFM) (d : δ) (b : Bool) (s1 : SectorCacheMFM) (d1 : δ)
    (h : flushTrack br cd en F track self d = some (b, s1, d1)) :
    s1.m_blockWriting = self.m_blockWriting ∧
    (b = true → s1.m_tracksToFlush = mapSet track 0 self.m_tracksToFlush ∧
      ∃ (cylinder numBytes : Nat) (upperSurface rm : Bool) (m : SectorCacheMFM) (dm : δ)
          (sw : SectorCacheMFM) (dw : δ) (sv : SectorCacheMFM),
        (br.mfmWrite cylinder upperSurface
          (decide (m.m_diskType = SectorType.stIBM ∨ m.m_diskType = SectorType.stAtari))
          m.m_mfmBuffer numBytes dm).1 = true ∧
        awaitWrite br cylinder
          (br.GetTickCount64 (br.mfmWrite cylinder upperSurface
            (decide (m.m_diskType = SectorType.stIBM ∨ m.m_diskType = SectorType.stAtari))
            m.m_mfmBuffer numBytes dm).2).1 F m
          (br.GetTickCount64 (br.mfmWrite cylinder upperSurface
            (decide (m.m_diskType = SectorType.stIBM ∨ m.m_diskType = SectorType.stAtari))
            m.m_mfmBuffer numBytes dm).2).2 = some (true, sw, dw) ∧
        verifyRead br cd F track rm F sw dw = some (true, sv, d1) ∧
        s1.m_trackCache = sv.m_trackCache ∧
        ∀ sec ∈ (sw.m_trackCache 0 track).sectors,
          ∃ r, mapFind sec.1 (s1.m_trackCache 0 track).sectors = some r ∧ r.numErrors = 0 ∧
            r.data.length = sec.2.data.length ∧ r.data = sec.2.data) ∧
    (b = false → s1.m_tracksToFlush = self.m_tracksToFlush ∨ s1.m_tracksToFlush = []) := by
  unfold flushTrack at h
  dsimp only at h
  cases hwm : waitForMotor br F (decide (track % self.m_numHeads 0 ≠ 0))
      (motorInUse br (decide (track % self.m_numHeads 0 ≠ 0)) self d).1
      (br.cylinderSeek (track / self.m_numHeads 0) (decide (track % self.m_numHeads 0 ≠ 0))
        (motorInUse br (decide (track % self.m_numHeads 0 ≠ 0)) self d).2) with
  | none => rw [hwm] at h; cases h
  | some rw1 =>
    obtain ⟨okm, s2, d2⟩ := rw1
    have hmf := waitForMotor_frame br F _ _ _ okm s2 d2 hwm
    have hmf1 : s2.m_blockWriting = self.m_blockWriting := hmf.1
    have hmf2 : s2.m_tracksToFlush = self.m_tracksToFlush := hmf.2
    rw [hwm] at h
    cases okm with
    | false =>
      dsimp only at h
      cases h
      exact ⟨hmf1, fun hb => absurd hb (by decide), fun _ => Or.inr rfl⟩
    | true =>
      dsimp only at h
      cases hp : prepareTrack br cd F track s2
          (br.cylinderSeek (track / self.m_numHeads 0) (decide (track % self.m_numHeads 0 ≠ 0))
            d2) with
      | none => rw [hp] at h; cases h
      | some p =>
        obtain ⟨s3, d3⟩ := p
        have hpf := prepareTrack_frame br cd F track s2 _ s3 d3 hp
        rw [hp] at h
        dsimp only at h
        cases hwl : writeLoop br cd F track (decide (track % self.m_numHeads 0 ≠ 0))
            (track / self.m_numHeads 0) (encodeTrack en (br.isHD d3) track s3).1 F 0
            (encodeTrack en (br.isHD d3) track s3).2 d3 with
        | none => rw [hwl] at h; cases h
        | some rl =>
          obtain ⟨okl, s4, d4⟩ := rl
          obtain ⟨i1, i2, i3⟩ := writeLoop_inv br cd F track _ _ _ F 0 _ d3 okl s4 d4 hwl
          have he1 : (encodeTrack en (br.isHD d3) track s3).2.m_blockWriting =
              s3.m_blockWriting := rfl
          have he2 : (encodeTrack en (br.isHD d3) track s3).2.m_tracksToFlush =
              s3.m_tracksToFlush := rfl
          have hbw : s4.m_blockWriting = self.m_blockWriting :=
            i1.trans (he1.trans (hpf.1.trans hmf1))
          rw [hwl] at h
          cases okl with
          | false =>
            dsimp only at h
            cases h
            refine ⟨hbw, fun hb => absurd hb (by decide), fun _ => ?_⟩
            rcases i3 rfl with j | j
            · exact Or.inl (j.trans (he2.trans (hpf.2.trans hmf2)))
            · exact Or.inr j
          | true =>
            dsimp only at h
            cases h
            obtain ⟨j1, m, dm, sw, dw, rm, k1, k2, k3, k4⟩ := i2 rfl
            refine ⟨hbw, fun _ => ⟨?_, _, _, _, rm, m, dm, sw, dw, s4, k1, k2, k3, rfl,
              (verifyMatches_iff _ _).1 k4⟩, fun hb => absurd hb (by decide)⟩
            show mapSet track 0 s4.m_tracksToFlush = mapSet track 0 self.m_tracksToFlush
            rw [j1.trans (he2.trans (hpf.2.trans hmf2))]

theorem flushTracks_blockWriting {δ : Type} (br : Bridge δ) (cd : Codec) (en : Encoder)
    (F : Nat) :
    ∀ (l : List (Nat × Nat)) (self : SectorCacheMFM) (d : δ) (b : Bool) (s1 : SectorCacheMFM)
      (d1 : δ), flushTracks br cd en F l self d = some (b, s1, d1) →
      s1.m_blockWriting = self.m_blockWriting := by
  intro l
  induction l with
  | nil =>
    intro self d b s1 d1 h
    simp only [flushTracks, Option.some.injEq, Prod.mk.injEq] at h
    rw [← h.2.1]
  | cons e rest ih =>
    intro self d b s1 d1 h
    unfold flushTracks at h
    cases hft : flushTrack br cd en F e.1 self d with
    | none => rw [hft] at h; cases h
    | some r =>
      obtain ⟨ok, s2, d2⟩ := r
      have hf := (flushTrack_inv br cd en F e.1 self d ok s2 d2 hft).1
      rw [hft] at h
      cases ok with
      | false =>
        dsimp only at h
        cases h
        exact hf
      | true =>
        dsimp only at h
        exact (ih _ _ _ _ _ h).trans hf

/-- A loop over the dirty tracks that runs to its end passed through the body of each of them:
for every entry the loop reached it with success, its body returned through `trk.second = 0`,
and the rest of the loop went on from there. -/
theorem flushTracks_split {δ : Type} (br : Bridge δ) (cd : Codec) (en : Encoder) (F : Nat) :
    ∀ (l1 : List (Nat × Nat)) (e : Nat × Nat) (l2 : List (Nat × Nat)) (self : SectorCacheMFM)
      (d : δ) (s1 : SectorCacheMFM) (d1 : δ),
      flushTracks br cd en F (l1 ++ e :: l2) self d = some (true, s1, d1) →
      ∃ sa da sb db, flushTracks br cd en F l1 self d = some (true, sa, da) ∧
        flushTrack br cd en F e.1 sa da = some (true, sb, db) ∧
        flushTracks br cd en F l2 sb db = some (true, s1, d1) := by
  intro l1
  induction l1 with
  | nil =>
    intro e l2 self d s1 d1 h
    rw [List.nil_append] at h
    unfold flushTracks at h
    cases hft : flushTrack br cd en F e.1 self d with
    | none => rw [hft] at h; cases h
    | some r =>
      obtain ⟨ok, s2, d2⟩ := r
      rw [hft] at h
      cases ok with
      | false =>
        dsimp only at h
        cases h
      | true =>
        dsimp only at h
        exact ⟨self, d, s2, d2, rfl, hft, h⟩
  | cons x rest ih =>
    intro e l2 self d s1 d1 h
    rw [List.cons_append] at h
    unfold flushTracks at h
    cases hft : flushTrack br cd en F x.1 self d with
    | none => rw [hft] at h; cases h
    | some r =>
      obtain ⟨ok, s2, d2⟩ := r
      rw [hft] at h
      cases ok with
      | false =>
        dsimp only at h
        cases h
      | true =>
        dsimp only at h
        obtain ⟨sa, da, sb, db, h1, h2, h3⟩ := ih e l2 s2 d2 s1 d1 h
        refine ⟨sa, da, sb, db, ?_, h2, h3⟩
        unfold flushTracks
        rw [hft]
        exact h1

theorem flushPendingWrites_true {δ : Type} (br : Bridge δ) (cd : Codec) (en : Encoder)
    (F : Nat) (self : SectorCacheMFM) (d : δ) (s1 : SectorCacheMFM) (d1 : δ)
    (h : flushPendingWrites br cd en F self d = some (true, s1, d1)) :
    ∃ se, flushTracks br cd en F self.m_tracksToFlush self d = some (true, se, d1) ∧
      s1 = removeFailedWritesFromCache se := by
  unfold flushPendingWrites at h
  by_cases hb : self.m_blockWriting = true
  · rw [if_pos hb] at h
    cases h
  · rw [if_neg hb] at h
    cases hft : flushTracks br cd en F self.m_tracksToFlush self d with
    | none => rw [hft] at h; cases h
    | some r =>
      obtain ⟨ok, s2, d2⟩ := r
      rw [hft] at h
      cases ok with
      | false =>
        dsimp only at h
        cases h
      | true =>
        dsimp only at h
        cases h
        exact ⟨s2, rfl, rfl⟩

theorem flushPendingWrites_blockWriting {δ : Type} (br : Bridge δ) (cd : Codec) (en : Encoder)
    (F : Nat) (self : SectorCacheMFM) (d : δ) (b : Bool) (s1 : SectorCacheMFM) (d1 : δ)
    (h : flushPendingWrites br cd en F self d = some (b, s1, d1)) :
    s1.m_blockWriting = self.m_blockWriting := by
  unfold flushPendingWrites at h
  by_cases hb : self.m_blockWriting = true
  · rw [if_pos hb] at h
    cases h
    rfl
  · rw [if_neg hb] at h
    cases hft : flushTracks br cd en F self.m_tracksToFlush self d with
    | none => rw [hft] at h; cases h
    | some r =>
      obtain ⟨ok, s2, d2⟩ := r
      have hf := flushTracks_blockWriting br cd en F _ self d ok s2 d2 hft
      rw [hft] at h
      cases ok with
      | false =>
        dsimp only at h
        cases h
        exact hf
      | true =>
        dsimp only at h
        cases h
        exact (removeFailedWritesFromCache_blockWriting _).trans hf

/-! ## The disk type and the sector count through a flush

Once the disk type is known, reading, decoding and writing a track leave `m_diskType` and
`m_sectorsPerTrack` alone. -/

theorem decodeFlux_geom (cd : Codec) (hd : Bool) (fs track bits : Nat) (self : SectorCacheMFM)
    (hu : self.m_diskType ≠ SectorType.stUnknown) :
    (decodeFlux cd hd fs track bits self).m_diskType = self.m_diskType ∧
      (decodeFlux cd hd fs track bits self).m_sectorsPerTrack = self.m_sectorsPerTrack := by
  simp only [decodeFlux, hu, decide_False, Bool.false_eq_true, if_false]
  split_ifs <;> exact ⟨rfl, rfl⟩

theorem readFlux_geom {δ : Type} (br : Bridge δ) (fs track : Nat) (retryMode : Bool)
    (start : Nat) : ∀ (fuel : Nat) (self : SectorCacheMFM) (d : δ) (o : Option Nat)
      (s : SectorCacheMFM) (d1 : δ),
      readFlux br fs track retryMode start fuel self d = some (o, s, d1) →
      s.m_diskType = self.m_diskType ∧ s.m_sectorsPerTrack = self.m_sectorsPerTrack := by
  intro fuel
  induction fuel with
  | zero => intro self d o s d1 h; simp [readFlux] at h
  | succ n ih =>
    intro self d o s d1 h
    unfold readFlux at h
    dsimp only at h
    by_cases hp : (pollFlux br fs track retryMode self d).1 = 0
    · rw [if_pos hp] at h
      by_cases ht : (br.GetTickCount64 (pollFlux br fs track retryMode self d).2.2).1 - start >
          TRACK_READ_TIMEOUT
      · rw [if_pos ht] at h
        cases h
        exact ⟨rfl, rfl⟩
      · rw [if_neg ht] at h
        have hr := ih _ _ _ _ _ h
        exact hr
    · rw [if_neg hp] at h
      cases h
      exact ⟨rfl, rfl⟩

theorem doTrackReading_geom {δ : Type} (br : Bridge δ) (cd : Codec) (fuel fs track : Nat)
    (retryMode : Bool) (self : SectorCacheMFM) (d : δ) (b : Bool) (s : SectorCacheMFM) (d1 : δ)
    (hu : self.m_diskType ≠ SectorType.stUnknown)
    (h : doTrackReading br cd fuel fs track retryMode self d = some (b, s, d1)) :
    s.m_diskType = self.m_diskType ∧ s.m_sectorsPerTrack = self.m_sectorsPerTrack := by
  unfold doTrackReading at h
  dsimp only at h
  cases hr : readFlux br fs track retryMode (br.GetTickCount64 d).1 fuel self
      (br.GetTickCount64 d).2 with
  | none => rw [hr] at h; cases h
  | some r =>
    obtain ⟨o, s1, d2⟩ := r
    have hf := readFlux_geom br fs track retryMode _ fuel self _ o s1 d2 hr
    rw [hr] at h
    cases o with
    | none =>
      cases h
      exact hf
    | some bits =>
      cases h
      have hd := decodeFlux_geom cd (br.isHD d1) fs track bits s1 (by rw [hf.1]; exact hu)
      exact ⟨hd.1.trans hf.1, hd.2.trans hf.2⟩

theorem prepareTrack_geom {δ : Type} (br : Bridge δ) (cd : Codec) (F track : Nat)
    (self : SectorCacheMFM) (d : δ) (s : SectorCacheMFM) (d1 : δ)
    (hu : self.m_diskType ≠ SectorType.stUnknown)
    (h : prepareTrack br cd F track self d = some (s, d1)) :
    s.m_diskType = self.m_diskType ∧ s.m_sectorsPerTrack = self.m_sectorsPerTrack := by
  unfold prepareTrack at h
  dsimp only at h
  by_cases hf : fillData self track = true
  · rw [if_pos hf] at h
    by_cases hw : self.m_writeOnly = true
    · rw [if_pos hw] at h
      cases h
      exact ⟨rfl, rfl⟩
    · rw [if_neg hw] at h
      cases hr : doTrackReading br cd F 0 track false self d with
      | none => rw [hr] at h; cases h
      | some r =>
        obtain ⟨b, s1, d2⟩ := r
        have hfr := doTrackReading_geom br cd F 0 track false self d b s1 d2 hu hr
        rw [hr] at h
        cases h
        exact hfr
  · rw [if_neg hf] at h
    cases h
    exact ⟨rfl, rfl⟩

theorem awaitWrite_geom {δ : Type} (br : Bridge δ) (cylinder start : Nat) :
    ∀ (n : Nat) (self : SectorCacheMFM) (d : δ) (b : Bool) (s : SectorCacheMFM) (d1 : δ),
      awaitWrite br cylinder start n self d = some (b, s, d1) →
      s.m_diskType = self.m_diskType ∧ s.m_sectorsPerTrack = self.m_sectorsPerTrack ∧
        s.m_trackCache = self.m_trackCache := by
  intro n
  induction n with
  | zero => intro self d b s d1 h; simp [awaitWrite] at h
  | succ n ih =>
    intro self d b s d1 h
    unfold awaitWrite at h
    dsimp only at h
    by_cases hc : br.writeCompleted d = true
    · rw [if_pos hc] at h
      cases h
      exact ⟨rfl, rfl, rfl⟩
    · rw [if_neg hc] at h
      by_cases ht : (br.GetTickCount64 d).1 - start > DISK_WRITE_TIMEOUT
      · rw [if_pos ht] at h
        cases h
        exact ⟨rfl, rfl, rfl⟩
      · rw [if_neg ht] at h
        exact ih _ _ _ _ _ h

theorem reseek_geom {δ : Type} (br : Bridge δ) (upperSurface : Bool) (cylinder retries : Nat)
    (self : SectorCacheMFM) (d : δ) :
    (reseek br upperSurface cylinder retries self d).2.1.m_diskType = self.m_diskType ∧
      (reseek br upperSurface cylinder retries self d).2.1.m_sectorsPerTrack =
        self.m_sectorsPerTrack := by
  unfold reseek
  split_ifs <;> exact ⟨rfl, rfl⟩

theorem encodeTrack_geom (en : Encoder) (hd : Bool) (track : Nat) (self : SectorCacheMFM) :
    (encodeTrack en hd track self).2.m_diskType = self.m_diskType ∧
      (encodeTrack en hd track self).2.m_sectorsPerTrack = self.m_sectorsPerTrack :=
  ⟨rfl, rfl⟩

end SectorCacheMFM

end DiskFlashback

namespace DiskFlashback

namespace SectorCacheMFM

/-! ## `flushPendingWrites`: verification, retries, time-out and clean-up -/

/-- C11: `flushPendingWrites` returns true only if, for every entry `e` of the dirty map, the
loop reached the entry with success and its body ran to `trk.second = 0` (the counter of the track
set to 0), and that happened right after an `mfmWrite` of the track that was accepted and
completed, with the plane-0 track left by the verifying `doTrackReading` holding every sector of
the copy taken just before the verify: present, `numErrors == 0`, the same length and the same
bytes. -/
theorem flushPendingWrites_verified {δ : Type} (br : Bridge δ) (cd : Codec) (en : Encoder)
    (F : Nat) (self : SectorCacheMFM) (d : δ) (s1 : SectorCacheMFM) (d1 : δ)
    (h : flushPendingWrites br cd en F self d = some (true, s1, d1))
    (l1 : List (Nat × Nat)) (e : Nat × Nat) (l2 : List (Nat × Nat))
    (hl : self.m_tracksToFlush = l1 ++ e :: l2) :
    ∃ sa da sb db, flushTracks br cd en F l1 self d = some (true, sa, da) ∧
      flushTrack br cd en F e.1 sa da = some (true, sb, db) ∧
      sb.m_tracksToFlush = mapSet e.1 0 sa.m_tracksToFlush ∧
      ∃ (cylinder numBytes : Nat) (upperSurface rm : Bool) (m : SectorCacheMFM) (dm : δ)
          (sw : SectorCacheMFM) (dw : δ) (sv : SectorCacheMFM),
        (br.mfmWrite cylinder upperSurface
          (decide (m.m_diskType = SectorType.stIBM ∨ m.m_diskType = SectorType.stAtari))
          m.m_mfmBuffer numBytes dm).1 = true ∧
        awaitWrite br cylinder
          (br.GetTickCount64 (br.mfmWrite cylinder upperSurface
            (decide (m.m_diskType = SectorType.stIBM ∨ m.m_diskType = SectorType.stAtari))
            m.m_mfmBuffer numBytes dm).2).1 F m
          (br.GetTickCount64 (br.mfmWrite cylinder upperSurface
            (decide (m.m_diskType = SectorType.stIBM ∨ m.m_diskType = SectorType.stAtari))
            m.m_mfmBuffer numBytes dm).2).2 = some (true, sw, dw) ∧
        verifyRead br cd F e.1 rm F sw dw = some (true, sv, db) ∧
        sb.m_trackCache = sv.m_trackCache ∧
        ∀ sec ∈ (sw.m_trackCache 0 e.1).sectors,
          ∃ r, mapFind sec.1 (sb.m_trackCache 0 e.1).sectors = some r ∧ r.numErrors = 0 ∧
            r.data.length = sec.2.data.length ∧ r.data = sec.2.data := by
  obtain ⟨se, hse, _⟩ := flushPendingWrites_true br cd en F self d s1 d1 h
  rw [hl] at hse
  obtain ⟨sa, da, sb, db, h1, h2, _⟩ := flushTracks_split br cd en F l1 e l2 self d se d1 hse
  obtain ⟨_, i2, _⟩ := flushTrack_inv br cd en F e.1 sa da true sb db h2
  obtain ⟨j1, j2⟩ := i2 rfl
  exact ⟨sa, da, sb, db, h1, h2, j1, j2⟩

set_option maxRecDepth 100000 in
/-- C11 on the engine `ibmWritten` (track 0 dirty) with a drive that completes every write and a
disk that reads back what was written: the flush returns true, and the body for track 0 ran to
`trk.second = 0` after a verified write. -/
theorem flushPendingWrites_verified_witness :
    ∃ sa da sb db, flushTracks (Bridge.steady false) Codec.echo Encoder.plain 10 [] ibmWritten
        0 = some (true, sa, da) ∧
      flushTrack (Bridge.steady false) Codec.echo Encoder.plain 10 0 sa da =
        some (true, sb, db) ∧
      sb.m_tracksToFlush = mapSet 0 0 sa.m_tracksToFlush := by
  have h0 : (flushPendingWrites (Bridge.steady false) Codec.echo Encoder.plain 10 ibmWritten
      0).map (fun r => r.1) = some true := rfl
  cases hr : flushPendingWrites (Bridge.steady false) Codec.echo Encoder.plain 10 ibmWritten
      0 with
  | none => rw [hr] at h0; cases h0
  | some r =>
    obtain ⟨b, s1, d1⟩ := r
    rw [hr] at h0
    cases h0
    obtain ⟨sa, da, sb, db, h1, h2, h3, _⟩ :=
      flushPendingWrites_verified (Bridge.steady false) Codec.echo Encoder.plain 10 ibmWritten
        0 s1 d1 hr [] (0, 1) [] rfl
    exact ⟨sa, da, sb, db, h1, h2, h3⟩

theorem verifyMatches_noisy (backup : List (Nat × DecodedSector)) (h : backup ≠ []) :
    verifyMatches backup noisyTrack.sectors = false := by
  cases backup with
  | nil => exact absurd rfl h
  | cons sec rest =>
    unfold verifyMatches
    rw [List.all_cons]
    have hx : (match mapFind sec.1 noisyTrack.sectors with
        | none => false
        | some s =>
          decide (s.numErrors = 0) && decide (s.data.length = sec.2.data.length) &&
            decide (s.data.take s.data.length = sec.2.data.take s.data.length)) = false := by
      by_cases h0 : 0 = sec.1
      · have hf : mapFind sec.1 noisyTrack.sectors = some ⟨List.replicate 512 0, 1⟩ := by
          simp only [noisyTrack, mapFind, if_pos h0]
        rw [hf]
        rfl
      · have hf : mapFind sec.1 noisyTrack.sectors = none := by
          simp only [noisyTrack, mapFind, if_neg h0]
        rw [hf]
    rw [hx]
    rfl

theorem decodeFlux_IBM (cd : Codec) (hd : Bool) (fs track bits : Nat) (s : SectorCacheMFM)
    (hs : s.m_diskType = SectorType.stIBM) :
    decodeFlux cd hd fs track bits s = storeIBM cd hd bits track 0 0 track false s := by
  simp [decodeFlux, hs]

theorem doTrackReading_noisy (k : Nat) (retryMode : Bool) (s : SectorCacheMFM) (d : Nat)
    (hs : s.m_diskType = SectorType.stIBM) :
    ∃ s1 d1, doTrackReading (Bridge.steady false) Codec.noisy (k + 1) 0 0 retryMode s d =
        some (true, s1, d1) ∧
      s1.m_diskType = SectorType.stIBM ∧ (s1.m_trackCache 0 0).sectors = noisyTrack.sectors := by
  have hp : (pollFlux (Bridge.steady false) 0 0 retryMode s (d + 1)).2.1.m_diskType =
      SectorType.stIBM := hs
  refine ⟨decodeFlux Codec.noisy false 0 0 100000
      (pollFlux (Bridge.steady false) 0 0 retryMode s (d + 1)).2.1,
    (pollFlux (Bridge.steady false) 0 0 retryMode s (d + 1)).2.2, rfl, ?_, ?_⟩
  · rw [decodeFlux_IBM _ _ _ _ _ _ hp]
    exact hs
  · rw [decodeFlux_IBM _ _ _ _ _ _ hp]
    simp [storeIBM, setAt, Codec.noisy]

theorem awaitWrite_steady (cylinder start k : Nat) (s : SectorCacheMFM) (d : Nat) :
    awaitWrite (Bridge.steady false) cylinder start (k + 1) s d = some (true, s, d) := rfl

theorem verifyRead_noisy (retryMode : Bool) (k n : Nat) (s : SectorCacheMFM) (d : Nat)
    (hs : s.m_diskType = SectorType.stIBM) :
    ∃ s1 d1, verifyRead (Bridge.steady false) Codec.noisy (k + 1) 0 retryMode (n + 1) s d =
        some (true, s1, d1) ∧
      s1.m_diskType = SectorType.stIBM ∧ (s1.m_trackCache 0 0).sectors = noisyTrack.sectors := by
  obtain ⟨s1, d1, h, h1, h2⟩ := doTrackReading_noisy k retryMode s d hs
  refine ⟨s1, d1, ?_, h1, h2⟩
  unfold verifyRead
  rw [h]

theorem reseek_cache {δ : Type} (br : Bridge δ) (upperSurface : Bool) (cylinder retries : Nat)
    (self : SectorCacheMFM) (d : δ) :
    (reseek br upperSurface cylinder retries self d).2.1.m_diskType = self.m_diskType ∧
      (reseek br upperSurface cylinder retries self d).2.1.m_trackCache = self.m_trackCache := by
  unfold reseek
  split_ifs <;> exact ⟨rfl, rfl⟩

/-- On a drive that accepts and completes every write over a surface that always reads back
`noisyTrack`, the write retry loop for track 0 of a PC disk never returns, however many write
attempts it is allowed: every verify mismatches, and `retries` never passes `MAX_RETRIES / 2`. -/
theorem writeLoop_noisy (F : Nat) (upperSurface : Bool) (cylinder numBytes : Nat) :
    ∀ (n retries : Nat) (s : SectorCacheMFM) (d : Nat),
      s.m_diskType = SectorType.stIBM → (s.m_trackCache 0 0).sectors ≠ [] →
      writeLoop (Bridge.steady false) Codec.noisy F 0 upperSurface cylinder numBytes n retries
        s d = none := by
  intro n
  induction n with
  | zero => intro retries s d _ _; rfl
  | succ n ih =>
    intro retries s d hs hne
    unfold writeLoop
    have hc := reseek_cache (Bridge.steady false) upperSurface cylinder retries s d
    generalize reseek (Bridge.steady false) upperSurface cylinder retries s d = c at hc
    obtain ⟨r, cs, cdv⟩ := c
    dsimp only at hc ⊢
    have hdisk : ∀ x, (Bridge.steady false).isDiskInDrive x = true := fun _ => rfl
    have hw : ∀ a b c e f g, ((Bridge.steady false).mfmWrite a b c e f g).1 = true :=
      fun _ _ _ _ _ _ => rfl
    rw [if_neg (by rw [hdisk]; simp), if_pos (hw _ _ _ _ _ _)]
    cases F with
    | zero => rfl
    | succ k =>
      rw [awaitWrite_steady]
      dsimp only
      obtain ⟨s1, d1, hv, h1, h2⟩ := verifyRead_noisy (decide (r > 1)) k k
        (motorInUse (Bridge.steady false) upperSurface cs
          ((Bridge.steady false).cylinderSeek cylinder upperSurface cdv)).1
        ((Bridge.steady false).GetTickCount64
          ((Bridge.steady false).mfmWrite cylinder upperSurface
            (decide ((motorInUse (Bridge.steady false) upperSurface cs
                ((Bridge.steady false).cylinderSeek cylinder upperSurface cdv)).1.m_diskType =
                SectorType.stIBM ∨
              (motorInUse (Bridge.steady false) upperSurface cs
                ((Bridge.steady false).cylinderSeek cylinder upperSurface cdv)).1.m_diskType =
                SectorType.stAtari))
            (motorInUse (Bridge.steady false) upperSurface cs
              ((Bridge.steady false).cylinderSeek cylinder upperSurface cdv)).1.m_mfmBuffer
            numBytes
            (motorInUse (Bridge.steady false) upperSurface cs
              ((Bridge.steady false).cylinderSeek cylinder upperSurface cdv)).2).2).2
        (hc.1.trans hs)
      rw [hv]
      dsimp only
      have hb : ((motorInUse (Bridge.steady false) upperSurface cs
          ((Bridge.steady false).cylinderSeek cylinder upperSurface cdv)).1.m_trackCache 0
            0).sectors ≠ [] := by
        show (cs.m_trackCache 0 0).sectors ≠ []
        rw [hc.2]
        exact hne
      rw [h2, verifyMatches_noisy _ hb]
      simp only [Bool.false_eq_true, if_false]
      exact ih _ _ _ h1 (by rw [h2]; exact List.cons_ne_nil _ _)

theorem waitForMotor_ready {δ : Type} (br : Bridge δ) (hready : ∀ x, br.motorReady x = true)
    (k : Nat) (upperSide : Bool) (s : SectorCacheMFM) (d : δ) :
    waitForMotor br (k + 1) upperSide s d =
      some (true, (motorInUse br upperSide s d).1, (motorInUse br upperSide s d).2) := by
  unfold waitForMotor
  dsimp only
  unfold waitLoop
  rw [if_pos (hready _)]

theorem truncate_fits (spt : Nat) (n : Nat) (m : List (Nat × DecodedSector))
    (h : m.length ≤ spt) : truncate spt n m = m := by
  cases n with
  | zero => rfl
  | succ n =>
    unfold truncate
    rw [if_neg (by omega)]

theorem prepareTrack_complete {δ : Type} (br : Bridge δ) (cd : Codec) (F track : Nat)
    (s : SectorCacheMFM) (d : δ) (hf : fillData s track = false)
    (hlen : (s.m_trackCache 0 track).sectors.length ≤ s.m_sectorsPerTrack 0) :
    prepareTrack br cd F track s d =
      some (setSectors s 0 track (s.m_trackCache 0 track).sectors, d) := by
  unfold prepareTrack
  dsimp only
  rw [if_neg (by simp [hf]), truncate_fits _ _ _ hlen]

/-- On a drive that accepts and completes every write over a surface that always reads back
`noisyTrack`, a flush of a PC disk whose first dirty track is track 0, complete and error-free in
the cache, has no result for any number `F` of iterations. -/
theorem flushPendingWrites_noisy_none (F d : Nat) (s : SectorCacheMFM) (c : Nat)
    (rest : List (Nat × Nat)) (hb : s.m_blockWriting = false)
    (hdirty : s.m_tracksToFlush = (0, c) :: rest) (hs : s.m_diskType = SectorType.stIBM)
    (hf : fillData s 0 = false) (hne : (s.m_trackCache 0 0).sectors ≠ [])
    (hlen : (s.m_trackCache 0 0).sectors.length ≤ s.m_sectorsPerTrack 0) :
    flushPendingWrites (Bridge.steady false) Codec.noisy Encoder.plain F s d = none := by
  have key : flushTrack (Bridge.steady false) Codec.noisy Encoder.plain F 0 s d = none := by
    cases F with
    | zero => rfl
    | succ k =>
      unfold flushTrack
      dsimp only
      rw [waitForMotor_ready (Bridge.steady false) (fun _ => rfl)]
      dsimp only
      rw [prepareTrack_complete _ _ _ _ _ _ (by exact hf) (by exact hlen)]
      dsimp only
      rw [writeLoop_noisy (k + 1) _ _ _ (k + 1) 0 _ _ (by exact hs)
        (by refine ne_of_eq_of_ne (setSectors_same _ 0 0 _) ?_; exact hne)]
  unfold flushPendingWrites
  rw [if_neg (by simp [hb]), hdirty]
  unfold flushTracks
  rw [key]

/-- C12: on a drive that accepts and completes every write, with the disk in place, over a
surface whose read-back always mismatches (`Codec.noisy`), a flush of a PC disk whose first dirty
track is track 0, complete and error-free in the cache, never returns: no number `F` of write
attempts (and of iterations of every other loop) is enough, so it does not return false after
`MAX_RETRIES` attempts. -/
theorem flushPendingWrites_mismatch_diverges (F d : Nat) (s : SectorCacheMFM) (c : Nat)
    (rest : List (Nat × Nat)) (hb : s.m_blockWriting = false)
    (hdirty : s.m_tracksToFlush = (0, c) :: rest) (hs : s.m_diskType = SectorType.stIBM)
    (hf : fillData s 0 = false) (hne : (s.m_trackCache 0 0).sectors ≠ [])
    (hlen : (s.m_trackCache 0 0).sectors.length ≤ s.m_sectorsPerTrack 0) :
    flushPendingWrites (Bridge.steady false) Codec.noisy Encoder.plain F s d = none :=
  flushPendingWrites_noisy_none F d s c rest hb hdirty hs hf hne hlen

/-- C12 on the engine `ibmWritten` (track 0 of a PC disk dirty, nine error-free sectors cached):
with 1000 iterations allowed to every loop the flush has not returned. -/
theorem flushPendingWrites_mismatch_diverges_witness :
    flushPendingWrites (Bridge.steady false) Codec.noisy Encoder.plain 1000 ibmWritten 0 =
      none :=
  flushPendingWrites_mismatch_diverges 1000 0 ibmWritten 1 [] rfl rfl rfl rfl
    (List.cons_ne_nil _ _) (by decide)

theorem awaitWrite_timeout {δ : Type} (br : Bridge δ) (cylinder start : Nat)
    (hstall : ∀ x, br.writeCompleted x = false)
    (hclock : ∀ x, (br.GetTickCount64 x).1 < (br.GetTickCount64 (br.GetTickCount64 x).2).1) :
    ∀ (n : Nat) (s : SectorCacheMFM) (x : δ),
      start + DISK_WRITE_TIMEOUT < (br.GetTickCount64 x).1 + n →
      ∃ s1 d1, awaitWrite br cylinder start (n + 1) s x = some (false, s1, d1) := by
  intro n
  induction n with
  | zero =>
    intro s x h
    unfold awaitWrite
    dsimp only
    rw [if_neg (by simp [hstall]), if_pos (by omega)]
    exact ⟨_, _, rfl⟩
  | succ n ih =>
    intro s x h
    unfold awaitWrite
    dsimp only
    rw [if_neg (by simp [hstall])]
    by_cases ht : (br.GetTickCount64 x).1 - start > DISK_WRITE_TIMEOUT
    · rw [if_pos ht]
      exact ⟨_, _, rfl⟩
    · rw [if_neg ht]
      have hx := hclock x
      exact ih s _ (by omega)

theorem doTrackReading_some {δ : Type} (br : Bridge δ) (cd : Codec)
    (hread : ∀ a b c e x, (br.mfmRead a b c e x).1.1 ≠ 0) (k fs track : Nat) (retryMode : Bool)
    (s : SectorCacheMFM) (d : δ) :
    ∃ r, doTrackReading br cd (k + 1) fs track retryMode s d = some r := by
  have hp : ∀ s x, (pollFlux br fs track retryMode s x).1 ≠ 0 := by
    intro s x
    unfold pollFlux
    dsimp only
    by_cases h1 : fs = 1
    · rw [if_pos h1, if_neg (hread _ _ _ _ _)]
      exact hread _ _ _ _ _
    · rw [if_neg h1, if_neg (hread _ _ _ _ _)]
      exact hread _ _ _ _ _
  unfold doTrackReading
  dsimp only
  unfold readFlux
  dsimp only
  rw [if_neg (hp _ _)]
  exact ⟨_, rfl⟩

theorem prepareTrack_some {δ : Type} (br : Bridge δ) (cd : Codec)
    (hread : ∀ a b c e x, (br.mfmRead a b c e x).1.1 ≠ 0) (k track : Nat)
    (s : SectorCacheMFM) (d : δ) :
    ∃ p, prepareTrack br cd (k + 1) track s d = some p := by
  unfold prepareTrack
  dsimp only
  by_cases hf : fillData s track = true
  · rw [if_pos hf]
    by_cases hw : s.m_writeOnly = true
    · rw [if_pos hw]
      exact ⟨_, rfl⟩
    · rw [if_neg hw]
      obtain ⟨r, hr⟩ := doTrackReading_some br cd hread k 0 track false s d
      rw [hr]
      exact ⟨_, rfl⟩
  · rw [if_neg hf]
    exact ⟨_, rfl⟩

theorem writeLoop_timeout {δ : Type} (br : Bridge δ) (cd : Codec) (track : Nat)
    (upperSurface : Bool) (cylinder numBytes : Nat)
    (hdisk : ∀ x, br.isDiskInDrive x = true)
    (hwrite : ∀ a b c e f x, (br.mfmWrite a b c e f x).1 = true)
    (hstall : ∀ x, br.writeCompleted x = false)
    (hclock : ∀ x, (br.GetTickCount64 x).1 < (br.GetTickCount64 (br.GetTickCount64 x).2).1)
    (k n retries : Nat) (hk : DISK_WRITE_TIMEOUT ≤ k) (s : SectorCacheMFM) (d : δ) :
    ∃ s1 d1, writeLoop br cd (k + 1) track upperSurface cylinder numBytes (n + 1) retries s d =
        some (false, s1, d1) ∧ s1.m_tracksToFlush = s.m_tracksToFlush ∧
      s1.m_diskType = s.m_diskType ∧ s1.m_sectorsPerTrack = s.m_sectorsPerTrack := by
  unfold writeLoop
  have hc := reseek_frame br upperSurface cylinder retries s d
  have hg := reseek_geom br upperSurface cylinder retries s d
  generalize reseek br upperSurface cylinder retries s d = c at hc hg
  obtain ⟨r, cs, cdv⟩ := c
  dsimp only at hc hg ⊢
  rw [if_neg (by simp [hdisk]), if_pos (hwrite _ _ _ _ _ _)]
  obtain ⟨s1, d1, ha⟩ := awaitWrite_timeout br cylinder
    (br.GetTickCount64 (br.mfmWrite cylinder upperSurface
      (decide ((motorInUse br upperSurface cs
          (br.cylinderSeek cylinder upperSurface cdv)).1.m_diskType = SectorType.stIBM ∨
        (motorInUse br upperSurface cs
          (br.cylinderSeek cylinder upperSurface cdv)).1.m_diskType = SectorType.stAtari))
      (motorInUse br upperSurface cs
        (br.cylinderSeek cylinder upperSurface cdv)).1.m_mfmBuffer numBytes
      (motorInUse br upperSurface cs (br.cylinderSeek cylinder upperSurface cdv)).2).2).1
    hstall hclock k
    (motorInUse br upperSurface cs (br.cylinderSeek cylinder upperSurface cdv)).1
    (br.GetTickCount64 (br.mfmWrite cylinder upperSurface
      (decide ((motorInUse br upperSurface cs
          (br.cylinderSeek cylinder upperSurface cdv)).1.m_diskType = SectorType.stIBM ∨
        (motorInUse br upperSurface cs
          (br.cylinderSeek cylinder upperSurface cdv)).1.m_diskType = SectorType.stAtari))
      (motorInUse br upperSurface cs
        (br.cylinderSeek cylinder upperSurface cdv)).1.m_mfmBuffer numBytes
      (motorInUse br upperSurface cs (br.cylinderSeek cylinder upperSurface cdv)).2).2).2
    (by
      have hx := hclock (br.mfmWrite cylinder upperSurface
        (decide ((motorInUse br upperSurface cs
            (br.cylinderSeek cylinder upperSurface cdv)).1.m_diskType = SectorType.stIBM ∨
          (motorInUse br upperSurface cs
            (br.cylinderSeek cylinder upperSurface cdv)).1.m_diskType = SectorType.stAtari))
        (motorInUse br upperSurface cs
          (br.cylinderSeek cylinder upperSurface cdv)).1.m_mfmBuffer numBytes
        (motorInUse br upperSurface cs (br.cylinderSeek cylinder upperSurface cdv)).2).2
      omega)
  have hf := awaitWrite_frame br cylinder _ (k + 1) _ _ false s1 d1 ha
  have hfg := awaitWrite_geom br cylinder _ (k + 1) _ _ false s1 d1 ha
  rw [ha]
  exact ⟨s1, d1, rfl, hf.2.1.trans hc.2, hfg.1.trans hg.1, hfg.2.1.trans hg.2⟩

theorem flushTrack_timeout {δ : Type} (br : Bridge δ) (cd : Codec) (en : Encoder)
    (hready : ∀ x, br.motorReady x = true) (hdisk : ∀ x, br.isDiskInDrive x = true)
    (hread : ∀ a b c e x, (br.mfmRead a b c e x).1.1 ≠ 0)
    (hwrite : ∀ a b c e f x, (br.mfmWrite a b c e f x).1 = true)
    (hstall : ∀ x, br.writeCompleted x = false)
    (hclock : ∀ x, (br.GetTickCount64 x).1 < (br.GetTickCount64 (br.GetTickCount64 x).2).1)
    (k track : Nat) (hk : DISK_WRITE_TIMEOUT ≤ k) (self : SectorCacheMFM) (d : δ) :
    ∃ s1 d1, flushTrack br cd en (k + 1) track self d = some (false, s1, d1) ∧
      s1.m_tracksToFlush = self.m_tracksToFlush ∧
      (self.m_diskType ≠ SectorType.stUnknown →
        s1.m_diskType = self.m_diskType ∧ s1.m_sectorsPerTrack = self.m_sectorsPerTrack) := by
  unfold flushTrack
  dsimp only
  rw [waitForMotor_ready br hready]
  dsimp only
  obtain ⟨p, hp⟩ := prepareTrack_some br cd hread k track
    (motorInUse br (decide (track % self.m_numHeads 0 ≠ 0))
      (motorInUse br (decide (track % self.m_numHeads 0 ≠ 0)) self d).1
      (br.cylinderSeek (track / self.m_numHeads 0) (decide (track % self.m_numHeads 0 ≠ 0))
        (motorInUse br (decide (track % self.m_numHeads 0 ≠ 0)) self d).2)).1
    (br.cylinderSeek (track / self.m_numHeads 0) (decide (track % self.m_numHeads 0 ≠ 0))
      (motorInUse br (decide (track % self.m_numHeads 0 ≠ 0))
        (motorInUse br (decide (track % self.m_numHeads 0 ≠ 0)) self d).1
        (br.cylinderSeek (track / self.m_numHeads 0) (decide (track % self.m_numHeads 0 ≠ 0))
          (motorInUse br (decide (track % self.m_numHeads 0 ≠ 0)) self d).2)).2)
  have hpf := prepareTrack_frame br cd (k + 1) track _ _ p.1 p.2 hp
  rw [hp]
  dsimp only
  obtain ⟨s1, d1, hw, hwd, hwt, hws⟩ := writeLoop_timeout br cd track
    (decide (track % self.m_numHeads 0 ≠ 0)) (track / self.m_numHeads 0)
    (encodeTrack en (br.isHD p.2) track p.1).1 hdisk hwrite hstall hclock k k 0 hk
    (encodeTrack en (br.isHD p.2) track p.1).2 p.2
  rw [hw]
  refine ⟨s1, d1, rfl, hwd.trans hpf.2, fun hu => ?_⟩
  have hu1 : (motorInUse br (decide (track % self.m_numHeads 0 ≠ 0))
      (motorInUse br (decide (track % self.m_numHeads 0 ≠ 0)) self d).1
      (br.cylinderSeek (track / self.m_numHeads 0) (decide (track % self.m_numHeads 0 ≠ 0))
        (motorInUse br (decide (track % self.m_numHeads 0 ≠ 0)) self d).2)).1.m_diskType ≠
      SectorType.stUnknown := hu
  have hpg := prepareTrack_geom br cd (k + 1) track
    (motorInUse br (decide (track % self.m_numHeads 0 ≠ 0))
      (motorInUse br (decide (track % self.m_numHeads 0 ≠ 0)) self d).1
      (br.cylinderSeek (track / self.m_numHeads 0) (decide (track % self.m_numHeads 0 ≠ 0))
        (motorInUse br (decide (track % self.m_numHeads 0 ≠ 0)) self d).2)).1 _ p.1 p.2 hu1 hp
  have heg := encodeTrack_geom en (br.isHD p.2) track p.1
  exact ⟨hwt.trans (heg.1.trans hpg.1), hws.trans (heg.2.trans hpg.2)⟩

/-- A write is accepted once the guards of lines 469-474 are passed: `m_blockWriting` false, a
known disk type other than hybrid, a drive that is not write protected and a track below
`MAX_TRACKS`. -/
theorem internalWriteData_accepts {δ : Type} (br : Bridge δ)
    (fl : SectorCacheMFM → δ → Bool × SectorCacheMFM × δ) (self : SectorCacheMFM) (d : δ)
    (sectorNumber sectorSize : Nat) (data : List Nat) (hb : self.m_blockWriting = false)
    (hh : self.m_diskType ≠ SectorType.stHybrid) (hu : self.m_diskType ≠ SectorType.stUnknown)
    (hp : br.isDriveWriteProtected d = false)
    (ht : toInt32 (sectorNumber / self.m_sectorsPerTrack 0) < (MAX_TRACKS : Int)) :
    (internalWriteData br fl self d sectorNumber sectorSize data).1 = true := by
  unfold internalWriteData
  rw [if_neg (by simp [hb]), if_neg (by simp [hh, hu]), if_neg (by simp [hp])]
  dsimp only
  rw [if_neg (not_le.2 ht)]
  split
  · split_ifs <;> rfl
  · split_ifs <;> rfl

/-- C15, amended: on a drive whose motor is ready, whose disk stays in place, which delivers
flux, accepts every `mfmWrite` and never reports `writeCompleted()`, with a clock that advances
at every reading, a flush of a non-empty dirty map (entered with `m_blockWriting` false, every
loop allowed more than `DISK_WRITE_TIMEOUT` iterations) returns false from the first dirty track
and leaves `m_blockWriting` false and the dirty map as it was; a write that follows is accepted:
on a disk of known type other than hybrid, with the drive not write protected, `internalWriteData`
returns true for every sector of a track below `MAX_TRACKS`. -/
theorem flushPendingWrites_write_timeout {δ : Type} (br : Bridge δ) (cd : Codec) (en : Encoder)
    (hready : ∀ x, br.motorReady x = true) (hdisk : ∀ x, br.isDiskInDrive x = true)
    (hread : ∀ a b c e x, (br.mfmRead a b c e x).1.1 ≠ 0)
    (hwrite : ∀ a b c e f x, (br.mfmWrite a b c e f x).1 = true)
    (hstall : ∀ x, br.writeCompleted x = false)
    (hclock : ∀ x, (br.GetTickCount64 x).1 < (br.GetTickCount64 (br.GetTickCount64 x).2).1)
    (F : Nat) (hF : DISK_WRITE_TIMEOUT < F) (self : SectorCacheMFM) (d : δ)
    (hb : self.m_blockWriting = false) (hdirty : self.m_tracksToFlush ≠ []) :
    ∃ s1 d1, flushPendingWrites br cd en F self d = some (false, s1, d1) ∧
      s1.m_blockWriting = false ∧ s1.m_tracksToFlush = self.m_tracksToFlush ∧
      (self.m_diskType ≠ SectorType.stHybrid → self.m_diskType ≠ SectorType.stUnknown →
        br.isDriveWriteProtected d1 = false →
        ∀ (fl : SectorCacheMFM → δ → Bool × SectorCacheMFM × δ) (sectorNumber sectorSize : Nat)
          (data : List Nat),
          toInt32 (sectorNumber / self.m_sectorsPerTrack 0) < (MAX_TRACKS : Int) →
          (internalWriteData br fl s1 d1 sectorNumber sectorSize data).1 = true) := by
  obtain ⟨k, rfl⟩ : ∃ k, F = k + 1 := ⟨F - 1, by omega⟩
  cases hl : self.m_tracksToFlush with
  | nil => exact absurd hl hdirty
  | cons e rest =>
    obtain ⟨s1, d1, h1, h2, h3⟩ := flushTrack_timeout br cd en hready hdisk hread hwrite hstall
      hclock k e.1 (by omega) self d
    have hfl : flushPendingWrites br cd en (k + 1) self d = some (false, s1, d1) := by
      unfold flushPendingWrites
      rw [if_neg (by simp [hb]), hl]
      unfold flushTracks
      rw [h1]
    have hb1 : s1.m_blockWriting = false := by
      rw [flushPendingWrites_blockWriting br cd en (k + 1) self d false s1 d1 hfl]
      exact hb
    refine ⟨s1, d1, hfl, hb1, h2.trans hl, ?_⟩
    intro hh hu hp fl sectorNumber sectorSize data ht
    obtain ⟨g1, g2⟩ := h3 hu
    exact internalWriteData_accepts br fl s1 d1 sectorNumber sectorSize data hb1
      (by rw [g1]; exact hh) (by rw [g1]; exact hu) hp (by rw [g2]; exact ht)

/-- C15 on the drive `Bridge.stalled` and the engine `ibmWritten`: the flush returns false with
`m_blockWriting` false and track 0 still dirty, and the write of sector 9 (track 1) that follows
is accepted. -/
theorem flushPendingWrites_write_timeout_witness :
    ∃ s1 d1, flushPendingWrites Bridge.stalled Codec.echo Encoder.plain 2001 ibmWritten 0 =
        some (false, s1, d1) ∧
      s1.m_blockWriting = false ∧ s1.m_tracksToFlush = [(0, 1)] ∧
      (internalWriteData Bridge.stalled (fun s x => (true, s, x)) s1 d1 9 512
        (List.replicate 512 0xE5)).1 = true := by
  obtain ⟨s1, d1, h1, h2, h3, h4⟩ :=
    flushPendingWrites_write_timeout Bridge.stalled Codec.echo Encoder.plain (fun _ => rfl)
      (fun _ => rfl) (fun _ _ _ _ _ => (by decide : (100000 : Nat) ≠ 0))
      (fun _ _ _ _ _ _ => rfl) (fun _ => rfl)
      (fun x => Nat.lt_add_of_pos_right (by decide)) 2001 (by decide) ibmWritten 0 rfl
      (List.cons_ne_nil _ _)
  exact ⟨s1, d1, h1, h2, h3,
    h4 (by decide) (by decide) rfl (fun s x => (true, s, x)) 9 512 (List.replicate 512 0xE5)
      (by decide)⟩

/-- C15 as stated fails at the write time-out. On `Bridge.stalled` (disk in place, no write ever
completes) the flush of `ibmWritten` returns false with `m_blockWriting` false, and the write of
another sector that follows is accepted. -/
theorem flushPendingWrites_blockWriting_counterexample :
    (flushPendingWrites Bridge.stalled Codec.echo Encoder.plain 10 ibmWritten 0).map
        (fun r => (r.1, r.2.1.m_blockWriting)) = some (false, false) ∧
      (flushPendingWrites Bridge.stalled Codec.echo Encoder.plain 10 ibmWritten 0).map
        (fun r => (internalWriteData Bridge.stalled (fun s x => (true, s, x)) r.2.1 r.2.2 9 512
          (List.replicate 512 0xE5)).1) = some true := by
  constructor <;> rfl

end SectorCacheMFM

end DiskFlashback

namespace DiskFlashback

namespace SectorRW_File

/-! ## C21: the MSA track index -/

theorem guess_values (imageSize sectorSize : Nat) :
    GuessSectorsPerTrackFromImageSize imageSize sectorSize = 9 ∨
    GuessSectorsPerTrackFromImageSize imageSize sectorSize = 10 ∨
    GuessSectorsPerTrackFromImageSize imageSize sectorSize = 11 ∨
    GuessSectorsPerTrackFromImageSize imageSize sectorSize = 18 ∨
    GuessSectorsPerTrackFromImageSize imageSize sectorSize = 22 := by
  unfold GuessSectorsPerTrackFromImageSize
  dsimp only
  split_ifs <;> simp

theorem guessGeometry_unknown (fle : FILE) (s : SectorRW_File)
    (hs : s.m_sectorsPerTrack = 0) (ht : s.m_totalTracks = 0) :
    (guessGeometry fle s).m_sectorsPerTrack =
        GuessSectorsPerTrackFromImageSize (u32 (GetFileSize fle)) defaultSectorSize ∧
      (guessGeometry fle s).m_totalTracks =
        u32 ((GetFileSize fle /
          GuessSectorsPerTrackFromImageSize (u32 (GetFileSize fle)) defaultSectorSize) /
          s.m_bytesPerSector) := by
  have hp := guess_values (u32 (GetFileSize fle)) defaultSectorSize
  have hne : GuessSectorsPerTrackFromImageSize (u32 (GetFileSize fle)) defaultSectorSize ≠ 0 := by
    omega
  unfold guessGeometry
  simp only [hs, ht, if_true, hne, ne_eq, not_false_eq_true]
  exact ⟨trivial, trivial⟩

/-- C26, amended: for an image file of any size left without boot-sector values (sectors per
track and total tracks still 0, 512 bytes per sector), the geometry guessed at lines 140-141 never
exceeds the file, `sectorsPerTrack * totalTracks * 512 <= fileSize`, and
`sectorsPerTrack * totalTracks = fileSize / 512` whenever the file size is an exact multiple of
`sectorsPerTrack * 512` and the number of tracks `fileSize / (sectorsPerTrack * 512)` is below
`2^32`, the range of the 32-bit track count. -/
theorem guessGeometry_capacity (fle : FILE) (s : SectorRW_File)
    (hs : s.m_sectorsPerTrack = 0) (ht : s.m_totalTracks = 0) (hb : s.m_bytesPerSector = 512) :
    (guessGeometry fle s).m_sectorsPerTrack * (guessGeometry fle s).m_totalTracks * 512 ≤
        GetFileSize fle ∧
      (GetFileSize fle % ((guessGeometry fle s).m_sectorsPerTrack * 512) = 0 →
        GetFileSize fle / ((guessGeometry fle s).m_sectorsPerTrack * 512) < 2 ^ 32 →
        (guessGeometry fle s).m_sectorsPerTrack * (guessGeometry fle s).m_totalTracks =
          GetFileSize fle / 512) := by
  obtain ⟨h1, h2⟩ := guessGeometry_unknown fle s hs ht
  have hp := guess_values (u32 (GetFileSize fle)) defaultSectorSize
  rw [h1, h2, hb]
  generalize GuessSectorsPerTrackFromImageSize (u32 (GetFileSize fle)) defaultSectorSize = p
    at hp
  generalize GetFileSize fle = z
  unfold u32
  rcases hp with rfl | rfl | rfl | rfl | rfl <;> refine ⟨?_, ?_⟩ <;> omega

/-- C26 on a 720 KiB image (737280 bytes) opened without a boot sector: the guess is 9 sectors per
track and 160 tracks, 1440 sectors in all. -/
theorem guessGeometry_capacity_witness :
    (guessGeometry ⟨List.replicate 737280 0, 0⟩
          (initial ⟨List.replicate 737280 0, 0⟩)).m_sectorsPerTrack *
        (guessGeometry ⟨List.replicate 737280 0, 0⟩
          (initial ⟨List.replicate 737280 0, 0⟩)).m_totalTracks * 512 ≤
      GetFileSize ⟨List.replicate 737280 0, 0⟩ :=
  (guessGeometry_capacity ⟨List.replicate 737280 0, 0⟩ (initial ⟨List.replicate 737280 0, 0⟩)
    rfl rfl rfl).1

/-- C26 as stated fails for a very large file. For an image of `2^32 * 11 * 512` bytes the size
handed to the guess is truncated to 32 bits (0, so 11 sectors per track), the file size is an exact
multiple of `11 * 512`, and the track count `2^32` does not fit the 32-bit member: the geometry
reports 0 sectors, not `fileSize / 512`. -/
theorem guessGeometry_capacity_counterexample :
    GetFileSize ⟨List.replicate (2 ^ 32 * 11 * 512) 0, 0⟩ %
        ((guessGeometry ⟨List.replicate (2 ^ 32 * 11 * 512) 0, 0⟩
          (initial ⟨List.replicate (2 ^ 32 * 11 * 512) 0, 0⟩)).m_sectorsPerTrack * 512) = 0 ∧
      (guessGeometry ⟨List.replicate (2 ^ 32 * 11 * 512) 0, 0⟩
          (initial ⟨List.replicate (2 ^ 32 * 11 * 512) 0, 0⟩)).m_sectorsPerTrack *
        (guessGeometry ⟨List.replicate (2 ^ 32 * 11 * 512) 0, 0⟩
          (initial ⟨List.replicate (2 ^ 32 * 11 * 512) 0, 0⟩)).m_totalTracks ≠
      GetFileSize ⟨List.replicate (2 ^ 32 * 11 * 512) 0, 0⟩ / 512 := by
  obtain ⟨h1, h2⟩ := guessGeometry_unknown ⟨List.replicate (2 ^ 32 * 11 * 512) 0, 0⟩
    (initial ⟨List.replicate (2 ^ 32 * 11 * 512) 0, 0⟩) rfl rfl
  have hz : GetFileSize ⟨List.replicate (2 ^ 32 * 11 * 512) 0, 0⟩ = 2 ^ 32 * 11 * 512 :=
    List.length_replicate _ _
  have hb : (initial ⟨List.replicate (2 ^ 32 * 11 * 512) 0, 0⟩).m_bytesPerSector = 512 := rfl
  rw [h1, h2, hb, hz]
  have hg : GuessSectorsPerTrackFromImageSize (u32 (2 ^ 32 * 11 * 512)) defaultSectorSize =
      11 := by
    decide
  rw [hg]
  constructor <;> decide

end SectorRW_File

namespace SectorCacheMFM

/-! ## C27: cutting a track down to `m_sectorsPerTrack[0]` sectors -/

theorem last_key_ge (m : List (Nat × DecodedSector))
    (hm : m.Pairwise (fun a b => a.1 < b.1)) :
    ∀ lo, (∀ y ∈ m, lo ≤ y.1) → ∀ x, m.getLast? = some x → lo + m.length ≤ x.1 + 1 := by
  induction m with
  | nil => intro lo _ x hx; cases hx
  | cons a rest ih =>
    intro lo hlo x hx
    rw [List.pairwise_cons] at hm
    cases rest with
    | nil =>
      simp only [List.getLast?_singleton, Option.some.injEq] at hx
      subst hx
      have := hlo a (List.mem_cons_self _ _)
      simp only [List.length_singleton]
      omega
    | cons b rest2 =>
      rw [List.getLast?_cons_cons] at hx
      have h1 := ih hm.2 (lo + 1) (fun y hy => by
        have ha := hlo a (List.mem_cons_self _ _)
        have hy2 := hm.1 y hy
        omega) x hx
      simp only [List.length_cons] at h1 ⊢
      omega

/-- C27: when the sectors of a track are kept in ascending order of distinct, non-negative
indices (a `std::map`), the loop of lines 586-587 that erases the highest index while the track has
more than `spt` sectors never removes a sector whose index is below `spt` - in particular none
at an index `sectorNumber mod spt`, where `internalWriteData` puts what the user writes - and the
track it leaves has at most `spt` sectors. -/
theorem truncate_keeps_low (spt : Nat) (m : List (Nat × DecodedSector))
    (hm : m.Pairwise (fun a b => a.1 < b.1)) :
    (∀ e ∈ m, e.1 < spt → e ∈ truncate spt m.length m) ∧
      (∀ sectorNumber, 0 < spt → ∀ e ∈ m, e.1 = sectorNumber % spt →
        e ∈ truncate spt m.length m) ∧
      (truncate spt m.length m).length ≤ spt := by
  have key : ∀ (n : Nat) (l : List (Nat × DecodedSector)),
      l.Pairwise (fun a b => a.1 < b.1) → l.length ≤ spt + n →
      (∀ e ∈ l, e.1 < spt → e ∈ truncate spt n l) ∧ (truncate spt n l).length ≤ spt := by
    intro n
    induction n with
    | zero =>
      intro l _ hl
      exact ⟨fun e he _ => he, by simpa [truncate] using hl⟩
    | succ n ih =>
      intro l hp hl
      unfold truncate
      by_cases hlen : l.length > spt
      · rw [if_pos hlen]
        cases hlast : l.getLast? with
        | none =>
          rw [List.getLast?_eq_none_iff] at hlast
          subst hlast
          simp at hlen
        | some x =>
          dsimp only
          have hx := last_key_ge l hp 0 (fun _ _ => Nat.zero_le _) x hlast
          have hxmem : x ∈ l := List.mem_of_getLast?_eq_some hlast
          have hlt : (mapErase x.1 l).length < l.length := by
            unfold mapErase
            apply List.length_filter_lt_length_iff_exists.2
            exact ⟨x, hxmem, by simp⟩
          obtain ⟨i1, i2⟩ := ih (mapErase x.1 l) (List.Pairwise.filter _ hp) (by omega)
          refine ⟨fun e he hlow => i1 e ?_ hlow, i2⟩
          unfold mapErase
          rw [List.mem_filter]
          refine ⟨he, ?_⟩
          have : e.1 ≠ x.1 := by omega
          simpa using this
      · rw [if_neg hlen]
        exact ⟨fun e he _ => he, by omega⟩
  obtain ⟨k1, k2⟩ := key m.length m hm (by omega)
  exact ⟨k1, fun sectorNumber hs e he hk => k1 e he (by rw [hk]; exact Nat.mod_lt _ hs), k2⟩

theorem blankTrack_sorted (n : Nat) :
    (blankTrack n).sectors.Pairwise (fun a b => a.1 < b.1) := by
  unfold blankTrack
  exact List.pairwise_map.2 (List.pairwise_lt_range n)

/-- C27 on a track of eleven sectors 0..10 cut to nine: sector 8 is kept. -/
theorem truncate_keeps_low_witness :
    ((8 : Nat), (⟨List.replicate 512 0, 0⟩ : DecodedSector)) ∈
      truncate 9 (blankTrack 11).sectors.length (blankTrack 11).sectors :=
  (truncate_keeps_low 9 (blankTrack 11).sectors (blankTrack_sorted 11)).1
    (8, ⟨List.replicate 512 0, 0⟩)
    (List.mem_map.2 ⟨8, List.mem_range.2 (by decide), rfl⟩) (by decide)

end SectorCacheMFM

end DiskFlashback

namespace DiskFlashback

namespace SectorCacheMFM

/-! ## C24: `waitForMotor` on a motor that never becomes ready -/

theorem waitLoop_restarts {δ : Type} (br : Bridge δ) (upperSide : Bool)
    (hnever : ∀ x, br.motorReady x = false)
    (hstep : ∀ x, (br.GetTickCount64 (br.sleep 100 (br.GetTickCount64 x).2)).1 -
      (br.GetTickCount64 x).1 ≤ MOTOR_TIMEOUT_TIME) :
    ∀ (n : Nat) (s : SectorCacheMFM) (x : δ),
      s.m_motorTurnOnTime = (br.GetTickCount64 x).1 →
      waitLoop br upperSide n s (br.GetTickCount64 x).2 = none := by
  intro n
  induction n with
  | zero => intro s x _; rfl
  | succ n ih =>
    intro s x hs
    unfold waitLoop
    dsimp only
    rw [if_neg (by simp [hnever]), if_neg (by rw [hs]; exact Nat.not_lt.2 (hstep x))]
    exact ih _ _ rfl

/-- C24: when `motorReady()` never becomes true and no more than `MOTOR_TIMEOUT_TIME` passes
between one reading of the clock and the reading after the next 100 ms sleep, `waitForMotor`
never returns, however many iterations `F` it is allowed: line 238 calls `motorInUse` in every
iteration, which sets `m_motorTurnOnTime` to the current time, so the test of line 236 measures
the time since the previous iteration and not since the call. -/
theorem waitForMotor_never_times_out {δ : Type} (br : Bridge δ)
    (hnever : ∀ x, br.motorReady x = false)
    (hstep : ∀ x, (br.GetTickCount64 (br.sleep 100 (br.GetTickCount64 x).2)).1 -
      (br.GetTickCount64 x).1 ≤ MOTOR_TIMEOUT_TIME)
    (F : Nat) (upperSide : Bool) (self : SectorCacheMFM) (d : δ) :
    waitForMotor br F upperSide self d = none := by
  unfold waitForMotor
  dsimp only
  exact waitLoop_restarts br upperSide hnever hstep F _ _ rfl

/-- C24 on the drive `Bridge.seized`, where the clock advances by exactly the 100 ms of each
sleep: after 1000 iterations (100 seconds) `waitForMotor` has not returned. -/
theorem waitForMotor_never_times_out_witness :
    waitForMotor Bridge.seized 1000 false ibmDD 0 = none :=
  waitForMotor_never_times_out Bridge.seized (fun _ => rfl)
    (fun x => by
      show x + 100 - x ≤ 1000
      omega)
    1000 false ibmDD 0

/-! ## The error-policy flags

Neither `m_ignoreErrors` nor `m_alwaysIgnore` is assigned by a flush or by anything a flush or a
track read calls. -/

theorem identify_ignore (cd : Codec) (hd : Bool) (track bits : Nat) (self : SectorCacheMFM) :
    (identify cd hd track bits self).m_ignoreErrors = self.m_ignoreErrors ∧
      (identify cd hd track bits self).m_alwaysIgnore = self.m_alwaysIgnore := by
  unfold identify
  dsimp only
  split_ifs <;> (try split) <;> exact ⟨rfl, rfl⟩

theorem decodeFlux_ignore (cd : Codec) (hd : Bool) (fs track bits : Nat) (self : SectorCacheMFM) :
    (decodeFlux cd hd fs track bits self).m_ignoreErrors = self.m_ignoreErrors ∧
      (decodeFlux cd hd fs track bits self).m_alwaysIgnore = self.m_alwaysIgnore := by
  have hi := identify_ignore cd hd track bits self
  by_cases hu : self.m_diskType = SectorType.stUnknown
  · simp only [decodeFlux, hu, decide_True, if_true]
    generalize identify cd hd track bits self = s1 at hi ⊢
    split_ifs <;> exact hi
  · simp only [decodeFlux, hu, decide_False, Bool.false_eq_true, if_false]
    split_ifs <;> exact ⟨rfl, rfl⟩

theorem readFlux_ignore {δ : Type} (br : Bridge δ) (fs track : Nat) (retryMode : Bool)
    (start : Nat) : ∀ (fuel : Nat) (self : SectorCacheMFM) (d : δ) (o : Option Nat)
      (s : SectorCacheMFM) (d1 : δ),
      readFlux br fs track retryMode start fuel self d = some (o, s, d1) →
      s.m_ignoreErrors = self.m_ignoreErrors ∧ s.m_alwaysIgnore = self.m_alwaysIgnore := by
  intro fuel
  induction fuel with
  | zero => intro self d o s d1 h; simp [readFlux] at h
  | succ n ih =>
    intro self d o s d1 h
    unfold readFlux at h
    dsimp only at h
    by_cases hp : (pollFlux br fs track retryMode self d).1 = 0
    · rw [if_pos hp] at h
      by_cases ht : (br.GetTickCount64 (pollFlux br fs track retryMode self d).2.2).1 - start >
          TRACK_READ_TIMEOUT
      · rw [if_pos ht] at h
        cases h
        exact ⟨rfl, rfl⟩
      · rw [if_neg ht] at h
        have hr := ih _ _ _ _ _ h
        exact hr
    · rw [if_neg hp] at h
      cases h
      exact ⟨rfl, rfl⟩

theorem doTrackReading_ignore {δ : Type} (br : Bridge δ) (cd : Codec) (fuel fs track : Nat)
    (retryMode : Bool) (self : SectorCacheMFM) (d : δ) (b : Bool) (s : SectorCacheMFM) (d1 : δ)
    (h : doTrackReading br cd fuel fs track retryMode self d = some (b, s, d1)) :
    s.m_ignoreErrors = self.m_ignoreErrors ∧ s.m_alwaysIgnore = self.m_alwaysIgnore := by
  unfold doTrackReading at h
  dsimp only at h
  cases hr : readFlux br fs track retryMode (br.GetTickCount64 d).1 fuel self
      (br.GetTickCount64 d).2 with
  | none => rw [hr] at h; cases h
  | some r =>
    obtain ⟨o, s1, d2⟩ := r
    have hf := readFlux_ignore br fs track retryMode _ fuel self _ o s1 d2 hr
    rw [hr] at h
    cases o with
    | none =>
      cases h
      exact hf
    | some bits =>
      cases h
      have hd := decodeFlux_ignore cd (br.isHD d1) fs track bits s1
      exact ⟨hd.1.trans hf.1, hd.2.trans hf.2⟩

theorem waitLoop_ignore {δ : Type} (br : Bridge δ) (upperSide : Bool) :
    ∀ (n : Nat) (self : SectorCacheMFM) (d : δ) (b : Bool) (s : SectorCacheMFM) (d1 : δ),
      waitLoop br upperSide n self d = some (b, s, d1) →
      s.m_ignoreErrors = self.m_ignoreErrors ∧ s.m_alwaysIgnore = self.m_alwaysIgnore := by
  intro n
  induction n with
  | zero => intro self d b s d1 h; simp [waitLoop] at h
  | succ n ih =>
    intro self d b s d1 h
    unfold waitLoop at h
    dsimp only at h
    by_cases hr : br.motorReady d = true
    · rw [if_pos hr] at h
      cases h
      exact ⟨rfl, rfl⟩
    · rw [if_neg hr] at h
      by_cases ht : (br.GetTickCount64 (br.sleep 100 d)).1 - self.m_motorTurnOnTime >
          MOTOR_TIMEOUT_TIME
      · rw [if_pos ht] at h
        cases h
        exact ⟨rfl, rfl⟩
      · rw [if_neg ht] at h
        have hr := ih _ _ _ _ _ h
        exact hr

theorem waitForMotor_ignore {δ : Type} (br : Bridge δ) (F : Nat) (upperSide : Bool)
    (self : SectorCacheMFM) (d : δ) (b : Bool) (s : SectorCacheMFM) (d1 : δ)
    (h : waitForMotor br F upperSide self d = some (b, s, d1)) :
    s.m_ignoreErrors = self.m_ignoreErrors ∧ s.m_alwaysIgnore = self.m_alwaysIgnore := by
  have hr := waitLoop_ignore br upperSide F _ _ b s d1 h
  exact hr

theorem prepareTrack_ignore {δ : Type} (br : Bridge δ) (cd : Codec) (F track : Nat)
    (self : SectorCacheMFM) (d : δ) (s : SectorCacheMFM) (d1 : δ)
    (h : prepareTrack br cd F track self d = some (s, d1)) :
    s.m_ignoreErrors = self.m_ignoreErrors ∧ s.m_alwaysIgnore = self.m_alwaysIgnore := by
  unfold prepareTrack at h
  dsimp only at h
  by_cases hf : fillData self track = true
  · rw [if_pos hf] at h
    by_cases hw : self.m_writeOnly = true
    · rw [if_pos hw] at h
      cases h
      exact ⟨rfl, rfl⟩
    · rw [if_neg hw] at h
      cases hr : doTrackReading br cd F 0 track false self d with
      | none => rw [hr] at h; cases h
      | some r =>
        obtain ⟨b, s1, d2⟩ := r
        have hfr := doTrackReading_ignore br cd F 0 track false self d b s1 d2 hr
        rw [hr] at h
        cases h
        exact hfr
  · rw [if_neg hf] at h
    cases h
    exact ⟨rfl, rfl⟩

theorem awaitWrite_ignore {δ : Type} (br : Bridge δ) (cylinder start : Nat) :
    ∀ (n : Nat) (self : SectorCacheMFM) (d : δ) (b : Bool) (s : SectorCacheMFM) (d1 : δ),
      awaitWrite br cylinder start n self d = some (b, s, d1) →
      s.m_ignoreErrors = self.m_ignoreErrors ∧ s.m_alwaysIgnore = self.m_alwaysIgnore ∧
        s.m_trackCache = self.m_trackCache := by
  intro n
  induction n with
  | zero => intro self d b s d1 h; simp [awaitWrite] at h
  | succ n ih =>
    intro self d b s d1 h
    unfold awaitWrite at h
    dsimp only at h
    by_cases hc : br.writeCompleted d = true
    · rw [if_pos hc] at h
      cases h
      exact ⟨rfl, rfl, rfl⟩
    · rw [if_neg hc] at h
      by_cases ht : (br.GetTickCount64 d).1 - start > DISK_WRITE_TIMEOUT
      · rw [if_pos ht] at h
        cases h
        exact ⟨rfl, rfl, rfl⟩
      · rw [if_neg ht] at h
        exact ih _ _ _ _ _ h

theorem verifyRead_ignore {δ : Type} (br : Bridge δ) (cd : Codec) (F track : Nat)
    (retryMode : Bool) :
    ∀ (n : Nat) (self : SectorCacheMFM) (d : δ) (b : Bool) (s : SectorCacheMFM) (d1 : δ),
      verifyRead br cd F track retryMode n self d = some (b, s, d1) →
      s.m_ignoreErrors = self.m_ignoreErrors ∧ s.m_alwaysIgnore = self.m_alwaysIgnore := by
  intro n
  induction n with
  | zero => intro self d b s d1 h; simp [verifyRead] at h
  | succ n ih =>
    intro self d b s d1 h
    unfold verifyRead at h
    cases hr : doTrackReading br cd F 0 track retryMode self d with
    | none => rw [hr] at h; cases h
    | some r =>
      obtain ⟨ok, s1, d2⟩ := r
      have hfr := doTrackReading_ignore br cd F 0 track retryMode self d ok s1 d2 hr
      rw [hr] at h
      cases ok with
      | true =>
        dsimp only at h
        cases h
        exact hfr
      | false =>
        dsimp only at h
        by_cases hd : br.isDiskInDrive d2 = true
        · rw [if_neg (by simp [hd])] at h
          cases h
          exact hfr
        · rw [if_pos (by simpa using hd)] at h
          have hi := ih _ _ _ _ _ h
          exact ⟨hi.1.trans hfr.1, hi.2.trans hfr.2⟩

theorem removeFailedWritesFromCache_ignore (self : SectorCacheMFM) :
    (removeFailedWritesFromCache self).m_ignoreErrors = self.m_ignoreErrors ∧
      (removeFailedWritesFromCache self).m_alwaysIgnore = self.m_alwaysIgnore := by
  have key : ∀ (l : List (Nat × Nat)) (s : SectorCacheMFM),
      (l.foldl (fun s trk => if trk.2 ≠ 0 then setSectors s 0 trk.1 [] else s) s).m_ignoreErrors =
          s.m_ignoreErrors ∧
      (l.foldl (fun s trk => if trk.2 ≠ 0 then setSectors s 0 trk.1 [] else s) s).m_alwaysIgnore =
          s.m_alwaysIgnore := by
    intro l
    induction l with
    | nil => intro s; exact ⟨rfl, rfl⟩
    | cons e rest ih =>
      intro s
      rw [List.foldl_cons]
      obtain ⟨h1, h2⟩ := ih (if e.2 ≠ 0 then setSectors s 0 e.1 [] else s)
      have hb : (if e.2 ≠ 0 then setSectors s 0 e.1 [] else s).m_ignoreErrors =
          s.m_ignoreErrors ∧
          (if e.2 ≠ 0 then setSectors s 0 e.1 [] else s).m_alwaysIgnore = s.m_alwaysIgnore := by
        split_ifs <;> exact ⟨rfl, rfl⟩
      exact ⟨h1.trans hb.1, h2.trans hb.2⟩
  exact key self.m_tracksToFlush self

theorem reseek_ignore {δ : Type} (br : Bridge δ) (upperSurface : Bool) (cylinder retries : Nat)
    (self : SectorCacheMFM) (d : δ) :
    (reseek br upperSurface cylinder retries self d).2.1.m_ignoreErrors = self.m_ignoreErrors ∧
      (reseek br upperSurface cylinder retries self d).2.1.m_alwaysIgnore =
        self.m_alwaysIgnore := by
  unfold reseek
  split_ifs <;> exact ⟨rfl, rfl⟩

theorem writeLoop_ignore {δ : Type} (br : Bridge δ) (cd : Codec) (F track : Nat)
    (upperSurface : Bool) (cylinder numBytes : Nat) :
    ∀ (n retries : Nat) (self : SectorCacheMFM) (d : δ) (b : Bool) (s1 : SectorCacheMFM)
      (d1 : δ),
      writeLoop br cd F track upperSurface cylinder numBytes n retries self d =
        some (b, s1, d1) →
      s1.m_ignoreErrors = self.m_ignoreErrors ∧ s1.m_alwaysIgnore = self.m_alwaysIgnore := by
  intro n
  induction n with
  | zero => intro retries self d b s1 d1 h; simp [writeLoop] at h
  | succ n ih =>
    intro retries self d b s1 d1 h
    unfold writeLoop at h
    have hc := reseek_ignore br upperSurface cylinder retries self d
    generalize reseek br upperSurface cylinder retries self d = c at h hc
    obtain ⟨r, cs, cdv⟩ := c
    dsimp only at h hc
    by_cases hdisk : br.isDiskInDrive
        (motorInUse br upperSurface cs (br.cylinderSeek cylinder upperSurface cdv)).2 = true
    · rw [if_neg (by simp [hdisk])] at h
      generalize hm : motorInUse br upperSurface cs
        (br.cylinderSeek cylinder upperSurface cdv) = m at h hdisk
      have hmf : m.1.m_ignoreErrors = cs.m_ignoreErrors ∧
          m.1.m_alwaysIgnore = cs.m_alwaysIgnore := by
        rw [← hm]
        exact ⟨rfl, rfl⟩
      by_cases hw : (br.mfmWrite cylinder upperSurface
          (decide (m.1.m_diskType = SectorType.stIBM ∨ m.1.m_diskType = SectorType.stAtari))
          m.1.m_mfmBuffer numBytes m.2).1 = true
      · rw [if_pos hw] at h
        cases ha : awaitWrite br cylinder
            (br.GetTickCount64 (br.mfmWrite cylinder upperSurface
              (decide (m.1.m_diskType = SectorType.stIBM ∨ m.1.m_diskType = SectorType.stAtari))
              m.1.m_mfmBuffer numBytes m.2).2).1 F m.1
            (br.GetTickCount64 (br.mfmWrite cylinder upperSurface
              (decide (m.1.m_diskType = SectorType.stIBM ∨ m.1.m_diskType = SectorType.stAtari))
              m.1.m_mfmBuffer numBytes m.2).2).2 with
        | none => rw [ha] at h; cases h
        | some ra =>
          obtain ⟨oka, sw, dw⟩ := ra
          have haf := awaitWrite_ignore br cylinder _ F _ _ oka sw dw ha
          have h0 : sw.m_ignoreErrors = self.m_ignoreErrors ∧
              sw.m_alwaysIgnore = self.m_alwaysIgnore :=
            ⟨haf.1.trans (hmf.1.trans hc.1), haf.2.1.trans (hmf.2.trans hc.2)⟩
          rw [ha] at h
          cases oka with
          | false =>
            dsimp only at h
            cases h
            exact h0
          | true =>
            dsimp only at h
            cases hv : verifyRead br cd F track (decide (r > 1)) F sw dw with
            | none => rw [hv] at h; cases h
            | some rv =>
              obtain ⟨okv, sv, dv⟩ := rv
              have hvf := verifyRead_ignore br cd F track _ F sw dw okv sv dv hv
              have h1 : sv.m_ignoreErrors = self.m_ignoreErrors ∧
                  sv.m_alwaysIgnore = self.m_alwaysIgnore :=
                ⟨hvf.1.trans h0.1, hvf.2.trans h0.2⟩
              rw [hv] at h
              cases okv with
              | false =>
                dsimp only at h
                cases h
                exact h1
              | true =>
                dsimp only at h
                by_cases hvm : verifyMatches (sw.m_trackCache 0 track).sectors
                    (sv.m_trackCache 0 track).sectors = true
                · rw [if_pos hvm] at h
                  cases h
                  exact h1
                · rw [if_neg hvm] at h
                  obtain ⟨i1, i2⟩ := ih _ _ _ _ _ _ h
                  exact ⟨i1.trans h1.1, i2.trans h1.2⟩
      · rw [if_neg hw] at h
        cases h
        obtain ⟨q1, q2⟩ := removeFailedWritesFromCache_ignore m.1
        exact ⟨q1.trans (hmf.1.trans hc.1), q2.trans (hmf.2.trans hc.2)⟩
    · rw [if_pos (by simpa using hdisk)] at h
      cases h
      exact hc

theorem flushTrack_ignore {δ : Type} (br : Bridge δ) (cd : Codec) (en : Encoder) (F track : Nat)
    (self : SectorCacheMFM) (d : δ) (b : Bool) (s1 : SectorCacheMFM) (d1 : δ)
    (h : flushTrack br cd en F track self d = some (b, s1, d1)) :
    s1.m_ignoreErrors = self.m_ignoreErrors ∧ s1.m_alwaysIgnore = self.m_alwaysIgnore := by
  unfold flushTrack at h
  dsimp only at h
  cases hwm : waitForMotor br F (decide (track % self.m_numHeads 0 ≠ 0))
      (motorInUse br (decide (track % self.m_numHeads 0 ≠ 0)) self d).1
      (br.cylinderSeek (track / self.m_numHeads 0) (decide (track % self.m_numHeads 0 ≠ 0))
        (motorInUse br (decide (track % self.m_numHeads 0 ≠ 0)) self d).2) with
  | none => rw [hwm] at h; cases h
  | some rw1 =>
    obtain ⟨okm, s2, d2⟩ := rw1
    have hmf := waitForMotor_ignore br F _ _ _ okm s2 d2 hwm
    have hmf1 : s2.m_ignoreErrors = self.m_ignoreErrors := hmf.1
    have hmf2 : s2.m_alwaysIgnore = self.m_alwaysIgnore := hmf.2
    rw [hwm] at h
    cases okm with
    | false =>
      dsimp only at h
      cases h
      exact ⟨hmf1, hmf2⟩
    | true =>
      dsimp only at h
      cases hp : prepareTrack br cd F track s2
          (br.cylinderSeek (track / self.m_numHeads 0) (decide (track % self.m_numHeads 0 ≠ 0))
            d2) with
      | none => rw [hp] at h; cases h
      | some p =>
        obtain ⟨s3, d3⟩ := p
        have hpf := prepareTrack_ignore br cd F track s2 _ s3 d3 hp
        rw [hp] at h
        dsimp only at h
        cases hwl : writeLoop br cd F track (decide (track % self.m_numHeads 0 ≠ 0))
            (track / self.m_numHeads 0) (encodeTrack en (br.isHD d3) track s3).1 F 0
            (encodeTrack en (br.isHD d3) track s3).2 d3 with
        | none => rw [hwl] at h; cases h
        | some rl =>
          obtain ⟨okl, s4, d4⟩ := rl
          obtain ⟨i1, i2⟩ := writeLoop_ignore br cd F track _ _ _ F 0 _ d3 okl s4 d4 hwl
          have he1 : (encodeTrack en (br.isHD d3) track s3).2.m_ignoreErrors =
              s3.m_ignoreErrors := rfl
          have he2 : (encodeTrack en (br.isHD d3) track s3).2.m_alwaysIgnore =
              s3.m_alwaysIgnore := rfl
          have h4 : s4.m_ignoreErrors = self.m_ignoreErrors ∧
              s4.m_alwaysIgnore = self.m_alwaysIgnore :=
            ⟨i1.trans (he1.trans (hpf.1.trans hmf1)), i2.trans (he2.trans (hpf.2.trans hmf2))⟩
          rw [hwl] at h
          cases okl with
          | false =>
            dsimp only at h
            cases h
            exact h4
          | true =>
            dsimp only at h
            cases h
            exact h4

theorem flushTracks_ignore {δ : Type} (br : Bridge δ) (cd : Codec) (en : Encoder) (F : Nat) :
    ∀ (l : List (Nat × Nat)) (self : SectorCacheMFM) (d : δ) (b : Bool) (s1 : SectorCacheMFM)
      (d1 : δ), flushTracks br cd en F l self d = some (b, s1, d1) →
      s1.m_ignoreErrors = self.m_ignoreErrors ∧ s1.m_alwaysIgnore = self.m_alwaysIgnore := by
  intro l
  induction l with
  | nil =>
    intro self d b s1 d1 h
    simp only [flushTracks, Option.some.injEq, Prod.mk.injEq] at h
    rw [← h.2.1]
    exact ⟨rfl, rfl⟩
  | cons e rest ih =>
    intro self d b s1 d1 h
    unfold flushTracks at h
    cases hft : flushTrack br cd en F e.1 self d with
    | none => rw [hft] at h; cases h
    | some r =>
      obtain ⟨ok, s2, d2⟩ := r
      have hf := flushTrack_ignore br cd en F e.1 self d ok s2 d2 hft
      rw [hft] at h
      cases ok with
      | false =>
        dsimp only at h
        cases h
        exact hf
      | true =>
        dsimp only at h
        obtain ⟨i1, i2⟩ := ih _ _ _ _ _ h
        exact ⟨i1.trans hf.1, i2.trans hf.2⟩

theorem flushPendingWrites_ignore {δ : Type} (br : Bridge δ) (cd : Codec) (en : Encoder)
    (F : Nat) (self : SectorCacheMFM) (d : δ) (b : Bool) (s1 : SectorCacheMFM) (d1 : δ)
    (h : flushPendingWrites br cd en F self d = some (b, s1, d1)) :
    s1.m_ignoreErrors = self.m_ignoreErrors ∧ s1.m_alwaysIgnore = self.m_alwaysIgnore := by
  unfold flushPendingWrites at h
  by_cases hb : self.m_blockWriting = true
  · rw [if_pos hb] at h
    cases h
    exact ⟨rfl, rfl⟩
  · rw [if_neg hb] at h
    cases hft : flushTracks br cd en F self.m_tracksToFlush self d with
    | none => rw [hft] at h; cases h
    | some r =>
      obtain ⟨ok, s2, d2⟩ := r
      have hf := flushTracks_ignore br cd en F _ self d ok s2 d2 hft
      rw [hft] at h
      cases ok with
      | false =>
        dsimp only at h
        cases h
        exact hf
      | true =>
        dsimp only at h
        cases h
        obtain ⟨q1, q2⟩ := removeFailedWritesFromCache_ignore s2
        exact ⟨q1.trans hf.1, q2.trans hf.2⟩

/-! ## C23: the idle time-out of `motorMonitor` -/

/-- What the time-out part of `motorMonitor` (lines 179-185) does as a function of what
`flushPendingWrites` does: when `m_motorTurnOnTime` is non-zero and
`now - m_motorTurnOnTime > MOTOR_IDLE_TIMEOUT` it returns when the flush returns, with the motor
switched off, `m_motorTurnOnTime = 0`, `m_blockWriting = false` and `m_ignoreErrors` false unless
`m_alwaysIgnore` is set; otherwise the engine is unchanged and the drive has at most had its clock
read. -/
theorem idleTimeout_spec {δ : Type} (br : Bridge δ) (cd : Codec) (en : Encoder) (F : Nat)
    (self : SectorCacheMFM) (d : δ) :
    ((self.m_motorTurnOnTime ≠ 0 ∧
        (br.GetTickCount64 d).1 - self.m_motorTurnOnTime > MOTOR_IDLE_TIMEOUT) →
      idleTimeout br cd en F self d =
        (flushPendingWrites br cd en F self (br.GetTickCount64 d).2).map
          (fun r =>
            (({ r.2.1 with
                m_ignoreErrors := if self.m_alwaysIgnore then self.m_ignoreErrors else false,
                m_blockWriting := false, m_motorTurnOnTime := 0 } : SectorCacheMFM),
              br.motorEnable false false r.2.2))) ∧
    (¬ (self.m_motorTurnOnTime ≠ 0 ∧
        (br.GetTickCount64 d).1 - self.m_motorTurnOnTime > MOTOR_IDLE_TIMEOUT) →
      idleTimeout br cd en F self d =
        some (self, if self.m_motorTurnOnTime ≠ 0 then (br.GetTickCount64 d).2 else d)) := by
  constructor
  · rintro ⟨h0, ht⟩
    unfold idleTimeout
    dsimp only
    rw [if_pos h0, if_pos ht]
    cases hfl : flushPendingWrites br cd en F self (br.GetTickCount64 d).2 with
    | none => rfl
    | some r =>
      obtain ⟨b, s, d1⟩ := r
      obtain ⟨hi, ha⟩ := flushPendingWrites_ignore br cd en F self _ b s d1 hfl
      dsimp only [Option.map_some']
      congr 2
      cases s
      simp only at hi ha
      subst hi ha
      cases hal : self.m_alwaysIgnore <;> simp
  · intro hn
    unfold idleTimeout
    dsimp only
    by_cases h0 : self.m_motorTurnOnTime ≠ 0
    · have ht : ¬ (br.GetTickCount64 d).1 - self.m_motorTurnOnTime > MOTOR_IDLE_TIMEOUT :=
        fun h => hn ⟨h0, h⟩
      rw [if_pos h0, if_neg ht, if_pos h0]
    · rw [if_neg h0, if_neg h0]

/-- C23: with the motor on and idle for more than `MOTOR_IDLE_TIMEOUT`, on a drive that accepts
and completes every write over a surface whose read-back always mismatches (`Codec.noisy`), and a
PC disk whose first dirty track is track 0, complete and error-free in the cache, the time-out
part of `motorMonitor` never gets past `flushPendingWrites()`: for no number `F` of iterations
does it or `motorMonitor` return, so the motor is not switched off and no field is reset. -/
theorem idleTimeout_flush_diverges (F d : Nat) (hasCallback : Bool) (s : SectorCacheMFM)
    (c : Nat) (rest : List (Nat × Nat)) (hon : s.m_motorTurnOnTime ≠ 0)
    (hidle : d - s.m_motorTurnOnTime > MOTOR_IDLE_TIMEOUT) (hb : s.m_blockWriting = false)
    (hdirty : s.m_tracksToFlush = (0, c) :: rest) (hs : s.m_diskType = SectorType.stIBM)
    (hf : fillData s 0 = false) (hne : (s.m_trackCache 0 0).sectors ≠ [])
    (hlen : (s.m_trackCache 0 0).sectors.length ≤ s.m_sectorsPerTrack 0) :
    idleTimeout (Bridge.steady false) Codec.noisy Encoder.plain F s d = none ∧
      motorMonitor (Bridge.steady false) Codec.noisy Encoder.plain F hasCallback s d = none := by
  have h1 : idleTimeout (Bridge.steady false) Codec.noisy Encoder.plain F s d = none := by
    have hcond : s.m_motorTurnOnTime ≠ 0 ∧
        ((Bridge.steady false).GetTickCount64 d).1 - s.m_motorTurnOnTime >
          MOTOR_IDLE_TIMEOUT := ⟨hon, hidle⟩
    rw [(idleTimeout_spec (Bridge.steady false) Codec.noisy Encoder.plain F s d).1 hcond,
      flushPendingWrites_noisy_none F _ s c rest hb hdirty hs hf hne hlen]
    rfl
  refine ⟨h1, ?_⟩
  unfold motorMonitor
  rw [h1]

/-- C23 on the engine `ibmWritten` with the motor on since time 1 and the clock at 5000: with
1000 iterations allowed to every loop, `motorMonitor` has not returned. -/
theorem idleTimeout_flush_diverges_witness :
    motorMonitor (Bridge.steady false) Codec.noisy Encoder.plain 1000 true
      ({ ibmWritten with m_motorTurnOnTime := 1 }) 5000 = none :=
  (idleTimeout_flush_diverges 1000 5000 true ({ ibmWritten with m_motorTurnOnTime := 1 }) 1 []
    (by decide) (by decide) rfl rfl rfl rfl (List.cons_ne_nil _ _) (by decide)).2

end SectorCacheMFM

end DiskFlashback

namespace DiskFlashback

namespace SectorCacheMFM

/-! ## C22: the indices of the track cache -/

/-- In the hybrid layout with a single-sided PC side, a track read for plane 1 hands
`m_trackCache[0][track * 2]` to the Amiga finder (line 449). -/
theorem decodeFlux_hybrid_doubles (cd : Codec) (hd : Bool) (track bits : Nat)
    (s : SectorCacheMFM) (hs : s.m_diskType = SectorType.stHybrid) (hh : s.m_numHeads 1 ≠ 2) :
    (decodeFlux cd hd 1 track bits s).m_trackCache 0 (u32 (track * 2)) =
      cd.findSectors_AMIGA s.m_mfmBuffer bits hd (u32 (track * 2)) (s.m_sectorsPerTrack 0)
        (s.m_trackCache 0 (u32 (track * 2))) := by
  have hne : SectorType.stHybrid ≠ SectorType.stUnknown := by decide
  simp [decodeFlux, hs, hh, hne, storeIBM, storeAmiga, setAt]

/-- C22: on a hybrid disk whose PC side is single-sided, `readDataAllFS(1, 900, 512, data)` -
sector 900 is on track 100 of plane 1, below `MAX_TRACKS` - passes the test of line 275 and its
track read stores the eleven Amiga sectors in plane 0 at index 200, which is not below
`MAX_TRACKS`. -/
theorem readDataAllFS_index_out_of_range :
    (readDataAllFS (Bridge.steady false) (Codec.fixed 11 9 false none) Encoder.plain false 10
        1 900 512 (List.replicate 512 0) [] hybridSingleSided 0).map
      (fun r => (r.1, (r.2.2.1.m_trackCache 0 200).sectors.length,
        (r.2.2.1.m_trackCache 1 100).sectors.length, decide (MAX_TRACKS ≤ 200))) =
    some (true, 11, 9, true) := by
  rfl

/-! ## C25: the retries of `readDataAllFS` -/

end SectorCacheMFM

end DiskFlashback

